import Mathlib

/-! # Texture-Normal-Mapping: the mesh loader, the serialiser and the triangle rasteriser

A shallow embedding of `AttributedObject.cpp` (`ReadObjectStream`, `WriteObjectStream`,
`drawTriangle`, `outputTexture`, `outputNormal`).

Conventions of the embedding.

* `float` values are exact rationals (`ℚ`); `unsigned int` values are naturals reduced
  modulo `2 ^ 32` wherever the C++ arithmetic can wrap.
* `std::vector` is `List`; `push_back x` is `xs ++ [x]`.
* `std::istream` is the list of characters still to be read together with the two state
  bits the code can observe (`failbit`, `eofbit`).  The extraction operations follow the
  C++ standard library (the GNU implementation where the standard leaves a choice).
* `Cartesian3.h` is not among the sources: the vector class is modelled from its uses.
* A variable the C++ code reads before writing it has an indeterminate value: it is a
  parameter of the model.
-/

set_option autoImplicit false
set_option maxRecDepth 100000

/-! ## Cartesian3 -/

/-- Modelled from the spec: `Cartesian3.h` is not among the sources. A triple of floats
(`x`, `y`, `z`), here over exact arithmetic. -/
structure Cartesian3 where
  x : ℚ
  y : ℚ
  z : ℚ
  deriving DecidableEq, Repr

namespace Cartesian3

/-- Modelled from the spec: the default constructor of the absent `Cartesian3` class,
taken to produce the origin. -/
def zero : Cartesian3 := ⟨0, 0, 0⟩

/-- Modelled from the spec: `operator +` of the absent `Cartesian3` class. -/
def add (a b : Cartesian3) : Cartesian3 := ⟨a.x + b.x, a.y + b.y, a.z + b.z⟩

/-- Modelled from the spec: `operator -` of the absent `Cartesian3` class. -/
def sub (a b : Cartesian3) : Cartesian3 := ⟨a.x - b.x, a.y - b.y, a.z - b.z⟩

/-- Modelled from the spec: `operator /` (division by a scalar) of the absent
`Cartesian3` class. -/
def divScalar (a : Cartesian3) (k : ℚ) : Cartesian3 := ⟨a.x / k, a.y / k, a.z / k⟩

/-- Modelled from the spec: `operator *` (multiplication by a scalar) of the absent
`Cartesian3` class. -/
def mulScalar (a : Cartesian3) (k : ℚ) : Cartesian3 := ⟨a.x * k, a.y * k, a.z * k⟩

/-- Modelled from the spec: `dot` of the absent `Cartesian3` class. -/
def dot (a b : Cartesian3) : ℚ := a.x * b.x + a.y * b.y + a.z * b.z

/-- The square of the Euclidean length. -/
def normSq (a : Cartesian3) : ℚ := a.x * a.x + a.y * a.y + a.z * a.z

end Cartesian3

/-! ## std::istream -/

/-- An input stream: the characters not yet extracted and the state bits. `badbit` is
never set on the streams the loader reads and is left out. -/
structure IStream where
  buf : List Char
  failbit : Bool
  eofbit : Bool
  deriving DecidableEq, Repr

namespace IStream

/-- A stream opened on a text, in the good state. -/
def ofList (cs : List Char) : IStream := ⟨cs, false, false⟩

/-- The member `good()`: no state bit is set. -/
def good (s : IStream) : Bool := !s.failbit && !s.eofbit

/-- The member `get()`: one character, or `none` for `Traits::eof()`. On a stream that
is not good it sets `failbit` and extracts nothing; at the end of the input it sets
`eofbit` and `failbit`. -/
def get (s : IStream) : Option Char × IStream :=
  if s.good then
    match s.buf with
    | [] => (none, { s with failbit := true, eofbit := true })
    | c :: rest => (some c, { s with buf := rest })
  else (none, { s with failbit := true })

/-- The extraction loop of `getline`: removes at most `k` characters, stopping in front
of a newline. -/
def getlineLoop : Nat → List Char → List Char
  | 0, cs => cs
  | _ + 1, [] => []
  | k + 1, c :: cs => if c = '\n' then c :: cs else getlineLoop k cs

/-- The member `getline(buffer, n)` (the stored characters are not used by the loader).
Up to `n - 1` characters are extracted; then the end of the input sets `eofbit`, a
newline is extracted, and anything else sets `failbit`. Extracting nothing at all sets
`failbit`. -/
def getline (s : IStream) (n : Nat) : IStream :=
  if s.good then
    match getlineLoop (n - 1) s.buf with
    | [] => { buf := [], failbit := s.buf.isEmpty, eofbit := true }
    | c :: rest =>
      if c = '\n' then { s with buf := rest } else { s with buf := c :: rest, failbit := true }
  else { s with failbit := true }

/-- The classification `isspace` of the C locale. -/
def isspace (c : Char) : Bool :=
  c = ' ' || c = '\t' || c = '\n' || c = '\x0b' || c = '\x0c' || c = '\r'

/-- The sentry of a formatted extraction (`skipws` is set): fails on a stream that is
not good, otherwise skips white space and fails when that reaches the end. -/
def sentry (s : IStream) : Bool × IStream :=
  if s.good then
    match s.buf.dropWhile isspace with
    | [] => (false, { buf := [], failbit := true, eofbit := true })
    | c :: rest => (true, { s with buf := c :: rest })
  else (false, { s with failbit := true })

/-- The value of a decimal digit character. -/
def digitVal (c : Char) : Nat := c.toNat - 48

/-- The number a list of decimal digits denotes, most significant digit first. -/
def digitsVal (ds : List Char) : Nat := ds.foldl (fun acc c => 10 * acc + digitVal c) 0

/-- Removes an optional sign; the flag tells whether it was a minus. -/
def takeSign : List Char → Bool × List Char
  | '-' :: rest => (true, rest)
  | '+' :: rest => (false, rest)
  | cs => (false, cs)

/-- The extraction `>> unsigned int` into a variable holding `v`. When the sentry fails
the variable keeps its value. Otherwise an optional sign and the longest run of digits
are extracted: no digit gives 0 and `failbit`, a value above `2 ^ 32 - 1` gives
`2 ^ 32 - 1` and `failbit`, a minus sign negates modulo `2 ^ 32`; reaching the end of
the input sets `eofbit`. -/
def extractUInt (s : IStream) (v : Nat) : Nat × IStream :=
  let s1 := s.sentry.2
  if s.sentry.1 then
    let neg := (takeSign s1.buf).1
    let cs := (takeSign s1.buf).2
    let ds := cs.takeWhile Char.isDigit
    let rest := cs.dropWhile Char.isDigit
    let n := digitsVal ds
    let s2 : IStream := { s1 with buf := rest, eofbit := rest.isEmpty }
    if ds.isEmpty then (0, { s2 with failbit := true })
    else if 4294967295 < n then (4294967295, { s2 with failbit := true })
    else (if neg then (4294967296 - n) % 4294967296 else n, s2)
  else (v, s1)

/-- The value of a decimal literal: sign, integer digits, fraction digits, exponent. -/
def floatVal (neg : Bool) (ip fp : List Char) (eneg : Bool) (ep : List Char) : ℚ :=
  let m : ℚ := (digitsVal (ip ++ fp) : ℚ) / (10 : ℚ) ^ fp.length
  let e : ℚ := if eneg then 1 / (10 : ℚ) ^ digitsVal ep else (10 : ℚ) ^ digitsVal ep
  (if neg then -m else m) * e

/-- The extraction `>> float`. When the sentry fails the variable keeps its value `v`.
Otherwise the longest prefix of the shape sign, digits, point, digits, exponent is
extracted; when it is not a complete literal the value is 0 and `failbit` is set;
reaching the end of the input sets `eofbit`. -/
def extractFloat (s : IStream) (v : ℚ) : ℚ × IStream :=
  let s1 := s.sentry.2
  if s.sentry.1 then
    let neg := (takeSign s1.buf).1
    let cs := (takeSign s1.buf).2
    let ip := cs.takeWhile Char.isDigit
    let cs1 := cs.dropWhile Char.isDigit
    let hasPoint := cs1.head? = some '.'
    let cs2 := if hasPoint then cs1.tail else cs1
    let fp := if hasPoint then cs2.takeWhile Char.isDigit else []
    let cs3 := if hasPoint then cs2.dropWhile Char.isDigit else cs2
    let mantissa := !(ip.isEmpty && fp.isEmpty)
    let hasExp := mantissa && (cs3.head? = some 'e' || cs3.head? = some 'E')
    let eneg := if hasExp then (takeSign cs3.tail).1 else false
    let cs4 := if hasExp then (takeSign cs3.tail).2 else cs3
    let ep := if hasExp then cs4.takeWhile Char.isDigit else []
    let rest := if hasExp then cs4.dropWhile Char.isDigit else cs4
    let s2 : IStream := { s1 with buf := rest, eofbit := rest.isEmpty }
    if !mantissa || (hasExp && ep.isEmpty) then (0, { s2 with failbit := true })
    else (floatVal neg ip fp eneg ep, s2)
  else (v, s1)

/-- Modelled from the spec: `operator >>` of the absent `Cartesian3` class, which parses
3 floats into a default-constructed vector, one extraction after the other. -/
def extractCartesian3 (s : IStream) : Cartesian3 × IStream :=
  let rx := s.extractFloat Cartesian3.zero.x
  let ry := rx.2.extractFloat Cartesian3.zero.y
  let rz := ry.2.extractFloat Cartesian3.zero.z
  (⟨rx.1, ry.1, rz.1⟩, rz.2)

end IStream

/-! ## AttributedObject -/

/-- The data members of `AttributedObject` that the loader and the serialiser use.
`R` is the type of `objectSize` (a `float` that holds a Euclidean length). -/
structure AttributedObject (R : Type) where
  vertices : List Cartesian3
  colours : List Cartesian3
  normals : List Cartesian3
  textureCoords : List Cartesian3
  faceVertices : List Nat
  faceColours : List Nat
  faceNormals : List Nat
  faceTexCoords : List Nat
  centreOfGravity : Cartesian3
  objectSize : R
  deriving DecidableEq, Repr

/-- The four locals `vertexID`, `colourID`, `normalID`, `texCoordID` of the face case. -/
structure FaceIDs where
  vertexID : Nat
  colourID : Nat
  normalID : Nat
  texCoordID : Nat
  deriving DecidableEq, Repr

namespace AttributedObject

variable {R : Type}

/-- The constant `MAXIMUM_LINE_LENGTH`. -/
def MAXIMUM_LINE_LENGTH : Nat := 1024

/-- The constructor `AttributedObject()`: the eight arrays are empty and
`centreOfGravity` is the origin. `objectSize` has no initialiser: its indeterminate
value is the argument. -/
def new (objectSize : R) : AttributedObject R :=
  { vertices := [], colours := [], normals := [], textureCoords := [],
    faceVertices := [], faceColours := [], faceNormals := [], faceTexCoords := [],
    centreOfGravity := ⟨0, 0, 0⟩, objectSize := objectSize }

/-- The subtraction `id - 1` on `unsigned int`. -/
def subOne (id : Nat) : Nat := (id + 4294967295) % 4294967296

/-- One pass of the `per vertex` loop of the face case: four extractions separated by
three `get()` calls whose result is discarded, then four `push_back`. -/
def readCorner (st : FaceIDs × IStream × AttributedObject R) :
    FaceIDs × IStream × AttributedObject R :=
  let ids := st.1
  let o := st.2.2
  let rv := st.2.1.extractUInt ids.vertexID
  let rc := rv.2.get.2.extractUInt ids.colourID
  let rt := rc.2.get.2.extractUInt ids.texCoordID
  let rn := rt.2.get.2.extractUInt ids.normalID
  (⟨rv.1, rc.1, rn.1, rt.1⟩, rn.2,
    { o with
      faceVertices := o.faceVertices ++ [subOne rv.1]
      faceColours := o.faceColours ++ [subOne rc.1]
      faceNormals := o.faceNormals ++ [subOne rn.1]
      faceTexCoords := o.faceTexCoords ++ [subOne rt.1] })

/-- The face case: the four locals start indeterminate (`uninit`) and the `per vertex`
loop runs three times. -/
def readFace (uninit : FaceIDs) (s : IStream) (o : AttributedObject R) :
    IStream × AttributedObject R :=
  (readCorner (readCorner (readCorner (uninit, s, o)))).2

/-- The vertex-data case, after the second character was read without reaching the end
of the stream. -/
def readVertexData (secondChar : Option Char) (s : IStream) (o : AttributedObject R) :
    IStream × AttributedObject R :=
  let r := s.extractCartesian3
  if secondChar = some ' ' then (r.2, { o with vertices := o.vertices ++ [r.1] })
  else if secondChar = some 'c' then (r.2, { o with colours := o.colours ++ [r.1] })
  else if secondChar = some 'n' then (r.2, { o with normals := o.normals ++ [r.1] })
  else if secondChar = some 't' then (r.2, { o with textureCoords := o.textureCoords ++ [r.1] })
  else (s, o)

/-- The body of the `switch` on the first character, for a character that was read
without reaching the end of the stream. -/
def readSwitch (uninit : FaceIDs) (firstChar : Option Char) (s : IStream)
    (o : AttributedObject R) : IStream × AttributedObject R :=
  if firstChar = some '#' then (s.getline MAXIMUM_LINE_LENGTH, o)
  else if firstChar = some 'v' then
    let secondChar := s.get.1
    let s := s.get.2
    if s.eofbit then (s, o) else readVertexData secondChar s o
  else if firstChar = some 'f' then readFace uninit s o
  else (s, o)

/-- One pass of the loop `while (true)` of `ReadObjectStream`. The flag is `false` when
the pass leaves the loop (the `break` after `eof()`), `true` when the loop goes on. -/
def readPass (uninit : FaceIDs) (s : IStream) (o : AttributedObject R) :
    Bool × IStream × AttributedObject R :=
  let firstChar := s.get.1
  let s := s.get.2
  if s.eofbit then (false, s, o)
  else (true, readSwitch uninit firstChar s o)

/-- The loop `while (true)` of `ReadObjectStream`, with fuel: `none` when the loop has
not ended after `fuel` passes. -/
def readLoop (uninit : FaceIDs) :
    Nat → IStream → AttributedObject R → Option (IStream × AttributedObject R)
  | 0, _, _ => none
  | fuel + 1, s, o =>
    let r := readPass uninit s o
    if r.1 then readLoop uninit fuel r.2.1 r.2.2 else some r.2

/-- The sum `centreOfGravity = centreOfGravity + vertices[vertex]` over all vertices. -/
def sumVertices (c : Cartesian3) (vs : List Cartesian3) : Cartesian3 :=
  vs.foldl Cartesian3.add c

/-- The loop that computes `objectSize`: the largest `length()` seen so far is replaced
when a distance is greater. `length` is the member `length()` of the absent
`Cartesian3` class. -/
def maxDistance [LinearOrder R] (length : Cartesian3 → R) (c : Cartesian3)
    (size : R) (vs : List Cartesian3) : R :=
  vs.foldl (fun acc v => if length (v.sub c) > acc then length (v.sub c) else acc) size

/-- The part of `ReadObjectStream` after the read loop: the centre of gravity and the
object size. -/
def computeCentre [LinearOrder R] [Zero R] (length : Cartesian3 → R)
    (o : AttributedObject R) : AttributedObject R :=
  let centreOfGravity : Cartesian3 := ⟨0, 0, 0⟩
  if o.vertices.length ≠ 0 then
    let centreOfGravity :=
      (sumVertices centreOfGravity o.vertices).divScalar (o.vertices.length : ℚ)
    { o with
      centreOfGravity := centreOfGravity
      objectSize := maxDistance length centreOfGravity 0 o.vertices }
  else { o with centreOfGravity := centreOfGravity }

/-- The routine `ReadObjectStream`: the read loop, the derived fields, and the return
value, which is `true` on every path that returns. `none` when the read loop has not
ended after `fuel` passes. -/
def ReadObjectStream [LinearOrder R] [Zero R] (length : Cartesian3 → R) (uninit : FaceIDs)
    (fuel : Nat) (s : IStream) (o : AttributedObject R) :
    Option (Bool × IStream × AttributedObject R) :=
  match readLoop uninit fuel s o with
  | none => none
  | some (s1, o1) => some (true, s1, computeCentre length o1)

end AttributedObject

/-! ## The serialiser -/

namespace OStream

/-- The insertion `<<` of an unsigned integer: its decimal digits. -/
def showNat (n : Nat) : List Char := Nat.toDigits 10 n

/-- The digits of `r` padded with zeros on the left to the width `p`. -/
def padDigits (p r : Nat) : List Char :=
  List.replicate (p - (showNat r).length) '0' ++ showNat r

/-- The value `x` rounded to `p` decimals, as the number of units of `10 ^ (-p)` of its
absolute value. -/
def fixedUnits (p : Nat) (x : ℚ) : Nat := (round (|x| * (10 : ℚ) ^ p)).toNat

/-- Modelled from the spec: the insertion `<<` of a float under `std::fixed` with the
precision `p`. `Cartesian3.h`, whose `operator <<` chooses the precision, is not among
the sources. The text is the decimal expansion of `x` rounded to `p` decimals: a minus
sign when the rounded value is negative, the integer part, and, when `p` is not 0, a
point and `p` decimals. -/
def showFixed (p : Nat) (x : ℚ) : List Char :=
  let r := fixedUnits p x
  (if x < 0 ∧ r ≠ 0 then ['-'] else []) ++ showNat (r / 10 ^ p) ++
    (if p = 0 then [] else '.' :: padDigits p (r % 10 ^ p))

/-- Modelled from the spec: `operator <<` of the absent `Cartesian3` class, which writes
3 floats separated by a space. -/
def showCartesian3 (p : Nat) (v : Cartesian3) : List Char :=
  showFixed p v.x ++ ' ' :: showFixed p v.y ++ ' ' :: showFixed p v.z

end OStream

namespace AttributedObject

variable {R : Type}

/-- The addition `id + 1` on `unsigned int`. -/
def addOne (id : Nat) : Nat := (id + 1) % 4294967296

/-- The text written for one attribute array: each entry on a line of its own, after
its tag. -/
def writeAttributes (p : Nat) (tag : List Char) (vs : List Cartesian3) : List Char :=
  (vs.map (fun v => tag ++ OStream.showCartesian3 p v ++ ['\n'])).flatten

/-- The text written for the corner `i` of the face arrays: a space and the four
one-based indices in the order vertex, colour, texture coordinate, normal. `none` when
`i` is out of the range of one of the arrays. -/
def writeCorner (o : AttributedObject R) (i : Nat) : Option (List Char) :=
  match o.faceVertices[i]?, o.faceColours[i]?, o.faceTexCoords[i]?, o.faceNormals[i]? with
  | some fv, some fc, some ft, some fn =>
    some (' ' :: OStream.showNat (addOne fv) ++ '/' :: OStream.showNat (addOne fc) ++
      '/' :: OStream.showNat (addOne ft) ++ '/' :: OStream.showNat (addOne fn))
  | _, _, _, _ => none

/-- The text written by one pass of the `per face` loop, for the face that starts at
the corner `face`. -/
def writeFace (o : AttributedObject R) (face : Nat) : Option (List Char) :=
  match writeCorner o face, writeCorner o (face + 1), writeCorner o (face + 2) with
  | some c0, some c1, some c2 => some ('f' :: c0 ++ c1 ++ c2 ++ ['\n'])
  | _, _, _ => none

/-- The `per face` loop: `count` passes, the first for the face at the corner `face`,
each next one three corners further. -/
def writeFaces (o : AttributedObject R) : Nat → Nat → Option (List Char)
  | 0, _ => some []
  | count + 1, face =>
    match writeFace o face, writeFaces o count (face + 3) with
    | some l, some ls => some (l ++ ls)
    | _, _ => none

/-- The routine `WriteObjectStream`: the text it writes, `none` when it reads a face
array out of range. `p` is the precision of the floats. The loop
`for (face = 0; face < faceVertices.size(); face += 3)` makes
`(faceVertices.size() + 2) / 3` passes. Array sizes are taken to be below `2 ^ 32`,
the range of the loop counters. -/
def WriteObjectStream (p : Nat) (o : AttributedObject R) : Option (List Char) :=
  match writeFaces o ((o.faceVertices.length + 2) / 3) 0 with
  | none => none
  | some faces =>
    some ("# ".toList ++ OStream.showNat (o.faceVertices.length / 3) ++ " triangles\n".toList ++
      "\n".toList ++
      "# ".toList ++ OStream.showNat o.vertices.length ++ " vertices\n".toList ++
      writeAttributes p "v  ".toList o.vertices ++
      "# ".toList ++ OStream.showNat o.colours.length ++ " vertex colours\n".toList ++
      writeAttributes p "vc ".toList o.colours ++
      "# ".toList ++ OStream.showNat o.normals.length ++ " vertex normals\n".toList ++
      writeAttributes p "vn ".toList o.normals ++
      "# ".toList ++ OStream.showNat o.textureCoords.length ++ " vertex tex coords\n".toList ++
      writeAttributes p "vt ".toList o.textureCoords ++
      faces)

/-! ### drawTriangle: the edge functions -/

/-- The values `drawTriangle` computes from its six arguments before the scan: the
three line normals, the three line constants and the three distances. -/
structure EdgeSetup where
  normal01 : Cartesian3
  normal12 : Cartesian3
  normal20 : Cartesian3
  lineConstant01 : ℚ
  lineConstant12 : ℚ
  lineConstant20 : ℚ
  distance0 : ℚ
  distance1 : ℚ
  distance2 : ℚ
  deriving DecidableEq, Repr

/-- The set-up of `drawTriangle` for the corners `(x0, y0)`, `(x1, y1)`, `(x2, y2)`. -/
def edgeSetup (x0 y0 x1 y1 x2 y2 : ℚ) : EdgeSetup :=
  let vertex0 : Cartesian3 := ⟨x0, y0, 0⟩
  let vertex1 : Cartesian3 := ⟨x1, y1, 0⟩
  let vertex2 : Cartesian3 := ⟨x2, y2, 0⟩
  let vector01 := vertex1.sub vertex0
  let vector12 := vertex2.sub vertex1
  let vector20 := vertex0.sub vertex2
  let normal01 : Cartesian3 := ⟨-vector01.y, vector01.x, 0⟩
  let normal12 : Cartesian3 := ⟨-vector12.y, vector12.x, 0⟩
  let normal20 : Cartesian3 := ⟨-vector20.y, vector20.x, 0⟩
  let lineConstant01 := normal01.dot vertex0
  let lineConstant12 := normal12.dot vertex1
  let lineConstant20 := normal20.dot vertex2
  { normal01 := normal01, normal12 := normal12, normal20 := normal20
    lineConstant01 := lineConstant01, lineConstant12 := lineConstant12
    lineConstant20 := lineConstant20
    distance0 := normal12.dot vertex0 - lineConstant12
    distance1 := normal20.dot vertex1 - lineConstant20
    distance2 := normal01.dot vertex2 - lineConstant01 }

/-- The test `(distance0 == 0) || (distance1 == 0) || (distance2 == 0)` after which
`drawTriangle` returns without scanning. -/
def EdgeSetup.skipped (e : EdgeSetup) : Bool :=
  e.distance0 == 0 || e.distance1 == 0 || e.distance2 == 0

/-- The weight `alpha` of the pixel `(u, v)`. -/
def EdgeSetup.alpha (e : EdgeSetup) (u v : ℤ) : ℚ :=
  (e.normal12.dot ⟨u, v, 0⟩ - e.lineConstant12) / e.distance0

/-- The weight `beta` of the pixel `(u, v)`. -/
def EdgeSetup.beta (e : EdgeSetup) (u v : ℤ) : ℚ :=
  (e.normal20.dot ⟨u, v, 0⟩ - e.lineConstant20) / e.distance1

/-- The weight `gamma` of the pixel `(u, v)`. -/
def EdgeSetup.gamma (e : EdgeSetup) (u v : ℤ) : ℚ :=
  (e.normal01.dot ⟨u, v, 0⟩ - e.lineConstant01) / e.distance2

/-- The half-plane test: `true` when the pixel `(u, v)` is not rejected by
`(alpha < 0.0) || (beta < 0.0) || (gamma < 0.0)`. -/
def EdgeSetup.passes (e : EdgeSetup) (u v : ℤ) : Bool :=
  !(decide (e.alpha u v < 0) || decide (e.beta u v < 0) || decide (e.gamma u v < 0))

end AttributedObject

/-! ## The grammar of a face line -/

/-- One corner group of a face line: the four one-based indices in the order they are
written (vertex, colour, texture coordinate, normal). -/
structure CornerGroup where
  v : Nat
  c : Nat
  t : Nat
  n : Nat
  deriving DecidableEq, Repr

namespace CornerGroup

/-- The four indices fit an `unsigned int`. -/
def inRange (k : CornerGroup) : Prop :=
  k.v ≤ 4294967295 ∧ k.c ≤ 4294967295 ∧ k.t ≤ 4294967295 ∧ k.n ≤ 4294967295

/-- The four indices are one-based indices that fit an `unsigned int`. -/
def wellFormed (k : CornerGroup) : Prop :=
  (1 ≤ k.v ∧ 1 ≤ k.c ∧ 1 ≤ k.t ∧ 1 ≤ k.n) ∧ k.inRange

instance (k : CornerGroup) : Decidable k.inRange := by
  unfold inRange; exact inferInstance

instance (k : CornerGroup) : Decidable k.wellFormed := by
  unfold wellFormed; exact inferInstance

/-- The text `v/c/t/n` of a corner group. -/
def text (k : CornerGroup) : List Char :=
  OStream.showNat k.v ++ '/' :: OStream.showNat k.c ++ '/' :: OStream.showNat k.t ++
    '/' :: OStream.showNat k.n

/-- The face line `f v1/c1/t1/n1 v2/c2/t2/n2 v3/c3/t3/n3`, without its end of line. -/
def faceLine (k1 k2 k3 : CornerGroup) : List Char :=
  'f' :: ' ' :: k1.text ++ ' ' :: k2.text ++ ' ' :: k3.text

end CornerGroup

/-! ## Properties of the arrays -/

namespace AttributedObject

variable {R : Type}

/-- The four face arrays have the same length, and it is a multiple of 3. -/
def FaceInv (o : AttributedObject R) : Prop :=
  o.faceColours.length = o.faceVertices.length ∧
  o.faceNormals.length = o.faceVertices.length ∧
  o.faceTexCoords.length = o.faceVertices.length ∧
  3 ∣ o.faceVertices.length

instance (o : AttributedObject R) : Decidable o.FaceInv := by
  unfold FaceInv; exact inferInstance

/-- The arithmetic mean of a list of points: the sum of each component divided by the
number of points. -/
def mean (vs : List Cartesian3) : Cartesian3 :=
  ⟨(vs.map Cartesian3.x).sum / vs.length, (vs.map Cartesian3.y).sum / vs.length,
    (vs.map Cartesian3.z).sum / vs.length⟩

end AttributedObject

namespace OStream

/-- The value of the text `showFixed p x`: `x` rounded to `p` decimals. -/
def roundFixed (p : Nat) (x : ℚ) : ℚ :=
  let m : ℚ := (fixedUnits p x : ℚ) / (10 : ℚ) ^ p
  if x < 0 ∧ fixedUnits p x ≠ 0 then -m else m

/-- The vector whose components are those of `v` rounded to `p` decimals. -/
def roundCartesian3 (p : Nat) (v : Cartesian3) : Cartesian3 :=
  ⟨roundFixed p v.x, roundFixed p v.y, roundFixed p v.z⟩

end OStream

namespace AttributedObject

variable {R : Type}

/-- The object fits the machine types of the code: every entry of the four face arrays
is an `unsigned int`, and the size of every array is in the range of the `unsigned int`
loop counters. -/
def Representable (o : AttributedObject R) : Prop :=
  (∀ i ∈ o.faceVertices, i < 4294967296) ∧ (∀ i ∈ o.faceColours, i < 4294967296) ∧
  (∀ i ∈ o.faceNormals, i < 4294967296) ∧ (∀ i ∈ o.faceTexCoords, i < 4294967296) ∧
  o.vertices.length < 4294967296 ∧ o.colours.length < 4294967296 ∧
  o.normals.length < 4294967296 ∧ o.textureCoords.length < 4294967296 ∧
  o.faceVertices.length < 4294967296

/-- The read loop consumes the text `chunk`, wherever it stands in the stream, in a
fixed number of passes, and its effect on the object is `f`. -/
def Consumes (uninit : FaceIDs) (chunk : List Char)
    (f : AttributedObject R → AttributedObject R) : Prop :=
  ∃ k, ∀ (fuel : Nat) (rest : List Char) (o : AttributedObject R),
    readLoop uninit (fuel + k) (IStream.ofList (chunk ++ rest)) o =
      readLoop uninit fuel (IStream.ofList rest) (f o)

end AttributedObject

namespace AttributedObject

variable {R : Type}

/-- The object a fresh object becomes when the read loop has read the text written for
`o` with the precision `p`: the attribute arrays of `o` rounded to `p` decimals and the
face arrays of `o`. -/
def reloaded (p : Nat) (o : AttributedObject R) (size : R) : AttributedObject R :=
  { new size with
    vertices := o.vertices.map (OStream.roundCartesian3 p)
    colours := o.colours.map (OStream.roundCartesian3 p)
    normals := o.normals.map (OStream.roundCartesian3 p)
    textureCoords := o.textureCoords.map (OStream.roundCartesian3 p)
    faceVertices := o.faceVertices
    faceColours := o.faceColours
    faceNormals := o.faceNormals
    faceTexCoords := o.faceTexCoords }

end AttributedObject

namespace AttributedObject

variable {R : Type}

instance (o : AttributedObject R) : Decidable o.Representable := by
  unfold Representable; exact inferInstance

end AttributedObject

namespace AttributedObject

/-- A mesh with one triangle, used to instantiate the round-trip theorems. It has a
negative coordinate, a coordinate with more decimals than the precision keeps, and
the largest `unsigned int` among its indices. -/
def sampleMesh : AttributedObject ℚ :=
  { vertices := [⟨0, 0, 0⟩, ⟨-3 / 2, 0, 0⟩, ⟨0, 1 / 3, 12⟩]
    colours := [⟨1, 0, 0⟩]
    normals := [⟨0, 0, 1⟩]
    textureCoords := [⟨0, 0, 0⟩, ⟨1, 1, 0⟩]
    faceVertices := [0, 1, 2]
    faceColours := [0, 0, 0]
    faceNormals := [0, 0, 4294967295]
    faceTexCoords := [0, 1, 1]
    centreOfGravity := ⟨0, 0, 0⟩
    objectSize := 0 }

end AttributedObject

/-! ## The raster and the bake -/

/-- The conversion of a float to `int`: truncation toward zero. -/
def truncInt (q : ℚ) : ℤ := if 0 ≤ q then ⌊q⌋ else ⌈q⌉

/-- The three assignments `c.x = (int) c.x; c.y = (int) c.y; c.z = (int) c.z`. -/
def truncVec (c : Cartesian3) : Cartesian3 := ⟨truncInt c.x, truncInt c.y, truncInt c.z⟩

/-- The loop `for (k = lo; k <= hi; k++)` over `int`: the values `k` takes. -/
def intRange (lo hi : ℤ) : List ℤ :=
  (List.range (hi - lo + 1).toNat).map (fun (k : Nat) => lo + (k : ℤ))

/-- A loop over a list whose body can make an out-of-range access: `none` as soon as a
pass does. -/
def foldOpt {α β : Type} (step : α → β → Option α) : α → List β → Option α
  | a, [] => some a
  | a, b :: bs =>
    match step a b with
    | none => none
    | some a1 => foldOpt step a1 bs

/-- The member `uvMap`, a `std::vector<std::vector<Cartesian3>>`: the number of rows,
the size of the row `v`, and the entry of the row `v` at the column `u`. Only entries
inside the sizes are ever read. -/
structure UVMap where
  rows : Nat
  cols : ℤ → Nat
  px : ℤ → ℤ → Cartesian3

namespace UVMap

/-- The `uvMap` of a freshly constructed object: a vector with no row. -/
def empty : UVMap := ⟨0, fun _ => 0, fun _ _ => ⟨0, 0, 0⟩⟩

/-- The index pair `[v][u]` is in range: `v` is a row and `u` a column of that row. -/
def inside (m : UVMap) (v u : ℤ) : Prop := 0 ≤ v ∧ v < m.rows ∧ 0 ≤ u ∧ u < m.cols v

instance (m : UVMap) (v u : ℤ) : Decidable (m.inside v u) := by
  unfold inside; exact inferInstance

/-- The read of `uvMap[v][u]`: `none` when the index pair is out of range. -/
def read (m : UVMap) (v u : ℤ) : Option Cartesian3 :=
  if m.inside v u then some (m.px v u) else none

/-- The raster `m` with the entry of the row `v` at the column `u` replaced by `c`. -/
def assign (m : UVMap) (v u : ℤ) (c : Cartesian3) : UVMap :=
  { m with px := fun y x => if y = v ∧ x = u then c else m.px y x }

/-- The assignment `uvMap[v][u] = c`: `none` when the index pair is out of range. -/
def write (m : UVMap) (v u : ℤ) (c : Cartesian3) : Option UVMap :=
  if m.inside v u then some (m.assign v u c) else none

/-- The call `uvMap.push_back(mapCol)` for a row `mapCol` of `n` entries `row`. -/
def pushRow (m : UVMap) (n : Nat) (row : ℤ → Cartesian3) : UVMap :=
  { rows := m.rows + 1
    cols := fun v => if v = m.rows then n else m.cols v
    px := fun v u => if v = m.rows then row u else m.px v u }

/-- The loop `Initialise the uv map` of `outputTexture` and of `outputNormal`: 1025
times (`height <= 1024`) a row of 1025 entries (`width <= 1024`), all (0,0,0), is
pushed onto the back of `uvMap`. -/
def initialise (m : UVMap) : UVMap :=
  (List.range 1025).foldl (fun m _ => m.pushRow 1025 (fun _ => ⟨0, 0, 0⟩)) m

/-- Every row has `w` entries. -/
def Rect (m : UVMap) (w : Nat) : Prop := ∀ v : ℤ, 0 ≤ v → v < m.rows → m.cols v = w

end UVMap

namespace AttributedObject

variable {R : Type}

/-- The corner values and the weights combined as in
`uvMap[y0][x0] * alpha + uvMap[y1][x1] * beta + uvMap[y2][x2] * gamma`. -/
def blend (c0 c1 c2 : Cartesian3) (alpha beta gamma : ℚ) : Cartesian3 :=
  ((c0.mulScalar alpha).add (c1.mulScalar beta)).add (c2.mulScalar gamma)

/-- The body of the inner loop of `drawTriangle` up to its assignment, for a pixel
inside the sizes of the raster: `some none` when the half-plane test rejects the pixel
(`continue`), `some (some c)` when the pixel is assigned the value `c` (the blend of
the three corner pixels as they are now, truncated), `none` when a corner pixel is out
of range. -/
def shadeValue (m : UVMap) (e : EdgeSetup) (x0 y0 x1 y1 x2 y2 u v : ℤ) :
    Option (Option Cartesian3) :=
  if e.passes u v then
    match m.read y0 x0, m.read y1 x1, m.read y2 x2 with
    | some c0, some c1, some c2 =>
      some (some (truncVec (blend c0 c1 c2 (e.alpha u v) (e.beta u v) (e.gamma u v))))
    | _, _, _ => none
  else some none

/-- The body of the inner loop of `drawTriangle` for a pixel inside the sizes of the
raster. -/
def shade (m : UVMap) (e : EdgeSetup) (x0 y0 x1 y1 x2 y2 u v : ℤ) : Option UVMap :=
  match shadeValue m e x0 y0 x1 y1 x2 y2 u v with
  | none => none
  | some none => some m
  | some (some c) => m.write v u c

/-- The inner loop of `drawTriangle`, over the columns of the row `v`. -/
def scanRow (e : EdgeSetup) (x0 y0 x1 y1 x2 y2 minX maxX : ℤ) (m : UVMap) (v : ℤ) :
    Option UVMap :=
  foldOpt (fun m u =>
    if u < 0 then some m
    else if (m.cols v : ℤ) ≤ u then some m
    else shade m e x0 y0 x1 y1 x2 y2 u v) m (intRange minX maxX)

/-- The routine `drawTriangle`, for the integer arguments its callers pass (they
convert `int` pixel coordinates to `float`). `none` when an index is out of range. -/
def drawTriangle (m : UVMap) (x0 y0 x1 y1 x2 y2 : ℤ) : Option UVMap :=
  if m.rows = 0 then none
  else
    let minX := max (min x0 (min x1 x2)) 0
    let minY := max (min y0 (min y1 y2)) 0
    let maxX := min (max x0 (max x1 x2)) ((m.cols 0 : ℤ) - 1)
    let maxY := min (max y0 (max y1 y2)) ((m.rows : ℤ) - 1)
    let e := edgeSetup x0 y0 x1 y1 x2 y2
    if e.skipped then some m
    else
      foldOpt (fun m v =>
        if v < 0 then some m
        else if (m.rows : ℤ) ≤ v then some m
        else scanRow e x0 y0 x1 y1 x2 y2 minX maxX m v) m (intRange minY maxY)

/-- The pixel `(u, v)` of the corner `corner` of the face arrays:
`u = textureCoords[faceTexCoords[corner]].x * 1024` and
`v = (1 - textureCoords[faceTexCoords[corner]].y) * 1024`, converted to `int`. -/
def cornerPixel (o : AttributedObject R) (corner : Nat) : Option (ℤ × ℤ) :=
  match o.faceTexCoords[corner]? with
  | none => none
  | some idx =>
    match o.textureCoords[idx]? with
    | none => none
    | some t => some (truncInt (t.x * 1024), truncInt ((1 - t.y) * 1024))

/-- The value `outputTexture` assigns to the pixel of the corner `corner`:
`(int) (colours[faceColours[corner]].x * 255)` and likewise for `y` and `z`. -/
def colourValue (o : AttributedObject R) (corner : Nat) : Option Cartesian3 :=
  match o.faceColours[corner]? with
  | none => none
  | some idx =>
    match o.colours[idx]? with
    | none => none
    | some c => some ⟨truncInt (c.x * 255), truncInt (c.y * 255), truncInt (c.z * 255)⟩

/-- The value `outputNormal` assigns to the pixel of the corner `corner`:
`(int) 128 + (normals[faceNormals[corner]].x * 128)` and likewise for `y` and `z`; the
cast applies to the constant 128 only. -/
def normalValue (o : AttributedObject R) (corner : Nat) : Option Cartesian3 :=
  match o.faceNormals[corner]? with
  | none => none
  | some idx =>
    match o.normals[idx]? with
    | none => none
    | some n => some ⟨128 + n.x * 128, 128 + n.y * 128, 128 + n.z * 128⟩

/-- One pass of the loop over the triangles, the same in `outputTexture` and in
`outputNormal` but for the value `value` assigned to the corner pixels: the three
corner pixels are computed, the three corner values are assigned to them in the order
of the corners, and `drawTriangle` is called. -/
def bakeTriangle (value : Nat → Option Cartesian3) (o : AttributedObject R) (m : UVMap)
    (i : Nat) : Option UVMap :=
  match cornerPixel o (i * 3), cornerPixel o (i * 3 + 1), cornerPixel o (i * 3 + 2) with
  | some p0, some p1, some p2 =>
    match value (i * 3), value (i * 3 + 1), value (i * 3 + 2) with
    | some k0, some k1, some k2 =>
      match m.write p0.2 p0.1 k0 with
      | none => none
      | some m0 =>
        match m0.write p1.2 p1.1 k1 with
        | none => none
        | some m1 =>
          match m1.write p2.2 p2.1 k2 with
          | none => none
          | some m2 => drawTriangle m2 p0.1 p0.2 p1.1 p1.2 p2.1 p2.2
    | _, _, _ => none
  | _, _, _ => none

/-- The part common to `outputTexture` and `outputNormal`: the raster is extended by
1025 rows and the triangles `0 .. faceVertices.size() / 3 - 1` are baked in turn. The
result is the member `uvMap` after the call. -/
def bake (value : Nat → Option Cartesian3) (o : AttributedObject R) (m : UVMap) :
    Option UVMap :=
  foldOpt (bakeTriangle value o) m.initialise (List.range (o.faceVertices.length / 3))

/-- The routine `outputTexture`: the member `uvMap` after the call, `none` when the
call makes an out-of-range access. The file it writes lists the entries
`uvMap[height][width]` for `height` and `width` below 1024. -/
def outputTexture (o : AttributedObject R) (m : UVMap) : Option UVMap :=
  bake (colourValue o) o m

/-- The routine `outputNormal`: the member `uvMap` after the call, `none` when the
call makes an out-of-range access. The file it writes lists the entries
`uvMap[height][width]` for `height` and `width` below 1024. -/
def outputNormal (o : AttributedObject R) (m : UVMap) : Option UVMap :=
  bake (normalValue o) o m

end AttributedObject

namespace AttributedObject

/-- Twice the signed area of the triangle with the corners `(x0, y0)`, `(x1, y1)`,
`(x2, y2)`. -/
def area2 (x0 y0 x1 y1 x2 y2 : ℚ) : ℚ := (x1 - x0) * (y2 - y0) - (x2 - x0) * (y1 - y0)

/-- The point `(u, v)` lies in the closed triangle spanned by the three corners: it is
a convex combination of them. -/
def InClosedTriangle (x0 y0 x1 y1 x2 y2 u v : ℚ) : Prop :=
  ∃ a b c : ℚ, 0 ≤ a ∧ 0 ≤ b ∧ 0 ≤ c ∧ a + b + c = 1 ∧
    u = a * x0 + b * x1 + c * x2 ∧ v = a * y0 + b * y1 + c * y2

/-- The pixel `(u, v)` is one that the scan of `drawTriangle` on the raster `m`
assigns: it is in the clamped bounding box, inside its row, and it passes the
half-plane test of the set-up `e`. -/
def Covered (m : UVMap) (e : EdgeSetup) (x0 y0 x1 y1 x2 y2 u v : ℤ) : Prop :=
  max (min y0 (min y1 y2)) 0 ≤ v ∧ v ≤ min (max y0 (max y1 y2)) ((m.rows : ℤ) - 1) ∧
  max (min x0 (min x1 x2)) 0 ≤ u ∧ u ≤ min (max x0 (max x1 x2)) ((m.cols 0 : ℤ) - 1) ∧
  u < m.cols v ∧ e.passes u v = true

/-- The value `c` is the truncated blend, with the weights of the pixel `(u, v)`, of
three corner values, each either the value `k` its corner pixel held when
`drawTriangle` was entered or that value truncated. -/
def BlendOf (k0 k1 k2 : Cartesian3) (e : EdgeSetup) (u v : ℤ) (c : Cartesian3) : Prop :=
  ∃ a0 a1 a2 : Cartesian3, (a0 = k0 ∨ a0 = truncVec k0) ∧ (a1 = k1 ∨ a1 = truncVec k1) ∧
    (a2 = k2 ∨ a2 = truncVec k2) ∧
    c = truncVec (blend a0 a1 a2 (e.alpha u v) (e.beta u v) (e.gamma u v))

end AttributedObject

namespace AttributedObject

/-- The invariant of the scan of `drawTriangle` entered on the raster `m`: the sizes
are those of `m`, each corner pixel holds the value it held in `m` or that value
truncated, and every pixel the scan does not assign holds the value it held in `m`. -/
def ScanInv (m : UVMap) (e : EdgeSetup) (x0 y0 x1 y1 x2 y2 : ℤ) (m1 : UVMap) : Prop :=
  m1.rows = m.rows ∧ m1.cols = m.cols ∧
  (m1.px y0 x0 = m.px y0 x0 ∨ m1.px y0 x0 = truncVec (m.px y0 x0)) ∧
  (m1.px y1 x1 = m.px y1 x1 ∨ m1.px y1 x1 = truncVec (m.px y1 x1)) ∧
  (m1.px y2 x2 = m.px y2 x2 ∨ m1.px y2 x2 = truncVec (m.px y2 x2)) ∧
  (∀ v u, ¬ Covered m e x0 y0 x1 y1 x2 y2 u v → m1.px v u = m.px v u)

end AttributedObject

namespace AttributedObject

variable {R : Type}

/-- Every corner of every triangle the bake loops over has a texture coordinate whose
pixel lies in `[0, 1024] x [0, 1024]` and has a value to assign. -/
def BakeReady (value : Nat → Option Cartesian3) (o : AttributedObject R) : Prop :=
  ∀ c, c < 3 * (o.faceVertices.length / 3) →
    ∃ p k, cornerPixel o c = some p ∧ value c = some k ∧
      0 ≤ p.1 ∧ p.1 ≤ 1024 ∧ 0 ≤ p.2 ∧ p.2 ≤ 1024

end AttributedObject

/-- The raster has at least 1025 rows, each of 1025 entries: it holds every pixel of
`[0, 1024] x [0, 1024]`. -/
def UVMap.Roomy (m : UVMap) : Prop := 1025 ≤ m.rows ∧ m.Rect 1025

namespace AttributedObject

variable {R : Type}

/-- The input the bake is written for: the four face arrays have one length, every
entry of `faceTexCoords` and of `faceColours` is an index of its attribute array, and
every texture coordinate has `x` and `y` in `[0, 1]`. -/
def Conventional (o : AttributedObject R) : Prop :=
  o.faceTexCoords.length = o.faceVertices.length ∧
  o.faceColours.length = o.faceVertices.length ∧
  o.faceNormals.length = o.faceVertices.length ∧
  (∀ i ∈ o.faceTexCoords, i < o.textureCoords.length) ∧
  (∀ i ∈ o.faceColours, i < o.colours.length) ∧
  (∀ t ∈ o.textureCoords, 0 ≤ t.x ∧ t.x ≤ 1 ∧ 0 ≤ t.y ∧ t.y ≤ 1)

/-- A mesh for the bake: the attribute arrays and the corner indices are the
arguments, the positions are left out (the bake does not read them). -/
def bakeMesh (tex colours normals : List Cartesian3) (ft fc fn : List Nat) :
    AttributedObject ℚ :=
  { vertices := [], colours := colours, normals := normals, textureCoords := tex
    faceVertices := ft, faceColours := fc, faceNormals := fn, faceTexCoords := ft
    centreOfGravity := ⟨0, 0, 0⟩, objectSize := 0 }

/-- The texture coordinates of the pixels (0,0), (1024,0), (0,1024), (512,0) and
(256,256). -/
def sampleTex : List Cartesian3 :=
  [⟨0, 1, 0⟩, ⟨1, 1, 0⟩, ⟨0, 0, 0⟩, ⟨1 / 2, 1, 0⟩, ⟨1 / 4, 3 / 4, 0⟩]

end AttributedObject

namespace AttributedObject

/-- The three points `(x0, y0)`, `(x1, y1)`, `(x2, y2)` lie on one line
`a * x + b * y = c`. -/
def Collinear (x0 y0 x1 y1 x2 y2 : ℚ) : Prop :=
  ∃ a b c : ℚ, (a ≠ 0 ∨ b ≠ 0) ∧ a * x0 + b * y0 = c ∧ a * x1 + b * y1 = c ∧
    a * x2 + b * y2 = c

end AttributedObject

namespace AttributedObject

/-- One triangle with the corner pixels (0,0), (1024,0), (0,1024) and the corner
colours red, green, blue; the three corners share one normal. -/
def rgbTriangle : AttributedObject ℚ :=
  bakeMesh sampleTex [⟨1, 0, 0⟩, ⟨0, 1, 0⟩, ⟨0, 0, 1⟩] [⟨0, 0, 1⟩] [0, 1, 2] [0, 1, 2] [0, 0, 0]

/-- Two triangles with the same corner pixels (0,0), (1024,0), (0,1024): the first is
red, the second green. -/
def twoTriangles : AttributedObject ℚ :=
  bakeMesh sampleTex [⟨1, 0, 0⟩, ⟨0, 1, 0⟩] [⟨0, 0, 1⟩] [0, 1, 2, 0, 1, 2] [0, 0, 0, 1, 1, 1]
    [0, 0, 0, 0, 0, 0]

end AttributedObject

namespace AttributedObject

/-- One triangle with the corner pixels (0,0), (1024,0), (0,1024) whose three corners
have the normal (3/512, 0, 0), which `outputNormal` maps to (128.75, 128, 128). -/
def tiltedTriangle : AttributedObject ℚ :=
  bakeMesh sampleTex [⟨0, 0, 0⟩] [⟨3 / 512, 0, 0⟩] [0, 1, 2] [0, 0, 0] [0, 0, 0]

/-- The mesh `tiltedTriangle` with the corner pixels (0,0), (512,0), (1024,0): three
distinct pixels on one line. -/
def tiltedFlat : AttributedObject ℚ :=
  bakeMesh sampleTex [⟨0, 0, 0⟩] [⟨3 / 512, 0, 0⟩] [0, 3, 1] [0, 0, 0] [0, 0, 0]

/-- One triangle whose three corners have the pixel (0,0) and the colour red. -/
def pointTriangle : AttributedObject ℚ :=
  bakeMesh sampleTex [⟨1, 0, 0⟩] [⟨0, 0, 1⟩] [0, 0, 0] [0, 0, 0] [0, 0, 0]

/-- One red triangle whose first texture coordinate has `x = 2`: its pixel has
`u = 2048`. -/
def outsideTriangle : AttributedObject ℚ :=
  bakeMesh [⟨2, 1, 0⟩, ⟨1, 1, 0⟩, ⟨0, 0, 0⟩] [⟨1, 0, 0⟩] [⟨0, 0, 1⟩] [0, 1, 2] [0, 0, 0]
    [0, 0, 0]

end AttributedObject

namespace AttributedObject

variable {R : Type}

/-- The pass of the bake for the triangle `j` writes the pixel `(u, v)`: it is the
pixel of one of the three corners, which the bake loop assigns, or the triangle is not
skipped by `drawTriangle` and the pixel passes its half-plane test. -/
def Touches (o : AttributedObject R) (j : Nat) (u v : ℤ) : Prop :=
  ∃ x0 y0 x1 y1 x2 y2 : ℤ, cornerPixel o (j * 3) = some (x0, y0) ∧
    cornerPixel o (j * 3 + 1) = some (x1, y1) ∧ cornerPixel o (j * 3 + 2) = some (x2, y2) ∧
    ((u = x0 ∧ v = y0) ∨ (u = x1 ∧ v = y1) ∨ (u = x2 ∧ v = y2) ∨
      ((edgeSetup x0 y0 x1 y1 x2 y2).skipped = false ∧
        (edgeSetup x0 y0 x1 y1 x2 y2).passes u v = true))

/-- The three channels of a pixel value lie in `[0, 255]`. -/
def InByteRange (c : Cartesian3) : Prop :=
  (0 ≤ c.x ∧ c.x ≤ 255) ∧ (0 ≤ c.y ∧ c.y ≤ 255) ∧ (0 ≤ c.z ∧ c.z ≤ 255)

/-- The triangle of `rgbTriangle` followed by a green triangle whose three corners
have the pixel (512,0). -/
def rgbThenPoint : AttributedObject ℚ :=
  bakeMesh sampleTex [⟨1, 0, 0⟩, ⟨0, 1, 0⟩, ⟨0, 0, 1⟩] [⟨0, 0, 1⟩] [0, 1, 2, 3, 3, 3]
    [0, 1, 2, 1, 1, 1] [0, 0, 0, 0, 0, 0]

end AttributedObject

/-! # Lemmas and theorems -/
namespace OStream

theorem toDigitsCore_append (fuel : Nat) :
    ∀ n acc, n < fuel → Nat.toDigitsCore 10 fuel n acc = Nat.toDigits 10 n ++ acc := by
  induction fuel using Nat.strong_induction_on with
  | _ fuel ih =>
    intro n acc hn
    cases fuel with
    | zero => omega
    | succ fuel =>
      unfold Nat.toDigits
      simp only [Nat.toDigitsCore]
      by_cases h0 : n / 10 = 0
      · simp [h0]
      · simp only [h0, if_false]
        have hlt : n / 10 < n := Nat.div_lt_self (by omega) (by omega)
        rw [ih fuel (by omega) (n / 10) _ (by omega)]
        rw [ih n (by omega) (n / 10) _ hlt]
        simp

theorem showNat_small (n : Nat) (h : n < 10) : showNat n = [Nat.digitChar n] := by
  have h0 : n / 10 = 0 := Nat.div_eq_of_lt h
  simp [showNat, Nat.toDigits, Nat.toDigitsCore, h0, Nat.mod_eq_of_lt h]

theorem showNat_step (n : Nat) (h : 10 ≤ n) :
    showNat n = showNat (n / 10) ++ [Nat.digitChar (n % 10)] := by
  have h0 : n / 10 ≠ 0 := by omega
  have hlt : n / 10 < n := Nat.div_lt_self (by omega) (by omega)
  unfold showNat
  conv_lhs => unfold Nat.toDigits
  simp only [Nat.toDigitsCore, h0, if_false]
  exact toDigitsCore_append n (n / 10) _ hlt

theorem digitChar_isDigit (d : Nat) (h : d < 10) : (Nat.digitChar d).isDigit = true := by
  interval_cases d <;> rfl

theorem digitChar_val (d : Nat) (h : d < 10) : IStream.digitVal (Nat.digitChar d) = d := by
  interval_cases d <;> rfl

theorem showNat_isDigit (n : Nat) : ∀ c ∈ showNat n, c.isDigit = true := by
  induction n using Nat.strong_induction_on with
  | _ n ih =>
    by_cases h : n < 10
    · rw [showNat_small n h]
      intro c hc
      simp only [List.mem_singleton] at hc
      subst hc
      exact digitChar_isDigit n h
    · rw [showNat_step n (by omega)]
      intro c hc
      rcases List.mem_append.mp hc with hc | hc
      · exact ih (n / 10) (Nat.div_lt_self (by omega) (by omega)) c hc
      · simp only [List.mem_singleton] at hc
        subst hc
        exact digitChar_isDigit _ (Nat.mod_lt _ (by omega))

theorem showNat_ne_nil (n : Nat) : showNat n ≠ [] := by
  by_cases h : n < 10
  · rw [showNat_small n h]; simp
  · rw [showNat_step n (by omega)]; simp

theorem digitsVal_append_singleton (ds : List Char) (c : Char) :
    IStream.digitsVal (ds ++ [c]) = 10 * IStream.digitsVal ds + IStream.digitVal c := by
  simp [IStream.digitsVal, List.foldl_append]

theorem digitsVal_showNat (n : Nat) : IStream.digitsVal (showNat n) = n := by
  induction n using Nat.strong_induction_on with
  | _ n ih =>
    by_cases h : n < 10
    · rw [showNat_small n h]
      simp [IStream.digitsVal, digitChar_val n h]
    · rw [showNat_step n (by omega), digitsVal_append_singleton,
        ih (n / 10) (Nat.div_lt_self (by omega) (by omega)),
        digitChar_val _ (Nat.mod_lt _ (by omega))]
      omega

end OStream

namespace IStream

theorem get_ofList_cons (c : Char) (cs : List Char) :
    (ofList (c :: cs)).get = (some c, ofList cs) := rfl

theorem takeWhile_append_stop (p : Char → Bool) (l r : List Char)
    (hl : ∀ c ∈ l, p c = true) (hr : ∀ c ∈ r.head?, p c = false) :
    (l ++ r).takeWhile p = l ∧ (l ++ r).dropWhile p = r := by
  induction l with
  | nil =>
    cases r with
    | nil => simp
    | cons c r =>
      have := hr c (by simp)
      simp [List.takeWhile, List.dropWhile, this]
  | cons a l ih =>
    have ha := hl a (by simp)
    have := ih (fun c hc => hl c (by simp [hc]))
    simp [List.takeWhile, List.dropWhile, ha, this]

theorem takeSign_digit (c : Char) (cs : List Char) (h : c.isDigit = true) :
    takeSign (c :: cs) = (false, c :: cs) := by
  unfold takeSign
  split
  · rename_i heq
    simp only [List.cons.injEq] at heq
    rw [heq.1] at h
    exact absurd h (by decide)
  · rename_i heq
    simp only [List.cons.injEq] at heq
    rw [heq.1] at h
    exact absurd h (by decide)
  · rfl

theorem isDigit_not_isspace (c : Char) (h : c.isDigit = true) : isspace c = false := by
  by_contra hs
  simp only [isspace, Bool.or_eq_true, decide_eq_true_eq, Bool.not_eq_false] at hs
  rcases hs with ((((hs | hs) | hs) | hs) | hs) | hs <;> (rw [hs] at h; exact absurd h (by decide))

theorem sentry_skip (ws : List Char) (c : Char) (cs : List Char)
    (hws : ∀ w ∈ ws, isspace w = true) (hc : isspace c = false) :
    (ofList (ws ++ c :: cs)).sentry = (true, ofList (c :: cs)) := by
  have h := takeWhile_append_stop isspace ws (c :: cs) hws (by simpa using hc)
  simp [sentry, ofList, good, h.2]

theorem extractUInt_showNat (ws rest : List Char) (n v : Nat)
    (hws : ∀ w ∈ ws, isspace w = true) (hn : n ≤ 4294967295)
    (hrest : ∀ c ∈ rest.head?, c.isDigit = false) :
    (ofList (ws ++ OStream.showNat n ++ rest)).extractUInt v
      = (n, ⟨rest, false, rest.isEmpty⟩) := by
  obtain ⟨d, tl, hd⟩ := List.exists_cons_of_ne_nil (OStream.showNat_ne_nil n)
  have hdig := OStream.showNat_isDigit n
  have hdd : d.isDigit = true := hdig d (by simp [hd])
  have hsen : (ofList (ws ++ OStream.showNat n ++ rest)).sentry
      = (true, ofList (OStream.showNat n ++ rest)) := by
    rw [hd, List.append_assoc, List.cons_append]
    exact sentry_skip ws d (tl ++ rest) hws (isDigit_not_isspace d hdd)
  have hsign : takeSign (OStream.showNat n ++ rest) = (false, OStream.showNat n ++ rest) := by
    rw [hd, List.cons_append]
    exact takeSign_digit d _ hdd
  have htd := takeWhile_append_stop Char.isDigit (OStream.showNat n) rest hdig hrest
  have hne : (OStream.showNat n).isEmpty = false := by simp [hd]
  unfold extractUInt
  rw [hsen]
  simp only [ofList, hsign, htd.1, htd.2, hne, OStream.digitsVal_showNat]
  simp [Nat.not_lt.mpr hn]

end IStream

namespace AttributedObject

variable {R : Type}

theorem slash_not_digit (cs : List Char) : ∀ c ∈ ('/' :: cs).head?, c.isDigit = false := by
  intro c hc
  simp only [List.head?_cons, Option.mem_def, Option.some.injEq] at hc
  subst hc; rfl

theorem readCorner_text (ids : FaceIDs) (o : AttributedObject R) (ws : List Char)
    (k : CornerGroup) (rest : List Char)
    (hws : ∀ w ∈ ws, IStream.isspace w = true) (hk : k.inRange)
    (hrest : ∀ c ∈ rest.head?, c.isDigit = false) :
    readCorner (ids, IStream.ofList (ws ++ k.text ++ rest), o) =
      (⟨k.v, k.c, k.n, k.t⟩, ⟨rest, false, rest.isEmpty⟩,
        { o with
          faceVertices := o.faceVertices ++ [subOne k.v]
          faceColours := o.faceColours ++ [subOne k.c]
          faceNormals := o.faceNormals ++ [subOne k.n]
          faceTexCoords := o.faceTexCoords ++ [subOne k.t] }) := by
  obtain ⟨hv, hc, ht, hn⟩ := hk
  have e1 := IStream.extractUInt_showNat ws
    ('/' :: (OStream.showNat k.c ++ '/' :: (OStream.showNat k.t ++ '/' :: (OStream.showNat k.n ++ rest))))
    k.v ids.vertexID hws hv (slash_not_digit _)
  have e2 := IStream.extractUInt_showNat []
    ('/' :: (OStream.showNat k.t ++ '/' :: (OStream.showNat k.n ++ rest)))
    k.c ids.colourID (by simp) hc (slash_not_digit _)
  have e3 := IStream.extractUInt_showNat []
    ('/' :: (OStream.showNat k.n ++ rest))
    k.t ids.texCoordID (by simp) ht (slash_not_digit _)
  have e4 := IStream.extractUInt_showNat [] rest k.n ids.normalID (by simp) hn hrest
  simp only [List.nil_append, List.isEmpty_cons] at e2 e3 e4
  simp only [List.isEmpty_cons] at e1
  have g : ∀ cs : List Char, (IStream.get ⟨'/' :: cs, false, false⟩).2 = IStream.ofList cs := fun _ => rfl
  unfold readCorner
  simp only [CornerGroup.text, List.append_assoc, List.cons_append] at e1 ⊢
  simp only [e1, g, e2, e3, e4]

end AttributedObject

namespace AttributedObject

variable {R : Type}

theorem space_not_digit (cs : List Char) : ∀ c ∈ (' ' :: cs).head?, c.isDigit = false := by
  intro c hc
  simp only [List.head?_cons, Option.mem_def, Option.some.injEq] at hc
  subst hc; rfl

theorem space_isspace : ∀ w ∈ [' '], IStream.isspace w = true := by
  intro w hw
  simp only [List.mem_singleton] at hw
  subst hw; rfl

theorem readFace_text (uninit : FaceIDs) (o : AttributedObject R) (k1 k2 k3 : CornerGroup)
    (rest : List Char) (h1 : k1.inRange) (h2 : k2.inRange) (h3 : k3.inRange)
    (hrest : ∀ c ∈ rest.head?, c.isDigit = false) :
    readFace uninit (IStream.ofList (' ' :: k1.text ++ ' ' :: k2.text ++ ' ' :: k3.text ++ rest)) o =
      (⟨rest, false, rest.isEmpty⟩,
        { o with
          faceVertices := o.faceVertices ++ [subOne k1.v, subOne k2.v, subOne k3.v]
          faceColours := o.faceColours ++ [subOne k1.c, subOne k2.c, subOne k3.c]
          faceNormals := o.faceNormals ++ [subOne k1.n, subOne k2.n, subOne k3.n]
          faceTexCoords := o.faceTexCoords ++ [subOne k1.t, subOne k2.t, subOne k3.t] }) := by
  have e1 := readCorner_text uninit o [' '] k1 (' ' :: (k2.text ++ ' ' :: (k3.text ++ rest)))
    space_isspace h1 (space_not_digit _)
  have e2 := fun ids (o : AttributedObject R) =>
    readCorner_text ids o [' '] k2 (' ' :: (k3.text ++ rest)) space_isspace h2 (space_not_digit _)
  have e3 := fun ids (o : AttributedObject R) =>
    readCorner_text ids o [' '] k3 rest space_isspace h3 hrest
  simp only [List.isEmpty_cons, List.singleton_append, List.cons_append, List.append_assoc,
    List.nil_append] at e1 e2 e3
  unfold readFace
  simp only [List.cons_append, List.append_assoc]
  rw [e1]
  change (readCorner (readCorner (_, IStream.ofList _, _))).2 = _
  rw [e2]
  change (readCorner (_, IStream.ofList _, _)).2 = _
  rw [e3]
  simp

theorem readPass_face (uninit : FaceIDs) (o : AttributedObject R) (cs : List Char) :
    readPass uninit (IStream.ofList ('f' :: cs)) o = (true, readFace uninit (IStream.ofList cs) o) := by
  rfl

theorem subOne_pos (n : Nat) (h1 : 1 ≤ n) (h2 : n ≤ 4294967295) : subOne n = n - 1 := by
  unfold subOne; omega

/-- C1. A well-formed face line `f v1/c1/t1/n1 v2/c2/t2/n2 v3/c3/t3/n3` (one-based
indices that fit an `unsigned int`), followed by anything that does not start with a
digit, is consumed by one pass of the read loop, which appends to each face array
exactly three entries in corner order: `v - 1` to `faceVertices`, `c - 1` to
`faceColours`, `n - 1` (the fourth number) to `faceNormals`, `t - 1` (the third number)
to `faceTexCoords`; the four attribute arrays, and every other field, are unchanged. -/
theorem C1_face_line_appends_three_corners (uninit : FaceIDs) (o : AttributedObject R)
    (k1 k2 k3 : CornerGroup) (rest : List Char)
    (h1 : k1.wellFormed) (h2 : k2.wellFormed) (h3 : k3.wellFormed)
    (hrest : ∀ c ∈ rest.head?, c.isDigit = false) :
    readPass uninit (IStream.ofList (CornerGroup.faceLine k1 k2 k3 ++ rest)) o =
      (true, ⟨rest, false, rest.isEmpty⟩,
        { o with
          faceVertices := o.faceVertices ++ [k1.v - 1, k2.v - 1, k3.v - 1]
          faceColours := o.faceColours ++ [k1.c - 1, k2.c - 1, k3.c - 1]
          faceNormals := o.faceNormals ++ [k1.n - 1, k2.n - 1, k3.n - 1]
          faceTexCoords := o.faceTexCoords ++ [k1.t - 1, k2.t - 1, k3.t - 1] }) := by
  obtain ⟨⟨a1, a2, a3, a4⟩, r1⟩ := h1
  obtain ⟨⟨b1, b2, b3, b4⟩, r2⟩ := h2
  obtain ⟨⟨c1, c2, c3, c4⟩, r3⟩ := h3
  have hf := readFace_text uninit o k1 k2 k3 rest r1 r2 r3 hrest
  rw [subOne_pos _ a1 r1.1, subOne_pos _ a2 r1.2.1, subOne_pos _ a3 r1.2.2.1,
    subOne_pos _ a4 r1.2.2.2, subOne_pos _ b1 r2.1, subOne_pos _ b2 r2.2.1,
    subOne_pos _ b3 r2.2.2.1, subOne_pos _ b4 r2.2.2.2, subOne_pos _ c1 r3.1,
    subOne_pos _ c2 r3.2.1, subOne_pos _ c3 r3.2.2.1, subOne_pos _ c4 r3.2.2.2] at hf
  unfold CornerGroup.faceLine
  simp only [List.cons_append, List.append_assoc] at hf ⊢
  rw [readPass_face, hf]

theorem C1_witness :
    readPass (R := ℚ) ⟨0, 0, 0, 0⟩
        (IStream.ofList (CornerGroup.faceLine ⟨1, 2, 3, 4⟩ ⟨5, 6, 7, 8⟩ ⟨9, 10, 11, 12⟩ ++ ['\n']))
        (AttributedObject.new 0) =
      (true, ⟨['\n'], false, false⟩,
        { AttributedObject.new 0 with
          faceVertices := [0, 4, 8], faceColours := [1, 5, 9]
          faceNormals := [3, 7, 11], faceTexCoords := [2, 6, 10] }) :=
  C1_face_line_appends_three_corners ⟨0, 0, 0, 0⟩ (AttributedObject.new 0)
    ⟨1, 2, 3, 4⟩ ⟨5, 6, 7, 8⟩ ⟨9, 10, 11, 12⟩ ['\n']
    (by decide) (by decide) (by decide) (by decide)

end AttributedObject

namespace AttributedObject

variable {R : Type}

/-- The lengths of the four face arrays. -/
theorem readCorner_lengths (st : FaceIDs × IStream × AttributedObject R) :
    (readCorner st).2.2.faceVertices.length = st.2.2.faceVertices.length + 1 ∧
    (readCorner st).2.2.faceColours.length = st.2.2.faceColours.length + 1 ∧
    (readCorner st).2.2.faceNormals.length = st.2.2.faceNormals.length + 1 ∧
    (readCorner st).2.2.faceTexCoords.length = st.2.2.faceTexCoords.length + 1 := by
  simp [readCorner]

theorem readFace_lengths (uninit : FaceIDs) (s : IStream) (o : AttributedObject R) :
    (readFace uninit s o).2.faceVertices.length = o.faceVertices.length + 3 ∧
    (readFace uninit s o).2.faceColours.length = o.faceColours.length + 3 ∧
    (readFace uninit s o).2.faceNormals.length = o.faceNormals.length + 3 ∧
    (readFace uninit s o).2.faceTexCoords.length = o.faceTexCoords.length + 3 := by
  unfold readFace
  obtain ⟨a1, a2, a3, a4⟩ := readCorner_lengths (uninit, s, o)
  obtain ⟨b1, b2, b3, b4⟩ := readCorner_lengths (readCorner (uninit, s, o))
  obtain ⟨c1, c2, c3, c4⟩ := readCorner_lengths (readCorner (readCorner (uninit, s, o)))
  simp only [] at a1 a2 a3 a4
  refine ⟨?_, ?_, ?_, ?_⟩ <;> omega

theorem readVertexData_faces (c : Option Char) (s : IStream) (o : AttributedObject R) :
    (readVertexData c s o).2.faceVertices = o.faceVertices ∧
    (readVertexData c s o).2.faceColours = o.faceColours ∧
    (readVertexData c s o).2.faceNormals = o.faceNormals ∧
    (readVertexData c s o).2.faceTexCoords = o.faceTexCoords := by
  unfold readVertexData
  split_ifs <;> simp

theorem readSwitch_faceInv (uninit : FaceIDs) (c : Option Char) (s : IStream)
    (o : AttributedObject R) (h : o.FaceInv) : (readSwitch uninit c s o).2.FaceInv := by
  unfold readSwitch
  by_cases h1 : c = some '#'
  · rw [if_pos h1]; exact h
  · rw [if_neg h1]
    by_cases h2 : c = some 'v'
    · rw [if_pos h2]
      simp only []
      by_cases h3 : s.get.2.eofbit = true
      · rw [if_pos h3]; exact h
      · rw [if_neg h3]
        obtain ⟨a1, a2, a3, a4⟩ := readVertexData_faces (s.get.1) (s.get.2) o
        unfold FaceInv at h ⊢
        rw [a1, a2, a3, a4]
        exact h
    · rw [if_neg h2]
      by_cases h3 : c = some 'f'
      · rw [if_pos h3]
        obtain ⟨a1, a2, a3, a4⟩ := readFace_lengths uninit s o
        obtain ⟨h1, h2, h3, h4⟩ := h
        refine ⟨by omega, by omega, by omega, ?_⟩
        rw [a1]; omega
      · rw [if_neg h3]; exact h

theorem readPass_faceInv (uninit : FaceIDs) (s : IStream) (o : AttributedObject R)
    (h : o.FaceInv) : (readPass uninit s o).2.2.FaceInv := by
  unfold readPass
  simp only []
  by_cases h3 : s.get.2.eofbit = true
  · rw [if_pos h3]; exact h
  · rw [if_neg h3]; exact readSwitch_faceInv uninit _ _ o h

theorem readLoop_faceInv (uninit : FaceIDs) (fuel : Nat) :
    ∀ (s : IStream) (o : AttributedObject R) (r : IStream × AttributedObject R),
      readLoop uninit fuel s o = some r → o.FaceInv → r.2.FaceInv := by
  induction fuel with
  | zero => intro s o r h; simp [readLoop] at h
  | succ fuel ih =>
    intro s o r h hinv
    have hp := readPass_faceInv uninit s o hinv
    rw [readLoop] at h
    by_cases hb : (readPass uninit s o).1 = true
    · rw [if_pos hb] at h
      exact ih _ _ r h hp
    · rw [if_neg hb] at h
      simp only [Option.some.injEq] at h
      subst h; exact hp

theorem computeCentre_faces [LinearOrder R] [Zero R] (length : Cartesian3 → R)
    (o : AttributedObject R) : (computeCentre length o).FaceInv ↔ o.FaceInv := by
  unfold computeCentre FaceInv
  split_ifs <;> simp

theorem ReadObjectStream_eq_some [LinearOrder R] [Zero R] (length : Cartesian3 → R)
    (uninit : FaceIDs) (fuel : Nat) (s : IStream) (o : AttributedObject R)
    (r : Bool × IStream × AttributedObject R)
    (h : ReadObjectStream length uninit fuel s o = some r) :
    ∃ s1 o1, readLoop uninit fuel s o = some (s1, o1) ∧ r = (true, s1, computeCentre length o1) := by
  unfold ReadObjectStream at h
  split at h
  · simp at h
  · rename_i s1 o1 heq
    simp only [Option.some.injEq] at h
    exact ⟨s1, o1, heq, h.symm⟩

/-- C7. The face arrays of a freshly constructed object have the same length, a
multiple of 3 (they are empty); and whenever `ReadObjectStream` returns, on any input
stream and from any object whose face arrays have the same length, a multiple of 3,
the face arrays of the result again have the same length, a multiple of 3. -/
theorem C7_face_arrays_equal_length_multiple_of_three [LinearOrder R] [Zero R]
    (length : Cartesian3 → R) (uninit : FaceIDs) (fuel : Nat) (s : IStream)
    (o : AttributedObject R) (r : Bool × IStream × AttributedObject R) (size : R)
    (h : ReadObjectStream length uninit fuel s o = some r) :
    (AttributedObject.new size).FaceInv ∧ (o.FaceInv → r.2.2.FaceInv) := by
  refine ⟨⟨rfl, rfl, rfl, ⟨0, rfl⟩⟩, fun hinv => ?_⟩
  obtain ⟨s1, o1, hl, rfl⟩ := ReadObjectStream_eq_some length uninit fuel s o r h
  exact (computeCentre_faces length o1).mpr (readLoop_faceInv uninit fuel s o _ hl hinv)

theorem C7_witness :
    (AttributedObject.new (5 : ℚ)).FaceInv ∧
      ((AttributedObject.new (5 : ℚ)).FaceInv →
        ({ AttributedObject.new (5 : ℚ) with
            faceVertices := [0, 1, 1], faceColours := [0, 1, 1]
            faceNormals := [0, 1, 1], faceTexCoords := [0, 1, 1] }).FaceInv) :=
  C7_face_arrays_equal_length_multiple_of_three (fun v => v.normSq) ⟨7, 7, 7, 7⟩ 10
    (IStream.ofList "f 1/1/1/1 2/2/2/2\n".toList) (AttributedObject.new 5)
    (true, ⟨[], true, true⟩,
      { AttributedObject.new (5 : ℚ) with
        faceVertices := [0, 1, 1], faceColours := [0, 1, 1]
        faceNormals := [0, 1, 1], faceTexCoords := [0, 1, 1] }) 5 (by decide)

end AttributedObject

namespace AttributedObject

variable {R : Type}

/-- On a stream whose `failbit` is set and whose `eofbit` is not, a pass of the read
loop changes nothing and does not leave the loop. -/
theorem readPass_failed (uninit : FaceIDs) (s : IStream) (o : AttributedObject R)
    (hf : s.failbit = true) (he : s.eofbit = false) : readPass uninit s o = (true, s, o) := by
  obtain ⟨buf, f, e⟩ := s
  simp only [] at hf he
  subst hf he
  rfl

/-- On a stream whose `failbit` is set and whose `eofbit` is not, the read loop never
ends. -/
theorem readLoop_failed (uninit : FaceIDs) (s : IStream) (o : AttributedObject R)
    (hf : s.failbit = true) (he : s.eofbit = false) (fuel : Nat) :
    readLoop uninit fuel s o = none := by
  induction fuel with
  | zero => rfl
  | succ fuel ih => rw [readLoop, readPass_failed uninit s o hf he]; exact ih

theorem readPass_other (uninit : FaceIDs) (o : AttributedObject R) (c : Char)
    (rest : List Char) (hc : c ≠ '#' ∧ c ≠ 'v' ∧ c ≠ 'f') :
    readPass uninit (IStream.ofList (c :: rest)) o = (true, IStream.ofList rest, o) := by
  obtain ⟨h1, h2, h3⟩ := hc
  simp [readPass, readSwitch, IStream.get, IStream.ofList, IStream.good, h1, h2, h3]

theorem readPass_v_other (uninit : FaceIDs) (o : AttributedObject R) (d : Char)
    (rest : List Char) (hd : d ≠ ' ' ∧ d ≠ 'c' ∧ d ≠ 'n' ∧ d ≠ 't') :
    readPass uninit (IStream.ofList ('v' :: d :: rest)) o = (true, IStream.ofList rest, o) := by
  obtain ⟨h1, h2, h3, h4⟩ := hd
  simp [readPass, readSwitch, readVertexData, IStream.get, IStream.ofList, IStream.good,
    h1, h2, h3, h4]

theorem readLoop_skip_chars (uninit : FaceIDs) (o : AttributedObject R) (fuel : Nat)
    (rest : List Char) :
    ∀ line : List Char, (∀ x ∈ line, x ≠ '#' ∧ x ≠ 'v' ∧ x ≠ 'f') →
      readLoop uninit (fuel + line.length) (IStream.ofList (line ++ rest)) o =
        readLoop uninit fuel (IStream.ofList rest) o := by
  intro line
  induction line with
  | nil => intro _; rfl
  | cons c line ih =>
    intro h
    have hc := h c (by simp)
    rw [List.length_cons, ← Nat.add_assoc, readLoop, List.cons_append,
      readPass_other uninit o c _ hc]
    exact ih (fun x hx => h x (by simp [hx]))

/-- C9 (as amended). An unrecognised tag is skipped character by character, not line
by line: a pass of the read loop whose first character is none of `#`, `v`, `f`
consumes that one character, and a pass that reads `v` followed by a character other
than space, `c`, `n`, `t` consumes those two characters; either pass leaves the eight
arrays (the whole object) unchanged and the loop goes on with the next character of
the same line. Hence a line with such a tag leaves the object unchanged when none of
its remaining characters is `#`, `v` or `f`: the loop then continues after the line
as if the line were absent. -/
theorem C9_unrecognised_tag_skips_characters (uninit : FaceIDs) (o : AttributedObject R)
    (c d : Char) (line rest : List Char) (fuel : Nat)
    (hc : c ≠ '#' ∧ c ≠ 'v' ∧ c ≠ 'f') (hd : d ≠ ' ' ∧ d ≠ 'c' ∧ d ≠ 'n' ∧ d ≠ 't')
    (hline : ∀ x ∈ line, x ≠ '#' ∧ x ≠ 'v' ∧ x ≠ 'f') :
    readPass uninit (IStream.ofList (c :: rest)) o = (true, IStream.ofList rest, o) ∧
    readPass uninit (IStream.ofList ('v' :: d :: rest)) o = (true, IStream.ofList rest, o) ∧
    readLoop uninit (fuel + line.length + 1) (IStream.ofList (c :: line ++ rest)) o =
      readLoop uninit fuel (IStream.ofList rest) o ∧
    readLoop uninit (fuel + line.length + 1) (IStream.ofList ('v' :: d :: line ++ rest)) o =
      readLoop uninit fuel (IStream.ofList rest) o := by
  refine ⟨readPass_other uninit o c rest hc, readPass_v_other uninit o d rest hd, ?_, ?_⟩
  · rw [readLoop, List.cons_append, readPass_other uninit o c _ hc]
    exact readLoop_skip_chars uninit o fuel rest line hline
  · rw [readLoop, List.cons_append, List.cons_append, readPass_v_other uninit o d _ hd]
    exact readLoop_skip_chars uninit o fuel rest line hline

theorem C9_witness :
    readPass (R := ℚ) ⟨0, 0, 0, 0⟩ (IStream.ofList ('o' :: " v 1 2 3\n".toList)) (new 0) =
      (true, IStream.ofList " v 1 2 3\n".toList, new 0) ∧
    readPass (R := ℚ) ⟨0, 0, 0, 0⟩ (IStream.ofList ('v' :: 'x' :: " v 1 2 3\n".toList)) (new 0) =
      (true, IStream.ofList " v 1 2 3\n".toList, new 0) ∧
    readLoop (R := ℚ) ⟨0, 0, 0, 0⟩ (1 + " 1 2 3\n".toList.length + 1)
        (IStream.ofList ('o' :: " 1 2 3\n".toList ++ " v 1 2 3\n".toList)) (new 0) =
      readLoop ⟨0, 0, 0, 0⟩ 1 (IStream.ofList " v 1 2 3\n".toList) (new 0) ∧
    readLoop (R := ℚ) ⟨0, 0, 0, 0⟩ (1 + " 1 2 3\n".toList.length + 1)
        (IStream.ofList ('v' :: 'x' :: " 1 2 3\n".toList ++ " v 1 2 3\n".toList)) (new 0) =
      readLoop ⟨0, 0, 0, 0⟩ 1 (IStream.ofList " v 1 2 3\n".toList) (new 0) :=
  C9_unrecognised_tag_skips_characters ⟨0, 0, 0, 0⟩ (new 0) 'o' 'x' " 1 2 3\n".toList
    " v 1 2 3\n".toList 1 (by decide) (by decide) (by decide)

theorem C9_counterexample :
    (ReadObjectStream (R := ℚ) (fun v => v.normSq) ⟨0, 0, 0, 0⟩ 20
        (IStream.ofList "o v 1 2 3\n".toList) (new 0)).map (fun r => r.2.2.vertices)
      = some [⟨1, 2, 3⟩] ∧
    (ReadObjectStream (R := ℚ) (fun v => v.normSq) ⟨0, 0, 0, 0⟩ 20
        (IStream.ofList "vxv 1 2 3\n".toList) (new 0)).map (fun r => r.2.2.vertices)
      = some [⟨1, 2, 3⟩] := by
  constructor <;>
  simp [ReadObjectStream, computeCentre, readLoop, readPass, readSwitch, IStream.get, IStream.ofList,
    IStream.good, readVertexData, IStream.extractCartesian3, IStream.extractFloat,
    IStream.sentry, IStream.isspace, IStream.takeSign, IStream.floatVal, IStream.digitsVal,
    IStream.digitVal, new, Cartesian3.zero]

end AttributedObject

namespace AttributedObject

variable {R : Type}

/-- C8. The return value of `ReadObjectStream` is `true` whenever it returns, also on
the stream `f 1/1/1/1 2/2/2/2` (a face line with two corner groups), for which it
delivers a mesh with three corners, the third a repetition of the second; and on the
stream `v a b c` (a malformed float) it does not return at all: the read loop runs
for ever. -/
theorem C8_malformed_input_is_not_reported :
    ReadObjectStream (R := ℚ) (fun v => v.normSq) ⟨0, 0, 0, 0⟩ 20
        (IStream.ofList "f 1/1/1/1 2/2/2/2\n".toList) (new 0) =
      some (true, ⟨[], true, true⟩,
        { new (0 : ℚ) with
          faceVertices := [0, 1, 1], faceColours := [0, 1, 1]
          faceNormals := [0, 1, 1], faceTexCoords := [0, 1, 1] }) ∧
    (∀ fuel, ReadObjectStream (R := ℚ) (fun v => v.normSq) ⟨0, 0, 0, 0⟩ fuel
        (IStream.ofList "v a b c\n".toList) (new 0) = none) ∧
    (∀ (uninit : FaceIDs) (fuel : Nat) (s : IStream) (o : AttributedObject ℚ)
        (r : Bool × IStream × AttributedObject ℚ),
      ReadObjectStream (fun v => v.normSq) uninit fuel s o = some r → r.1 = true) := by
  refine ⟨by decide, ?_, ?_⟩
  · intro fuel
    cases fuel with
    | zero => rfl
    | succ fuel =>
      have hp : readPass (R := ℚ) ⟨0, 0, 0, 0⟩ (IStream.ofList "v a b c\n".toList) (new 0) =
          (true, ⟨"a b c\n".toList, true, false⟩, { new (0 : ℚ) with vertices := [⟨0, 0, 0⟩] }) := by
        decide
      unfold ReadObjectStream
      rw [readLoop, hp]
      simp only [if_true]
      rw [readLoop_failed _ _ _ rfl rfl]
  · intro uninit fuel s o r h
    obtain ⟨s1, o1, _, rfl⟩ := ReadObjectStream_eq_some _ uninit fuel s o r h
    rfl

/-- C6. Loading a stream with zero position lines into a freshly constructed object
returns with `centreOfGravity` at the origin and with `objectSize` still holding the
indeterminate value `size` the constructor left in it, which need not be 0: so for the
empty stream, whatever `size` is, and so for a stream of `vc`, `vt` and `f` lines with
`size` 5. -/
theorem C6_object_size_keeps_indeterminate_value [LinearOrder R] [Zero R]
    (length : Cartesian3 → R) (uninit : FaceIDs) (size : R) :
    ReadObjectStream length uninit 1 (IStream.ofList []) (new size) =
      some (true, ⟨[], true, true⟩, new size) ∧
    (new size).centreOfGravity = ⟨0, 0, 0⟩ ∧ (new size).objectSize = size ∧
    (ReadObjectStream (R := ℚ) (fun v => v.normSq) ⟨0, 0, 0, 0⟩ 40
        (IStream.ofList "vc 1 0 0\nvt 0 0 0\nf 1/1/1/1 1/1/1/1 1/1/1/1\n".toList) (new 5)).map
      (fun r => (r.2.2.vertices, r.2.2.centreOfGravity, r.2.2.objectSize)) =
      some ([], ⟨0, 0, 0⟩, 5) := by
  refine ⟨?_, rfl, rfl, ?_⟩
  · simp [ReadObjectStream, readLoop, readPass, IStream.get, IStream.ofList, IStream.good,
      computeCentre, new]
  · have h : (readLoop (R := ℚ) ⟨0, 0, 0, 0⟩ 40
        (IStream.ofList "vc 1 0 0\nvt 0 0 0\nf 1/1/1/1 1/1/1/1 1/1/1/1\n".toList) (new 5)).map
        (fun r => (r.2.vertices, r.2.objectSize)) = some ([], 5) := by decide
    unfold ReadObjectStream
    cases hl : readLoop (R := ℚ) ⟨0, 0, 0, 0⟩ 40
        (IStream.ofList "vc 1 0 0\nvt 0 0 0\nf 1/1/1/1 1/1/1/1 1/1/1/1\n".toList) (new 5) with
    | none => rw [hl] at h; simp at h
    | some r =>
      rw [hl] at h
      simp only [Option.map_some', Option.some.injEq, Prod.mk.injEq] at h
      simp [computeCentre, h.1, h.2]

end AttributedObject

namespace AttributedObject

variable {R : Type}

theorem sumVertices_eq (vs : List Cartesian3) : ∀ c : Cartesian3,
    sumVertices c vs = ⟨c.x + (vs.map Cartesian3.x).sum, c.y + (vs.map Cartesian3.y).sum,
      c.z + (vs.map Cartesian3.z).sum⟩ := by
  induction vs with
  | nil => intro c; simp [sumVertices]
  | cons v vs ih =>
    intro c
    have := ih (c.add v)
    simp only [sumVertices, List.foldl_cons] at this ⊢
    rw [this]
    simp [Cartesian3.add, add_assoc]

theorem computeCentre_vertices [LinearOrder R] [Zero R] (length : Cartesian3 → R)
    (o : AttributedObject R) : (computeCentre length o).vertices = o.vertices := by
  unfold computeCentre
  split_ifs <;> rfl

theorem computeCentre_centre [LinearOrder R] [Zero R] (length : Cartesian3 → R)
    (o : AttributedObject R) (h : o.vertices ≠ []) :
    (computeCentre length o).centreOfGravity = mean o.vertices := by
  have hl : o.vertices.length ≠ 0 := by simpa using h
  unfold computeCentre
  simp only [hl, ne_eq, not_false_eq_true, if_true]
  rw [sumVertices_eq]
  simp [Cartesian3.divScalar, mean]

/-- The example mesh of the specification: the three positions (0,0,0), (2,0,0),
(1,3,0). -/
theorem readLoop_three_positions (uninit : FaceIDs) (size : R) :
    readLoop uninit 20 (IStream.ofList "v 0 0 0\nv 2 0 0\nv 1 3 0\n".toList) (new size) =
      some (⟨[], true, true⟩,
        { new size with vertices := [⟨0, 0, 0⟩, ⟨2, 0, 0⟩, ⟨1, 3, 0⟩] }) := by
  simp [readLoop, readPass, readSwitch, IStream.get, IStream.ofList,
    IStream.good, readVertexData, IStream.extractCartesian3, IStream.extractFloat,
    IStream.sentry, IStream.isspace, IStream.takeSign, IStream.floatVal, IStream.digitsVal,
    IStream.digitVal, new, Cartesian3.zero]

/-- C4. Whenever `ReadObjectStream` returns with a non-empty `vertices` array,
`centreOfGravity` is the arithmetic mean of all positions (the sum of each component
divided by the number of positions); for the positions (0,0,0), (2,0,0), (1,3,0) it
is (1,1,0). -/
theorem C4_centre_of_gravity_is_mean [LinearOrder R] [Zero R] (length : Cartesian3 → R)
    (uninit : FaceIDs) (fuel : Nat) (s : IStream) (o : AttributedObject R)
    (r : Bool × IStream × AttributedObject R)
    (h : ReadObjectStream length uninit fuel s o = some r) (hne : r.2.2.vertices ≠ []) :
    r.2.2.centreOfGravity = mean r.2.2.vertices ∧
    (r.2.2.vertices = [⟨0, 0, 0⟩, ⟨2, 0, 0⟩, ⟨1, 3, 0⟩] → r.2.2.centreOfGravity = ⟨1, 1, 0⟩) := by
  obtain ⟨s1, o1, _, rfl⟩ := ReadObjectStream_eq_some length uninit fuel s o r h
  simp only [computeCentre_vertices] at hne ⊢
  have hm := computeCentre_centre length o1 hne
  refine ⟨hm, fun hv => ?_⟩
  rw [hm, hv]
  simp only [mean, Cartesian3.mk.injEq]
  norm_num

theorem C4_witness :
    (computeCentre (fun v => v.normSq)
        { new (0 : ℚ) with vertices := [⟨0, 0, 0⟩, ⟨2, 0, 0⟩, ⟨1, 3, 0⟩] }).centreOfGravity =
      mean [⟨0, 0, 0⟩, ⟨2, 0, 0⟩, ⟨1, 3, 0⟩] ∧
    ([(⟨0, 0, 0⟩ : Cartesian3), ⟨2, 0, 0⟩, ⟨1, 3, 0⟩] = [⟨0, 0, 0⟩, ⟨2, 0, 0⟩, ⟨1, 3, 0⟩] →
      (computeCentre (fun v => v.normSq)
        { new (0 : ℚ) with vertices := [⟨0, 0, 0⟩, ⟨2, 0, 0⟩, ⟨1, 3, 0⟩] }).centreOfGravity =
        ⟨1, 1, 0⟩) :=
  C4_centre_of_gravity_is_mean (fun v => v.normSq) ⟨0, 0, 0, 0⟩ 20
    (IStream.ofList "v 0 0 0\nv 2 0 0\nv 1 3 0\n".toList) (new 0)
    (true, ⟨[], true, true⟩,
      computeCentre (fun v => v.normSq)
        { new (0 : ℚ) with vertices := [⟨0, 0, 0⟩, ⟨2, 0, 0⟩, ⟨1, 3, 0⟩] })
    (by rw [ReadObjectStream, readLoop_three_positions])
    (by rw [computeCentre_vertices]; simp)

end AttributedObject

namespace AttributedObject

variable {R : Type}

theorem maxDistance_spec [LinearOrder R] (length : Cartesian3 → R) (c : Cartesian3)
    (vs : List Cartesian3) : ∀ size : R,
      size ≤ maxDistance length c size vs ∧
      (∀ v ∈ vs, length (v.sub c) ≤ maxDistance length c size vs) ∧
      (maxDistance length c size vs = size ∨
        ∃ v ∈ vs, maxDistance length c size vs = length (v.sub c)) := by
  induction vs with
  | nil => intro size; simp [maxDistance]
  | cons a vs ih =>
    intro size
    simp only [maxDistance, List.foldl_cons] at ih ⊢
    by_cases hgt : length (a.sub c) > size
    · simp only [hgt, if_true]
      obtain ⟨h1, h2, h3⟩ := ih (length (a.sub c))
      refine ⟨le_trans (le_of_lt hgt) h1, ?_, ?_⟩
      · intro v hv
        rcases List.mem_cons.mp hv with rfl | hv
        · exact h1
        · exact h2 v hv
      · right
        rcases h3 with h3 | ⟨v, hv, h3⟩
        · exact ⟨a, by simp, h3⟩
        · exact ⟨v, by simp [hv], h3⟩
    · simp only [hgt, if_false]
      obtain ⟨h1, h2, h3⟩ := ih size
      refine ⟨h1, ?_, ?_⟩
      · intro v hv
        rcases List.mem_cons.mp hv with rfl | hv
        · exact le_trans (not_lt.mp hgt) h1
        · exact h2 v hv
      · rcases h3 with h3 | ⟨v, hv, h3⟩
        · exact Or.inl h3
        · exact Or.inr ⟨v, by simp [hv], h3⟩

theorem computeCentre_size [LinearOrder R] [Zero R] (length : Cartesian3 → R)
    (o : AttributedObject R) (h : o.vertices ≠ []) :
    (computeCentre length o).objectSize =
      maxDistance length (computeCentre length o).centreOfGravity 0 o.vertices := by
  have hl : o.vertices.length ≠ 0 := by simpa using h
  unfold computeCentre
  simp only [hl, ne_eq, not_false_eq_true, if_true]

/-- C5. Whenever `ReadObjectStream` returns with a non-empty `vertices` array,
`objectSize` is the maximum over all positions of the Euclidean distance to
`centreOfGravity`: it is at least the distance of every position and it is the
distance of at least one position. `length` is the Euclidean length (non-negative, its
square the sum of the squares of the components). For the positions (0,0,0), (2,0,0),
(1,3,0) the square of `objectSize` is 4, and the square of the distance of (2,0,0)
is 2. -/
theorem C5_object_size_is_max_distance [LinearOrderedField R] (length : Cartesian3 → R)
    (hnonneg : ∀ v, 0 ≤ length v) (hsq : ∀ v, length v * length v = (v.normSq : R))
    (uninit : FaceIDs) (fuel : Nat) (s : IStream) (o : AttributedObject R)
    (r : Bool × IStream × AttributedObject R)
    (h : ReadObjectStream length uninit fuel s o = some r) (hne : r.2.2.vertices ≠ []) :
    (∀ p ∈ r.2.2.vertices, length (p.sub r.2.2.centreOfGravity) ≤ r.2.2.objectSize) ∧
    (∃ p ∈ r.2.2.vertices, r.2.2.objectSize = length (p.sub r.2.2.centreOfGravity)) ∧
    (r.2.2.vertices = [⟨0, 0, 0⟩, ⟨2, 0, 0⟩, ⟨1, 3, 0⟩] →
      r.2.2.objectSize * r.2.2.objectSize = 4 ∧
      length ((⟨2, 0, 0⟩ : Cartesian3).sub r.2.2.centreOfGravity) *
        length ((⟨2, 0, 0⟩ : Cartesian3).sub r.2.2.centreOfGravity) = 2) := by
  obtain ⟨s1, o1, _, rfl⟩ := ReadObjectStream_eq_some length uninit fuel s o r h
  simp only [computeCentre_vertices] at hne ⊢
  have hsize := computeCentre_size length o1 hne
  have hcen := computeCentre_centre length o1 hne
  obtain ⟨m1, m2, m3⟩ :=
    maxDistance_spec length (computeCentre length o1).centreOfGravity o1.vertices 0
  rw [← hsize] at m1 m2 m3
  have hex : ∃ p ∈ o1.vertices, (computeCentre length o1).objectSize =
      length (p.sub (computeCentre length o1).centreOfGravity) := by
    rcases m3 with m3 | m3
    · obtain ⟨a, vs, hv⟩ := List.exists_cons_of_ne_nil hne
      refine ⟨a, by simp [hv], ?_⟩
      have := m2 a (by simp [hv])
      rw [m3] at this ⊢
      exact le_antisymm (hnonneg _) this
    · exact m3
  refine ⟨m2, hex, fun hv => ?_⟩
  rw [hv] at hcen hex m2
  have hc : (computeCentre length o1).centreOfGravity = ⟨1, 1, 0⟩ := by
    rw [hcen]
    simp only [mean, Cartesian3.mk.injEq]
    norm_num
  rw [hc] at hex m2 ⊢
  have q1 := hsq ((⟨0, 0, 0⟩ : Cartesian3).sub ⟨1, 1, 0⟩)
  have q2 := hsq ((⟨2, 0, 0⟩ : Cartesian3).sub ⟨1, 1, 0⟩)
  have q3 := hsq ((⟨1, 3, 0⟩ : Cartesian3).sub ⟨1, 1, 0⟩)
  have n1 : (((⟨0, 0, 0⟩ : Cartesian3).sub ⟨1, 1, 0⟩).normSq : R) = 2 := by
    norm_num [Cartesian3.normSq, Cartesian3.sub]
  have n2 : (((⟨2, 0, 0⟩ : Cartesian3).sub ⟨1, 1, 0⟩).normSq : R) = 2 := by
    norm_num [Cartesian3.normSq, Cartesian3.sub]
  have n3 : (((⟨1, 3, 0⟩ : Cartesian3).sub ⟨1, 1, 0⟩).normSq : R) = 4 := by
    norm_num [Cartesian3.normSq, Cartesian3.sub]
  rw [n1] at q1
  rw [n2] at q2
  rw [n3] at q3
  refine ⟨?_, q2⟩
  have hge := m2 ⟨1, 3, 0⟩ (by simp)
  have h3nn := hnonneg ((⟨1, 3, 0⟩ : Cartesian3).sub ⟨1, 1, 0⟩)
  have hmul := mul_self_le_mul_self h3nn hge
  rw [q3] at hmul
  obtain ⟨p, hp, hpe⟩ := hex
  simp only [List.mem_cons, List.mem_singleton, List.not_mem_nil, or_false] at hp
  rcases hp with rfl | rfl | rfl
  · rw [hpe, q1] at hmul; norm_num at hmul
  · rw [hpe, q2] at hmul; norm_num at hmul
  · rw [hpe, q3]

end AttributedObject

namespace AttributedObject

variable {R : Type}

theorem normSq_nonneg (v : Cartesian3) : 0 ≤ v.normSq := by
  unfold Cartesian3.normSq
  nlinarith [mul_self_nonneg v.x, mul_self_nonneg v.y, mul_self_nonneg v.z]

theorem C5_witness :
    ∃ (length : Cartesian3 → ℝ) (r : Bool × IStream × AttributedObject ℝ),
      (∀ v, 0 ≤ length v) ∧ (∀ v, length v * length v = ((v.normSq : ℚ) : ℝ)) ∧
      ReadObjectStream length ⟨0, 0, 0, 0⟩ 20
        (IStream.ofList "v 0 0 0\nv 2 0 0\nv 1 3 0\n".toList) (new 0) = some r ∧
      r.2.2.vertices ≠ [] ∧
      (∀ p ∈ r.2.2.vertices, length (p.sub r.2.2.centreOfGravity) ≤ r.2.2.objectSize) ∧
      r.2.2.objectSize * r.2.2.objectSize = 4 := by
  have hnn : ∀ v : Cartesian3, 0 ≤ Real.sqrt ((v.normSq : ℚ) : ℝ) := fun v => Real.sqrt_nonneg _
  have hsq : ∀ v : Cartesian3, Real.sqrt ((v.normSq : ℚ) : ℝ) * Real.sqrt ((v.normSq : ℚ) : ℝ)
      = ((v.normSq : ℚ) : ℝ) :=
    fun v => Real.mul_self_sqrt (by exact_mod_cast normSq_nonneg v)
  have h : ReadObjectStream (fun v => Real.sqrt ((v.normSq : ℚ) : ℝ)) ⟨0, 0, 0, 0⟩ 20
      (IStream.ofList "v 0 0 0\nv 2 0 0\nv 1 3 0\n".toList) (new 0) =
      some (true, ⟨[], true, true⟩, computeCentre (fun v => Real.sqrt ((v.normSq : ℚ) : ℝ))
        { new (0 : ℝ) with vertices := [⟨0, 0, 0⟩, ⟨2, 0, 0⟩, ⟨1, 3, 0⟩] }) := by
    rw [ReadObjectStream, readLoop_three_positions]
  have hne : (true, (⟨[], true, true⟩ : IStream),
      computeCentre (fun v => Real.sqrt ((v.normSq : ℚ) : ℝ))
        { new (0 : ℝ) with vertices := [⟨0, 0, 0⟩, ⟨2, 0, 0⟩, ⟨1, 3, 0⟩] }).2.2.vertices ≠ [] := by
    rw [computeCentre_vertices]; simp
  have key := C5_object_size_is_max_distance (fun v => Real.sqrt ((v.normSq : ℚ) : ℝ))
    hnn hsq ⟨0, 0, 0, 0⟩ 20 _ (new 0) _ h hne
  exact ⟨_, _, hnn, hsq, h, hne, key.1, (key.2.2 (by rw [computeCentre_vertices])).1⟩

theorem edgeSetup_distances (x0 y0 x1 y1 x2 y2 : ℚ) :
    (edgeSetup x0 y0 x1 y1 x2 y2).distance0 = (x1 - x0) * (y2 - y0) - (x2 - x0) * (y1 - y0) ∧
    (edgeSetup x0 y0 x1 y1 x2 y2).distance1 = (x1 - x0) * (y2 - y0) - (x2 - x0) * (y1 - y0) ∧
    (edgeSetup x0 y0 x1 y1 x2 y2).distance2 = (x1 - x0) * (y2 - y0) - (x2 - x0) * (y1 - y0) := by
  simp only [edgeSetup, Cartesian3.sub, Cartesian3.dot]
  refine ⟨?_, ?_, ?_⟩ <;> ring

/-- C10. For every triangle that `drawTriangle` does not skip (`distance0`,
`distance1`, `distance2` all non-zero) and every pixel `(u, v)`, the weights satisfy
`alpha + beta + gamma = 1` over exact arithmetic; and for every pixel that passes the
half-plane test the three weights are `>= 0`. -/
theorem C10_weights_sum_to_one (x0 y0 x1 y1 x2 y2 : ℚ) (u v : ℤ)
    (h : (edgeSetup x0 y0 x1 y1 x2 y2).skipped = false) :
    (edgeSetup x0 y0 x1 y1 x2 y2).alpha u v + (edgeSetup x0 y0 x1 y1 x2 y2).beta u v +
      (edgeSetup x0 y0 x1 y1 x2 y2).gamma u v = 1 ∧
    ((edgeSetup x0 y0 x1 y1 x2 y2).passes u v = true →
      0 ≤ (edgeSetup x0 y0 x1 y1 x2 y2).alpha u v ∧
      0 ≤ (edgeSetup x0 y0 x1 y1 x2 y2).beta u v ∧
      0 ≤ (edgeSetup x0 y0 x1 y1 x2 y2).gamma u v) := by
  obtain ⟨d0, d1, d2⟩ := edgeSetup_distances x0 y0 x1 y1 x2 y2
  have hne : (x1 - x0) * (y2 - y0) - (x2 - x0) * (y1 - y0) ≠ 0 := by
    intro hz
    rw [← d0] at hz
    simp [EdgeSetup.skipped, hz] at h
  constructor
  · simp only [EdgeSetup.alpha, EdgeSetup.beta, EdgeSetup.gamma, d0, d1, d2]
    simp only [edgeSetup, Cartesian3.sub, Cartesian3.dot]
    field_simp
    ring
  · intro hp
    simp only [EdgeSetup.passes, Bool.not_eq_true', Bool.or_eq_false_iff,
      decide_eq_false_iff_not, not_lt] at hp
    exact ⟨hp.1.1, hp.1.2, hp.2⟩

theorem C10_witness :
    (edgeSetup 0 0 4 0 0 4).alpha 1 1 + (edgeSetup 0 0 4 0 0 4).beta 1 1 +
      (edgeSetup 0 0 4 0 0 4).gamma 1 1 = 1 ∧
    ((edgeSetup 0 0 4 0 0 4).passes 1 1 = true →
      0 ≤ (edgeSetup 0 0 4 0 0 4).alpha 1 1 ∧
      0 ≤ (edgeSetup 0 0 4 0 0 4).beta 1 1 ∧
      0 ≤ (edgeSetup 0 0 4 0 0 4).gamma 1 1) :=
  C10_weights_sum_to_one 0 0 4 0 0 4 1 1
    (by simp [EdgeSetup.skipped, edgeSetup, Cartesian3.sub, Cartesian3.dot])

end AttributedObject

namespace IStream

theorem digitsVal_append (xs : List Char) : ∀ ys : List Char,
    digitsVal (xs ++ ys) = digitsVal xs * 10 ^ ys.length + digitsVal ys := by
  intro ys
  induction ys using List.reverseRecOn with
  | nil => simp [digitsVal]
  | append_singleton ys c ih =>
    rw [← List.append_assoc, OStream.digitsVal_append_singleton, ih,
      OStream.digitsVal_append_singleton, List.length_append, List.length_singleton, pow_succ]
    ring

theorem takeSign_minus (cs : List Char) : takeSign ('-' :: cs) = (true, cs) := rfl

/-- The characters that can follow a float in the text the serialiser writes. -/
theorem separator_facts (c : Char) (hc : c = ' ' ∨ c = '\n') :
    c.isDigit = false ∧ c ≠ '.' ∧ c ≠ 'e' ∧ c ≠ 'E' := by
  rcases hc with rfl | rfl <;> decide

theorem extractFloat_plain (neg : Bool) (ws ip fp : List Char) (c : Char) (rest : List Char)
    (v : ℚ) (hws : ∀ w ∈ ws, isspace w = true)
    (hip : ∀ d ∈ ip, d.isDigit = true) (hipne : ip ≠ [])
    (hfp : ∀ d ∈ fp, d.isDigit = true) (hc : c = ' ' ∨ c = '\n') (hasPoint : Bool) (hpt : hasPoint = false → fp = []) :
    (ofList (ws ++ ((if neg then ['-'] else []) ++ ip ++
        (if hasPoint then '.' :: fp else [])) ++ c :: rest)).extractFloat v =
      (floatVal neg ip fp false [], ofList (c :: rest)) := by
  obtain ⟨hcd, hc1, hc2, hc3⟩ := separator_facts c hc
  obtain ⟨d, tl, hd⟩ := List.exists_cons_of_ne_nil hipne
  have hdd : d.isDigit = true := hip d (by simp [hd])
  -- the sentry
  have hsen : (ofList (ws ++ ((if neg then ['-'] else []) ++ ip ++
        (if hasPoint then '.' :: fp else [])) ++ c :: rest)).sentry =
      (true, ofList ((if neg then ['-'] else []) ++ (ip ++
        ((if hasPoint then '.' :: fp else []) ++ c :: rest)))) := by
    cases neg
    · simp only [Bool.false_eq_true, if_false, List.nil_append, List.append_assoc, hd,
        List.cons_append]
      exact sentry_skip ws d _ hws (isDigit_not_isspace d hdd)
    · simp only [if_true, List.append_assoc, List.cons_append, List.nil_append]
      exact sentry_skip ws '-' _ hws (by decide)
  have hsign : takeSign ((if neg then ['-'] else []) ++ (ip ++
        ((if hasPoint then '.' :: fp else []) ++ c :: rest))) =
      (neg, ip ++ ((if hasPoint then '.' :: fp else []) ++ c :: rest)) := by
    cases neg
    · simp only [Bool.false_eq_true, if_false, List.nil_append, hd, List.cons_append]
      exact takeSign_digit d _ hdd
    · rfl
  have htd := takeWhile_append_stop Char.isDigit ip
    ((if hasPoint then '.' :: fp else []) ++ c :: rest) hip (by
      cases hasPoint
      · simpa using hcd
      · simp)
  have htf := takeWhile_append_stop Char.isDigit fp (c :: rest) hfp (by simpa using hcd)
  have hne : ip.isEmpty = false := by simp [hd]
  unfold extractFloat
  rw [hsen]
  simp only [ofList, hsign, htd.1, htd.2, if_true]
  cases hasPoint
  · have := hpt rfl
    subst this
    simp [hne, hc1, hc2, hc3]
  · simp [hne, hc1, hc2, hc3, htf.1, htf.2]

end IStream

namespace OStream

theorem showNat_length_le (n : Nat) : ∀ p : Nat, 0 < p → n < 10 ^ p → (showNat n).length ≤ p := by
  induction n using Nat.strong_induction_on with
  | _ n ih =>
    intro p hp hn
    by_cases h : n < 10
    · rw [showNat_small n h]; simpa using hp
    · have h10 : 10 ≤ n := by omega
      rw [showNat_step n h10, List.length_append, List.length_singleton]
      obtain ⟨q, rfl⟩ : ∃ q, p = q + 1 := ⟨p - 1, by omega⟩
      have hq : 0 < q := by
        rcases Nat.eq_zero_or_pos q with rfl | hq
        · simp at hn; omega
        · exact hq
      have hdiv : n / 10 < 10 ^ q := by
        rw [pow_succ] at hn
        exact Nat.div_lt_of_lt_mul (by omega)
      have := ih (n / 10) (Nat.div_lt_self (by omega) (by omega)) q hq hdiv
      omega

theorem padDigits_length (p b : Nat) (hp : 0 < p) (hb : b < 10 ^ p) :
    (padDigits p b).length = p := by
  have := showNat_length_le b p hp hb
  simp only [padDigits, List.length_append, List.length_replicate]
  omega

theorem padDigits_isDigit (p b : Nat) : ∀ c ∈ padDigits p b, c.isDigit = true := by
  intro c hc
  simp only [padDigits, List.mem_append, List.mem_replicate] at hc
  rcases hc with ⟨_, rfl⟩ | hc
  · rfl
  · exact showNat_isDigit b c hc

theorem digitsVal_replicate_zero (k : Nat) : IStream.digitsVal (List.replicate k '0') = 0 := by
  induction k with
  | zero => rfl
  | succ k ih =>
    rw [List.replicate_succ', digitsVal_append_singleton, ih]
    rfl

theorem digitsVal_padDigits (p b : Nat) : IStream.digitsVal (padDigits p b) = b := by
  rw [padDigits, IStream.digitsVal_append, digitsVal_replicate_zero, digitsVal_showNat]
  simp

theorem floatVal_showFixed (p : Nat) (x : ℚ) :
    IStream.floatVal (decide (x < 0 ∧ fixedUnits p x ≠ 0)) (showNat (fixedUnits p x / 10 ^ p))
      (if p = 0 then [] else padDigits p (fixedUnits p x % 10 ^ p)) false [] = roundFixed p x := by
  have hval : (IStream.digitsVal (showNat (fixedUnits p x / 10 ^ p) ++
      (if p = 0 then [] else padDigits p (fixedUnits p x % 10 ^ p))) : ℚ) /
      (10 : ℚ) ^ (if p = 0 then [] else padDigits p (fixedUnits p x % 10 ^ p)).length =
      (fixedUnits p x : ℚ) / (10 : ℚ) ^ p := by
    by_cases hp : p = 0
    · subst hp
      simp [digitsVal_showNat]
    · have hpos : 0 < p := Nat.pos_of_ne_zero hp
      have hlt : fixedUnits p x % 10 ^ p < 10 ^ p := Nat.mod_lt _ (by positivity)
      simp only [hp, if_false]
      rw [IStream.digitsVal_append, digitsVal_showNat, digitsVal_padDigits,
        padDigits_length p _ hpos hlt, Nat.div_add_mod']
  unfold IStream.floatVal roundFixed
  simp only [hval]
  by_cases hneg : x < 0 ∧ fixedUnits p x ≠ 0
  · simp [hneg, IStream.digitsVal]
  · simp [hneg, IStream.digitsVal]

theorem showFixed_shape (p : Nat) (x : ℚ) :
    showFixed p x = (if decide (x < 0 ∧ fixedUnits p x ≠ 0) then ['-'] else []) ++
      showNat (fixedUnits p x / 10 ^ p) ++
      (if decide (p ≠ 0) then '.' :: (if p = 0 then [] else padDigits p (fixedUnits p x % 10 ^ p))
        else []) := by
  unfold showFixed
  by_cases hp : p = 0 <;> by_cases hneg : x < 0 ∧ fixedUnits p x ≠ 0 <;> simp [hp, hneg]

end OStream

namespace IStream

/-- Extracting a float from the text the serialiser writes for `x` gives `x` rounded to
the precision, and leaves the stream good in front of the separator. -/
theorem extractFloat_showFixed (p : Nat) (x : ℚ) (ws : List Char) (c : Char) (rest : List Char)
    (v : ℚ) (hws : ∀ w ∈ ws, isspace w = true) (hc : c = ' ' ∨ c = '\n') :
    (ofList (ws ++ OStream.showFixed p x ++ c :: rest)).extractFloat v =
      (OStream.roundFixed p x, ofList (c :: rest)) := by
  rw [OStream.showFixed_shape, ← OStream.floatVal_showFixed]
  refine extractFloat_plain _ ws _ _ c rest v hws (OStream.showNat_isDigit _)
    (OStream.showNat_ne_nil _) ?_ hc _ ?_
  · intro d hd
    by_cases hp : p = 0
    · simp [hp] at hd
    · simp only [hp, if_false] at hd
      exact OStream.padDigits_isDigit _ _ d hd
  · intro h
    simp only [decide_eq_false_iff_not, ne_eq, not_not] at h
    simp [h]

end IStream

namespace IStream

theorem extractCartesian3_show (p : Nat) (v : Cartesian3) (ws rest : List Char)
    (hws : ∀ w ∈ ws, isspace w = true) :
    (ofList (ws ++ OStream.showCartesian3 p v ++ '\n' :: rest)).extractCartesian3 =
      (OStream.roundCartesian3 p v, ofList ('\n' :: rest)) := by
  have e1 := extractFloat_showFixed p v.x ws ' '
    (OStream.showFixed p v.y ++ ' ' :: (OStream.showFixed p v.z ++ '\n' :: rest))
    Cartesian3.zero.x hws (Or.inl rfl)
  have e2 := extractFloat_showFixed p v.y [' '] ' ' (OStream.showFixed p v.z ++ '\n' :: rest)
    Cartesian3.zero.y AttributedObject.space_isspace (Or.inl rfl)
  have e3 := extractFloat_showFixed p v.z [' '] '\n' rest
    Cartesian3.zero.z AttributedObject.space_isspace (Or.inr rfl)
  simp only [List.singleton_append, List.cons_append, List.append_assoc, List.nil_append] at e1 e2 e3
  unfold extractCartesian3
  simp only [OStream.showCartesian3, List.cons_append, List.append_assoc]
  simp only [e1, e2, e3, OStream.roundCartesian3]

end IStream

namespace AttributedObject

variable {R : Type}

theorem readLoop_add (uninit : FaceIDs) (fuel : Nat) :
    ∀ (s : IStream) (o : AttributedObject R) (r : IStream × AttributedObject R) (d : Nat),
      readLoop uninit fuel s o = some r → readLoop uninit (fuel + d) s o = some r := by
  induction fuel with
  | zero => intro s o r d h; simp [readLoop] at h
  | succ fuel ih =>
    intro s o r d h
    rw [Nat.add_right_comm, readLoop]
    rw [readLoop] at h
    by_cases hb : (readPass uninit s o).1 = true
    · rw [if_pos hb] at h ⊢
      exact ih _ _ r d h
    · rw [if_neg hb] at h ⊢
      exact h

theorem readLoop_end (uninit : FaceIDs) (o : AttributedObject R) :
    readLoop uninit 1 (IStream.ofList []) o = some (⟨[], true, true⟩, o) := rfl

theorem Consumes.nil (uninit : FaceIDs) : Consumes (R := R) uninit [] id :=
  ⟨0, fun _ _ _ => rfl⟩

theorem Consumes.append (uninit : FaceIDs) (c1 c2 : List Char)
    (f1 f2 : AttributedObject R → AttributedObject R)
    (h1 : Consumes uninit c1 f1) (h2 : Consumes uninit c2 f2) :
    Consumes uninit (c1 ++ c2) (f2 ∘ f1) := by
  obtain ⟨k1, h1⟩ := h1
  obtain ⟨k2, h2⟩ := h2
  refine ⟨k2 + k1, fun fuel rest o => ?_⟩
  rw [← Nat.add_assoc, List.append_assoc, h1, h2]
  rfl

theorem readPass_newline (uninit : FaceIDs) (o : AttributedObject R) (rest : List Char) :
    readPass uninit (IStream.ofList ('\n' :: rest)) o = (true, IStream.ofList rest, o) :=
  readPass_other uninit o '\n' rest (by decide)

theorem Consumes.newline (uninit : FaceIDs) : Consumes (R := R) uninit ['\n'] id := by
  refine ⟨1, fun fuel rest o => ?_⟩
  rw [readLoop, List.singleton_append, readPass_newline]
  rfl

/-- The effect of one attribute line on the object: the entry is appended to the array
its tag names. -/
theorem readPass_attribute (uninit : FaceIDs) (o : AttributedObject R) (p : Nat)
    (v : Cartesian3) (rest : List Char) :
    readPass uninit (IStream.ofList ("v  ".toList ++ OStream.showCartesian3 p v ++ '\n' :: rest)) o =
      (true, IStream.ofList ('\n' :: rest),
        { o with vertices := o.vertices ++ [OStream.roundCartesian3 p v] }) ∧
    readPass uninit (IStream.ofList ("vc ".toList ++ OStream.showCartesian3 p v ++ '\n' :: rest)) o =
      (true, IStream.ofList ('\n' :: rest),
        { o with colours := o.colours ++ [OStream.roundCartesian3 p v] }) ∧
    readPass uninit (IStream.ofList ("vn ".toList ++ OStream.showCartesian3 p v ++ '\n' :: rest)) o =
      (true, IStream.ofList ('\n' :: rest),
        { o with normals := o.normals ++ [OStream.roundCartesian3 p v] }) ∧
    readPass uninit (IStream.ofList ("vt ".toList ++ OStream.showCartesian3 p v ++ '\n' :: rest)) o =
      (true, IStream.ofList ('\n' :: rest),
        { o with textureCoords := o.textureCoords ++ [OStream.roundCartesian3 p v] }) := by
  have e := IStream.extractCartesian3_show p v [' '] rest space_isspace
  simp only [List.singleton_append, List.cons_append, List.append_assoc, List.nil_append] at e
  have hs : "v  ".toList = ['v', ' ', ' '] := rfl
  have hc : "vc ".toList = ['v', 'c', ' '] := rfl
  have hn : "vn ".toList = ['v', 'n', ' '] := rfl
  have ht : "vt ".toList = ['v', 't', ' '] := rfl
  refine ⟨?_, ?_, ?_, ?_⟩
  · rw [hs]
    simp [readPass, readSwitch, readVertexData, IStream.get, IStream.good]
    simp only [IStream.ofList] at e ⊢
    simp [e]
  · rw [hc]
    simp [readPass, readSwitch, readVertexData, IStream.get, IStream.good]
    simp only [IStream.ofList] at e ⊢
    simp [e]
  · rw [hn]
    simp [readPass, readSwitch, readVertexData, IStream.get, IStream.good]
    simp only [IStream.ofList] at e ⊢
    simp [e]
  · rw [ht]
    simp [readPass, readSwitch, readVertexData, IStream.get, IStream.good]
    simp only [IStream.ofList] at e ⊢
    simp [e]

end AttributedObject

namespace IStream

theorem getlineLoop_line (body rest : List Char) (hb : ∀ c ∈ body, c ≠ '\n') :
    ∀ k, body.length ≤ k → getlineLoop k (body ++ '\n' :: rest) = '\n' :: rest := by
  induction body with
  | nil =>
    intro k _
    cases k <;> simp [getlineLoop]
  | cons c body ih =>
    intro k hk
    cases k with
    | zero => simp at hk
    | succ k =>
      have hc : c ≠ '\n' := hb c (by simp)
      simp only [List.cons_append, getlineLoop, hc, if_false]
      exact ih (fun x hx => hb x (by simp [hx])) k (by simpa using hk)

theorem getline_line (body rest : List Char) (hb : ∀ c ∈ body, c ≠ '\n')
    (hlen : body.length ≤ 1023) :
    (ofList (body ++ '\n' :: rest)).getline 1024 = ofList rest := by
  have h := getlineLoop_line body rest hb 1023 hlen
  simp [getline, ofList, good, h]

end IStream

namespace AttributedObject

variable {R : Type}

theorem Consumes.congr (uninit : FaceIDs) (c : List Char)
    (f g : AttributedObject R → AttributedObject R) (h : Consumes uninit c f)
    (hfg : ∀ o, f o = g o) : Consumes uninit c g := by
  obtain ⟨k, h⟩ := h
  exact ⟨k, fun fuel rest o => by rw [h, hfg]⟩

theorem readPass_comment (uninit : FaceIDs) (o : AttributedObject R) (body rest : List Char)
    (hb : ∀ c ∈ body, c ≠ '\n') (hlen : body.length ≤ 1023) :
    readPass uninit (IStream.ofList ('#' :: (body ++ '\n' :: rest))) o =
      (true, IStream.ofList rest, o) := by
  have h := IStream.getline_line body rest hb hlen
  simp only [IStream.ofList] at h
  simp [readPass, readSwitch, IStream.get, IStream.good, IStream.ofList, MAXIMUM_LINE_LENGTH, h]

theorem Consumes.comment (uninit : FaceIDs) (n : Nat) (label tail : List Char)
    (hn : n < 4294967296) (hl : ∀ c ∈ label, c ≠ '\n') (hlen : label.length ≤ 100)
    (htail : tail = label ++ ['\n']) :
    Consumes (R := R) uninit ("# ".toList ++ OStream.showNat n ++ tail) id := by
  subst htail
  refine ⟨1, fun fuel rest o => ?_⟩
  have hb : ∀ c ∈ ' ' :: (OStream.showNat n ++ label), c ≠ '\n' := by
    intro c hc
    rcases List.mem_cons.mp hc with rfl | hc
    · decide
    · rcases List.mem_append.mp hc with hc | hc
      · intro h
        have := OStream.showNat_isDigit n c hc
        rw [h] at this
        exact absurd this (by decide)
      · exact hl c hc
  have hlen2 : (' ' :: (OStream.showNat n ++ label)).length ≤ 1023 := by
    have := OStream.showNat_length_le n 10 (by decide) (by omega)
    simp only [List.length_cons, List.length_append]
    omega
  have := readPass_comment uninit o _ rest hb hlen2
  have hs : "# ".toList = ['#', ' '] := rfl
  rw [readLoop, hs]
  simp only [List.cons_append, List.append_assoc, List.nil_append, List.singleton_append] at this ⊢
  rw [this]
  rfl

theorem Consumes.attributes (uninit : FaceIDs) (p : Nat) (vs : List Cartesian3) :
    Consumes (R := R) uninit (writeAttributes p "v  ".toList vs)
      (fun o => { o with vertices := o.vertices ++ vs.map (OStream.roundCartesian3 p) }) ∧
    Consumes (R := R) uninit (writeAttributes p "vc ".toList vs)
      (fun o => { o with colours := o.colours ++ vs.map (OStream.roundCartesian3 p) }) ∧
    Consumes (R := R) uninit (writeAttributes p "vn ".toList vs)
      (fun o => { o with normals := o.normals ++ vs.map (OStream.roundCartesian3 p) }) ∧
    Consumes (R := R) uninit (writeAttributes p "vt ".toList vs)
      (fun o => { o with textureCoords := o.textureCoords ++ vs.map (OStream.roundCartesian3 p) }) := by
  induction vs with
  | nil =>
    refine ⟨?_, ?_, ?_, ?_⟩ <;>
      exact Consumes.congr uninit _ _ _ (Consumes.nil uninit) (fun o => by simp)
  | cons v vs ih =>
    obtain ⟨i1, i2, i3, i4⟩ := ih
    have line : ∀ (tag : List Char) (f : AttributedObject R → AttributedObject R),
        (∀ rest o, readPass uninit
          (IStream.ofList (tag ++ OStream.showCartesian3 p v ++ '\n' :: rest)) o =
          (true, IStream.ofList ('\n' :: rest), f o)) →
        Consumes uninit (tag ++ OStream.showCartesian3 p v ++ ['\n']) f := by
      intro tag f hf
      refine ⟨2, fun fuel rest o => ?_⟩
      rw [readLoop, List.append_assoc, List.singleton_append, hf]
      simp only [if_true]
      rw [readLoop, readPass_newline]
      rfl
    refine ⟨?_, ?_, ?_, ?_⟩
    · have l := line "v  ".toList _ (fun rest o => (readPass_attribute uninit o p v rest).1)
      have := Consumes.append uninit _ _ _ _ l i1
      exact Consumes.congr uninit _ _ _ this (fun o => by simp [writeAttributes])
    · have l := line "vc ".toList _ (fun rest o => (readPass_attribute uninit o p v rest).2.1)
      have := Consumes.append uninit _ _ _ _ l i2
      exact Consumes.congr uninit _ _ _ this (fun o => by simp [writeAttributes])
    · have l := line "vn ".toList _ (fun rest o => (readPass_attribute uninit o p v rest).2.2.1)
      have := Consumes.append uninit _ _ _ _ l i3
      exact Consumes.congr uninit _ _ _ this (fun o => by simp [writeAttributes])
    · have l := line "vt ".toList _ (fun rest o => (readPass_attribute uninit o p v rest).2.2.2)
      have := Consumes.append uninit _ _ _ _ l i4
      exact Consumes.congr uninit _ _ _ this (fun o => by simp [writeAttributes])

end AttributedObject

namespace AttributedObject

variable {R : Type}

theorem getElem?_getD (l : List Nat) (i : Nat) (h : i < l.length) :
    l[i]? = some (l.getD i 0) := by
  rw [List.getD_eq_getElem?_getD, List.getElem?_eq_getElem h]; rfl

theorem getD_lt (l : List Nat) (i : Nat) (h : i < l.length) (hb : ∀ x ∈ l, x < 4294967296) :
    l.getD i 0 < 4294967296 := by
  rw [List.getD_eq_getElem?_getD, List.getElem?_eq_getElem h]
  exact hb _ (List.getElem_mem h)

theorem drop_getD (l : List Nat) (i : Nat) (h : i < l.length) :
    l.drop i = l.getD i 0 :: l.drop (i + 1) := by
  rw [List.getD_eq_getElem?_getD, List.getElem?_eq_getElem h]
  exact List.drop_eq_getElem_cons h

theorem take_drop_three (l : List Nat) (face count : Nat) (h : face + 3 ≤ l.length) :
    (l.drop face).take (3 * (count + 1)) =
      [l.getD face 0, l.getD (face + 1) 0, l.getD (face + 2) 0] ++
        (l.drop (face + 3)).take (3 * count) := by
  rw [drop_getD l face (by omega), drop_getD l (face + 1) (by omega),
    drop_getD l (face + 2) (by omega)]
  have : 3 * (count + 1) = 3 * count + 1 + 1 + 1 := by ring
  rw [this]
  simp [List.take_succ_cons]

theorem subOne_addOne (x : Nat) (h : x < 4294967296) : subOne (addOne x) = x := by
  unfold subOne addOne; omega

theorem addOne_le (x : Nat) : addOne x ≤ 4294967295 := by
  unfold addOne; omega

/-- The corner group the serialiser writes for the corner `i`. -/
theorem writeCorner_eq (o : AttributedObject R) (i : Nat)
    (hv : i < o.faceVertices.length) (hc : i < o.faceColours.length)
    (hn : i < o.faceNormals.length) (ht : i < o.faceTexCoords.length) :
    writeCorner o i = some (' ' :: CornerGroup.text
      ⟨addOne (o.faceVertices.getD i 0), addOne (o.faceColours.getD i 0),
        addOne (o.faceTexCoords.getD i 0), addOne (o.faceNormals.getD i 0)⟩) := by
  unfold writeCorner
  rw [getElem?_getD _ i hv, getElem?_getD _ i hc, getElem?_getD _ i hn, getElem?_getD _ i ht]
  simp [CornerGroup.text]

theorem newline_not_digit (cs : List Char) : ∀ c ∈ ('\n' :: cs).head?, c.isDigit = false := by
  intro c hc
  simp only [List.head?_cons, Option.mem_def, Option.some.injEq] at hc
  subst hc; rfl

/-- The serialiser writes a face whose three corners are in range, and the read loop
reads the line back into the same twelve indices. -/
theorem writeFace_consumes (uninit : FaceIDs) (o : AttributedObject R) (face : Nat)
    (hrep : o.Representable)
    (hv : face + 3 ≤ o.faceVertices.length) (hc : face + 3 ≤ o.faceColours.length)
    (hn : face + 3 ≤ o.faceNormals.length) (ht : face + 3 ≤ o.faceTexCoords.length) :
    ∃ t, writeFace o face = some t ∧
      Consumes (R := R) uninit t (fun q => { q with
        faceVertices := q.faceVertices ++ [o.faceVertices.getD face 0,
          o.faceVertices.getD (face + 1) 0, o.faceVertices.getD (face + 2) 0]
        faceColours := q.faceColours ++ [o.faceColours.getD face 0,
          o.faceColours.getD (face + 1) 0, o.faceColours.getD (face + 2) 0]
        faceNormals := q.faceNormals ++ [o.faceNormals.getD face 0,
          o.faceNormals.getD (face + 1) 0, o.faceNormals.getD (face + 2) 0]
        faceTexCoords := q.faceTexCoords ++ [o.faceTexCoords.getD face 0,
          o.faceTexCoords.getD (face + 1) 0, o.faceTexCoords.getD (face + 2) 0] }) := by
  obtain ⟨rv, rc, rn, rt, _⟩ := hrep
  have w0 := writeCorner_eq o face (by omega) (by omega) (by omega) (by omega)
  have w1 := writeCorner_eq o (face + 1) (by omega) (by omega) (by omega) (by omega)
  have w2 := writeCorner_eq o (face + 2) (by omega) (by omega) (by omega) (by omega)
  refine ⟨_, by rw [writeFace, w0, w1, w2], 2, fun fuel rest q => ?_⟩
  have hf := readFace_text uninit q
    ⟨addOne (o.faceVertices.getD face 0), addOne (o.faceColours.getD face 0),
      addOne (o.faceTexCoords.getD face 0), addOne (o.faceNormals.getD face 0)⟩
    ⟨addOne (o.faceVertices.getD (face + 1) 0), addOne (o.faceColours.getD (face + 1) 0),
      addOne (o.faceTexCoords.getD (face + 1) 0), addOne (o.faceNormals.getD (face + 1) 0)⟩
    ⟨addOne (o.faceVertices.getD (face + 2) 0), addOne (o.faceColours.getD (face + 2) 0),
      addOne (o.faceTexCoords.getD (face + 2) 0), addOne (o.faceNormals.getD (face + 2) 0)⟩
    ('\n' :: rest)
    ⟨addOne_le _, addOne_le _, addOne_le _, addOne_le _⟩
    ⟨addOne_le _, addOne_le _, addOne_le _, addOne_le _⟩
    ⟨addOne_le _, addOne_le _, addOne_le _, addOne_le _⟩
    (newline_not_digit rest)
  simp only [subOne_addOne _ (getD_lt _ face (by omega) rv),
    subOne_addOne _ (getD_lt _ (face + 1) (by omega) rv),
    subOne_addOne _ (getD_lt _ (face + 2) (by omega) rv),
    subOne_addOne _ (getD_lt _ face (by omega) rc),
    subOne_addOne _ (getD_lt _ (face + 1) (by omega) rc),
    subOne_addOne _ (getD_lt _ (face + 2) (by omega) rc),
    subOne_addOne _ (getD_lt _ face (by omega) rn),
    subOne_addOne _ (getD_lt _ (face + 1) (by omega) rn),
    subOne_addOne _ (getD_lt _ (face + 2) (by omega) rn),
    subOne_addOne _ (getD_lt _ face (by omega) rt),
    subOne_addOne _ (getD_lt _ (face + 1) (by omega) rt),
    subOne_addOne _ (getD_lt _ (face + 2) (by omega) rt),
    List.isEmpty_cons] at hf
  rw [readLoop]
  simp only [List.cons_append, List.append_assoc, List.nil_append, List.singleton_append] at hf ⊢
  rw [readPass_face, hf]
  simp only [if_true]
  rw [readLoop]
  have := readPass_newline uninit (R := R)
  simp only [IStream.ofList] at this
  rw [this]
  rfl

end AttributedObject

namespace AttributedObject

variable {R : Type}

theorem writeFaces_consumes (uninit : FaceIDs) (o : AttributedObject R)
    (hrep : o.Representable) (count : Nat) :
    ∀ face, face + 3 * count ≤ o.faceVertices.length →
      face + 3 * count ≤ o.faceColours.length → face + 3 * count ≤ o.faceNormals.length →
      face + 3 * count ≤ o.faceTexCoords.length →
      ∃ t, writeFaces o count face = some t ∧
        Consumes (R := R) uninit t (fun q => { q with
          faceVertices := q.faceVertices ++ (o.faceVertices.drop face).take (3 * count)
          faceColours := q.faceColours ++ (o.faceColours.drop face).take (3 * count)
          faceNormals := q.faceNormals ++ (o.faceNormals.drop face).take (3 * count)
          faceTexCoords := q.faceTexCoords ++ (o.faceTexCoords.drop face).take (3 * count) }) := by
  induction count with
  | zero =>
    intro face _ _ _ _
    exact ⟨[], rfl, Consumes.congr uninit _ _ _ (Consumes.nil uninit) (fun q => by simp)⟩
  | succ count ih =>
    intro face hv hc hn ht
    obtain ⟨l, hl, cl⟩ := writeFace_consumes uninit o face hrep
      (by omega) (by omega) (by omega) (by omega)
    obtain ⟨ls, hls, cls⟩ := ih (face + 3) (by omega) (by omega) (by omega) (by omega)
    refine ⟨l ++ ls, by rw [writeFaces, hl, hls], ?_⟩
    refine Consumes.congr uninit _ _ _ (Consumes.append uninit _ _ _ _ cl cls) (fun q => ?_)
    simp only [Function.comp]
    rw [take_drop_three o.faceVertices face count (by omega),
      take_drop_three o.faceColours face count (by omega),
      take_drop_three o.faceNormals face count (by omega),
      take_drop_three o.faceTexCoords face count (by omega)]
    simp only [List.append_assoc]

/-- The read loop reads the text written for `o` into a fresh object in a bounded
number of passes and ends with the arrays of `reloaded`. -/
theorem load_written (uninit : FaceIDs) (p : Nat) (o : AttributedObject R) (size : R)
    (hinv : o.FaceInv) (hrep : o.Representable) :
    ∃ t, WriteObjectStream p o = some t ∧
      ∃ k, ∀ fuel, k ≤ fuel →
        readLoop uninit fuel (IStream.ofList t) (new size) =
          some (⟨[], true, true⟩, reloaded p o size) := by
  obtain ⟨e1, e2, e3, ⟨m, hm⟩⟩ := hinv
  have hrep' := hrep
  obtain ⟨_, _, _, _, sv, sc, sn, st, sf⟩ := hrep'
  have hcount : (o.faceVertices.length + 2) / 3 = m := by omega
  obtain ⟨tf, htf, cf⟩ := writeFaces_consumes uninit o hrep m 0
    (by omega) (by omega) (by omega) (by omega)
  have a := Consumes.attributes (R := R) uninit p
  have c1 := Consumes.comment (R := R) uninit (o.faceVertices.length / 3) " triangles".toList
    " triangles\n".toList (by omega) (by decide) (by decide) rfl
  have c2 := Consumes.comment (R := R) uninit o.vertices.length " vertices".toList
    " vertices\n".toList sv (by decide) (by decide) rfl
  have c3 := Consumes.comment (R := R) uninit o.colours.length " vertex colours".toList
    " vertex colours\n".toList sc (by decide) (by decide) rfl
  have c4 := Consumes.comment (R := R) uninit o.normals.length " vertex normals".toList
    " vertex normals\n".toList sn (by decide) (by decide) rfl
  have c5 := Consumes.comment (R := R) uninit o.textureCoords.length " vertex tex coords".toList
    " vertex tex coords\n".toList st (by decide) (by decide) rfl
  have all := Consumes.append uninit _ _ _ _
    (Consumes.append uninit _ _ _ _
      (Consumes.append uninit _ _ _ _
        (Consumes.append uninit _ _ _ _
          (Consumes.append uninit _ _ _ _
            (Consumes.append uninit _ _ _ _
              (Consumes.append uninit _ _ _ _
                (Consumes.append uninit _ _ _ _
                  (Consumes.append uninit _ _ _ _
                    (Consumes.append uninit _ _ _ _ c1 (Consumes.newline uninit))
                    c2) (a o.vertices).1)
                c3) (a o.colours).2.1)
            c4) (a o.normals).2.2.1)
        c5) (a o.textureCoords).2.2.2)
    cf
  obtain ⟨k, hk⟩ := all
  refine ⟨_, by rw [WriteObjectStream, hcount, htf], k + 1, fun fuel hfuel => ?_⟩
  obtain ⟨d, rfl⟩ : ∃ d, fuel = (d + 1) + k := ⟨fuel - k - 1, by omega⟩
  have := hk (d + 1) [] (new size)
  have hnl : "\n".toList = ['\n'] := rfl
  simp only [List.append_nil, List.append_assoc] at this
  simp only [hnl, List.append_assoc]
  rw [this, Nat.add_comm d 1]
  rw [readLoop_add uninit 1 _ _ _ d (readLoop_end uninit _)]
  have hmul : 3 * m = o.faceVertices.length := by omega
  simp only [Function.comp, id, List.drop_zero, reloaded, new, List.nil_append]
  rw [List.take_of_length_le (by omega), List.take_of_length_le (by omega),
    List.take_of_length_le (by omega), List.take_of_length_le (by omega)]

end AttributedObject

namespace OStream

theorem fixedUnits_roundFixed (p : Nat) (x : ℚ) :
    fixedUnits p (roundFixed p x) = fixedUnits p x := by
  have h10 : (0 : ℚ) < (10 : ℚ) ^ p := by positivity
  have hnn : (0 : ℚ) ≤ (fixedUnits p x : ℚ) / (10 : ℚ) ^ p := by positivity
  have habs : |roundFixed p x| = (fixedUnits p x : ℚ) / (10 : ℚ) ^ p := by
    unfold roundFixed
    simp only []
    split_ifs
    · rw [abs_neg, abs_of_nonneg hnn]
    · rw [abs_of_nonneg hnn]
  conv_lhs => rw [fixedUnits, habs, div_mul_cancel₀ _ (ne_of_gt h10)]
  simp

theorem roundFixed_neg_iff (p : Nat) (x : ℚ) :
    (roundFixed p x < 0 ∧ fixedUnits p x ≠ 0) ↔ (x < 0 ∧ fixedUnits p x ≠ 0) := by
  have h10 : (0 : ℚ) < (10 : ℚ) ^ p := by positivity
  have hnn : (0 : ℚ) ≤ (fixedUnits p x : ℚ) / (10 : ℚ) ^ p := by positivity
  by_cases h : x < 0 ∧ fixedUnits p x ≠ 0
  · have hpos : (0 : ℚ) < (fixedUnits p x : ℚ) / (10 : ℚ) ^ p := by
      have : (0 : ℚ) < (fixedUnits p x : ℚ) := by exact_mod_cast Nat.pos_of_ne_zero h.2
      positivity
    have : roundFixed p x < 0 := by
      unfold roundFixed
      simp only [h, ne_eq, not_false_eq_true, and_self, if_true]
      linarith
    exact ⟨fun _ => h, fun _ => ⟨this, h.2⟩⟩
  · constructor
    · intro h'
      exfalso
      have : roundFixed p x = (fixedUnits p x : ℚ) / (10 : ℚ) ^ p := by
        unfold roundFixed
        simp only [h, if_false]
      rw [this] at h'
      linarith [h'.1]
    · intro h'; exact absurd h' h

theorem showFixed_roundFixed (p : Nat) (x : ℚ) :
    showFixed p (roundFixed p x) = showFixed p x := by
  unfold showFixed
  simp only [fixedUnits_roundFixed]
  have := roundFixed_neg_iff p x
  by_cases h : x < 0 ∧ fixedUnits p x ≠ 0
  · rw [if_pos h, if_pos (this.mpr h)]
  · rw [if_neg h, if_neg (fun h' => h (this.mp h'))]

theorem showCartesian3_round (p : Nat) (v : Cartesian3) :
    showCartesian3 p (roundCartesian3 p v) = showCartesian3 p v := by
  simp only [showCartesian3, roundCartesian3, showFixed_roundFixed]

end OStream

namespace AttributedObject

variable {R : Type}

theorem writeAttributes_round (p : Nat) (tag : List Char) (vs : List Cartesian3) :
    writeAttributes p tag (vs.map (OStream.roundCartesian3 p)) = writeAttributes p tag vs := by
  simp only [writeAttributes, List.map_map]
  congr 1
  apply List.map_congr_left
  intro v _
  simp only [Function.comp, OStream.showCartesian3_round]

theorem writeFaces_congr (o q : AttributedObject R)
    (hv : q.faceVertices = o.faceVertices) (hc : q.faceColours = o.faceColours)
    (hn : q.faceNormals = o.faceNormals) (ht : q.faceTexCoords = o.faceTexCoords)
    (count : Nat) : ∀ face, writeFaces q count face = writeFaces o count face := by
  have hcorner : ∀ i, writeCorner q i = writeCorner o i := by
    intro i; simp only [writeCorner, hv, hc, hn, ht]
  induction count with
  | zero => intro face; rfl
  | succ count ih =>
    intro face
    simp only [writeFaces, writeFace, hcorner, ih]

/-- The text the serialiser writes depends on the eight arrays only, and rounding the
attribute arrays to the precision does not change it. -/
theorem WriteObjectStream_reloaded [LinearOrder R] [Zero R] (length : Cartesian3 → R)
    (p : Nat) (o : AttributedObject R) (size : R) :
    WriteObjectStream p (computeCentre length (reloaded p o size)) = WriteObjectStream p o := by
  have hq : ∀ q : AttributedObject R,
      (computeCentre length q).vertices = q.vertices ∧
      (computeCentre length q).colours = q.colours ∧
      (computeCentre length q).normals = q.normals ∧
      (computeCentre length q).textureCoords = q.textureCoords ∧
      (computeCentre length q).faceVertices = q.faceVertices ∧
      (computeCentre length q).faceColours = q.faceColours ∧
      (computeCentre length q).faceNormals = q.faceNormals ∧
      (computeCentre length q).faceTexCoords = q.faceTexCoords := by
    intro q
    unfold computeCentre
    split_ifs <;> simp
  obtain ⟨a1, a2, a3, a4, a5, a6, a7, a8⟩ := hq (reloaded p o size)
  unfold WriteObjectStream
  rw [writeFaces_congr o (computeCentre length (reloaded p o size)) a5 a6 a7 a8]
  rw [a1, a2, a3, a4, a5]
  simp only [reloaded, writeAttributes_round, List.length_map]

/-- C3. For every mesh whose four face arrays have the same length, a multiple of 3,
and hold `unsigned int` values (array sizes in the range of the loop counters),
`WriteObjectStream` writes a text, and `ReadObjectStream` on that text, with enough
fuel and into a fresh object, returns with four face arrays equal to the original ones
and with attribute arrays of the original lengths. The index 4294967295 is written as
0 by the `+ 1` that wraps and read back by the `- 1` that wraps. -/
theorem C3_face_arrays_round_trip [LinearOrder R] [Zero R] (length : Cartesian3 → R)
    (uninit : FaceIDs) (p : Nat) (o : AttributedObject R) (size : R)
    (hinv : o.FaceInv) (hrep : o.Representable) :
    (∃ t, WriteObjectStream p o = some t ∧
      ∃ k, ∀ fuel, k ≤ fuel → ∃ s1 o1,
        ReadObjectStream length uninit fuel (IStream.ofList t) (new size) = some (true, s1, o1) ∧
        o1.faceVertices = o.faceVertices ∧ o1.faceColours = o.faceColours ∧
        o1.faceNormals = o.faceNormals ∧ o1.faceTexCoords = o.faceTexCoords ∧
        o1.vertices.length = o.vertices.length ∧ o1.colours.length = o.colours.length ∧
        o1.normals.length = o.normals.length ∧
        o1.textureCoords.length = o.textureCoords.length) ∧
    addOne 4294967295 = 0 ∧ subOne 0 = 4294967295 := by
  refine ⟨?_, rfl, rfl⟩
  obtain ⟨t, ht, k, hk⟩ := load_written uninit p o size hinv hrep
  refine ⟨t, ht, k, fun fuel hfuel =>
    ⟨⟨[], true, true⟩, computeCentre length (reloaded p o size), ?_, ?_⟩⟩
  · rw [ReadObjectStream, hk fuel hfuel]
  · unfold computeCentre
    split_ifs <;> simp [reloaded]

/-- C2. For every mesh whose four face arrays have the same length, a multiple of 3,
and hold `unsigned int` values (array sizes in the range of the loop counters), with
empty attribute arrays or not, `WriteObjectStream` writes a text `t`,
`ReadObjectStream` on `t`, with enough fuel and into a fresh object, returns, and
`WriteObjectStream` on the object it leaves writes `t` again. -/
theorem C2_text_round_trip [LinearOrder R] [Zero R] (length : Cartesian3 → R)
    (uninit : FaceIDs) (p : Nat) (o : AttributedObject R) (size : R)
    (hinv : o.FaceInv) (hrep : o.Representable) :
    ∃ t, WriteObjectStream p o = some t ∧
      ∃ k, ∀ fuel, k ≤ fuel → ∃ s1 o1,
        ReadObjectStream length uninit fuel (IStream.ofList t) (new size) = some (true, s1, o1) ∧
        WriteObjectStream p o1 = some t := by
  obtain ⟨t, ht, k, hk⟩ := load_written uninit p o size hinv hrep
  refine ⟨t, ht, k, fun fuel hfuel =>
    ⟨⟨[], true, true⟩, computeCentre length (reloaded p o size), ?_, ?_⟩⟩
  · rw [ReadObjectStream, hk fuel hfuel]
  · rw [WriteObjectStream_reloaded, ht]

end AttributedObject

namespace AttributedObject


theorem C3_witness :
    (∃ t, WriteObjectStream 6 sampleMesh = some t ∧
      ∃ k, ∀ fuel, k ≤ fuel → ∃ s1 o1,
        ReadObjectStream (fun v => v.normSq) ⟨0, 0, 0, 0⟩ fuel (IStream.ofList t) (new 5) =
          some (true, s1, o1) ∧
        o1.faceVertices = sampleMesh.faceVertices ∧ o1.faceColours = sampleMesh.faceColours ∧
        o1.faceNormals = sampleMesh.faceNormals ∧ o1.faceTexCoords = sampleMesh.faceTexCoords ∧
        o1.vertices.length = sampleMesh.vertices.length ∧
        o1.colours.length = sampleMesh.colours.length ∧
        o1.normals.length = sampleMesh.normals.length ∧
        o1.textureCoords.length = sampleMesh.textureCoords.length) ∧
    addOne 4294967295 = 0 ∧ subOne 0 = 4294967295 :=
  C3_face_arrays_round_trip (fun v => v.normSq) ⟨0, 0, 0, 0⟩ 6 sampleMesh 5
    (by decide) (by decide)

theorem C2_witness :
    ∃ t, WriteObjectStream 6 sampleMesh = some t ∧
      ∃ k, ∀ fuel, k ≤ fuel → ∃ s1 o1,
        ReadObjectStream (fun v => v.normSq) ⟨0, 0, 0, 0⟩ fuel (IStream.ofList t) (new 5) =
          some (true, s1, o1) ∧
        WriteObjectStream 6 o1 = some t :=
  C2_text_round_trip (fun v => v.normSq) ⟨0, 0, 0, 0⟩ 6 sampleMesh 5 (by decide) (by decide)

end AttributedObject

theorem foldOpt_inv {α β : Type} (step : α → β → Option α) (P : α → Prop) (S : β → Prop)
    (hstep : ∀ a b, S b → P a → ∃ a1, step a b = some a1 ∧ P a1) (l : List β) :
    (∀ b ∈ l, S b) → ∀ a, P a → ∃ a1, foldOpt step a l = some a1 ∧ P a1 := by
  induction l with
  | nil => intro _ a ha; exact ⟨a, rfl, ha⟩
  | cons b bs ih =>
    intro hall a ha
    obtain ⟨a1, h1, hp1⟩ := hstep a b (hall b (by simp)) ha
    obtain ⟨a2, h2, hp2⟩ := ih (fun x hx => hall x (by simp [hx])) a1 hp1
    exact ⟨a2, by rw [foldOpt, h1]; exact h2, hp2⟩

theorem foldOpt_establish {α β : Type} (step : α → β → Option α) (P Q : α → Prop)
    (S : β → Prop) (x : β)
    (hstep : ∀ a b, S b → P a →
      ∃ a1, step a b = some a1 ∧ P a1 ∧ (Q a → Q a1) ∧ (b = x → Q a1))
    (l : List β) (hall : ∀ b ∈ l, S b) (hx : x ∈ l) :
    ∀ a, P a → ∃ a1, foldOpt step a l = some a1 ∧ P a1 ∧ Q a1 := by
  have hpq : ∀ a b, S b → (P a ∧ Q a) → ∃ a1, step a b = some a1 ∧ (P a1 ∧ Q a1) := by
    intro a b hb hpq
    obtain ⟨a1, h1, hp, hq, _⟩ := hstep a b hb hpq.1
    exact ⟨a1, h1, hp, hq hpq.2⟩
  induction l with
  | nil => simp at hx
  | cons b bs ih =>
    intro a ha
    obtain ⟨a1, h1, hp1, hq1, hx1⟩ := hstep a b (hall b (by simp)) ha
    rcases List.mem_cons.mp hx with hxb | hxb
    · obtain ⟨a2, h2, hp2⟩ := foldOpt_inv step (fun a => P a ∧ Q a) S hpq bs
        (fun y hy => hall y (by simp [hy])) a1 ⟨hp1, hx1 hxb.symm⟩
      exact ⟨a2, by rw [foldOpt, h1]; exact h2, hp2.1, hp2.2⟩
    · obtain ⟨a2, h2, hp2, hq2⟩ := ih (fun y hy => hall y (by simp [hy])) hxb a1 hp1
      exact ⟨a2, by rw [foldOpt, h1]; exact h2, hp2, hq2⟩

theorem foldOpt_append {α β : Type} (step : α → β → Option α) (l1 l2 : List β) :
    ∀ a, foldOpt step a (l1 ++ l2) =
      match foldOpt step a l1 with
      | none => none
      | some a1 => foldOpt step a1 l2 := by
  induction l1 with
  | nil => intro a; rfl
  | cons b bs ih =>
    intro a
    simp only [List.cons_append, foldOpt]
    cases step a b with
    | none => rfl
    | some a1 => exact ih a1

theorem mem_intRange (lo hi k : ℤ) : k ∈ intRange lo hi ↔ lo ≤ k ∧ k ≤ hi := by
  unfold intRange
  rw [List.mem_map]
  constructor
  · rintro ⟨n, hn, rfl⟩
    rw [List.mem_range] at hn
    omega
  · rintro ⟨h1, h2⟩
    refine ⟨(k - lo).toNat, ?_, ?_⟩
    · rw [List.mem_range]; omega
    · omega

theorem truncInt_intCast (z : ℤ) : truncInt (z : ℚ) = z := by
  unfold truncInt
  split_ifs <;> simp

theorem truncVec_truncVec (c : Cartesian3) : truncVec (truncVec c) = truncVec c := by
  simp [truncVec, truncInt_intCast]

/-- Truncation keeps a value between two integer bounds. -/
theorem truncInt_between (q : ℚ) (lo hi : ℤ) (h1 : (lo : ℚ) ≤ q) (h2 : q ≤ (hi : ℚ)) :
    lo ≤ truncInt q ∧ truncInt q ≤ hi := by
  unfold truncInt
  split_ifs with h
  · exact ⟨Int.le_floor.mpr h1, by exact_mod_cast (Int.floor_le q).trans h2⟩
  · exact ⟨by exact_mod_cast h1.trans (Int.le_ceil q), Int.ceil_le.mpr h2⟩

namespace UVMap

theorem write_eq (m : UVMap) (v u : ℤ) (c : Cartesian3) (h : m.inside v u) :
    m.write v u c = some (m.assign v u c) := by
  simp [write, h]

theorem assign_px (m : UVMap) (v u : ℤ) (c : Cartesian3) (y x : ℤ) :
    (m.assign v u c).px y x = if y = v ∧ x = u then c else m.px y x := rfl

theorem assign_rows (m : UVMap) (v u : ℤ) (c : Cartesian3) : (m.assign v u c).rows = m.rows :=
  rfl

theorem assign_cols (m : UVMap) (v u : ℤ) (c : Cartesian3) : (m.assign v u c).cols = m.cols :=
  rfl

theorem read_eq (m : UVMap) (v u : ℤ) (h : m.inside v u) : m.read v u = some (m.px v u) := by
  simp [read, h]

theorem initialise_spec (m : UVMap) :
    m.initialise.rows = m.rows + 1025 ∧
    (∀ v : ℤ, m.initialise.cols v =
      if (m.rows : ℤ) ≤ v ∧ v < (m.rows : ℤ) + 1025 then 1025 else m.cols v) ∧
    (∀ v u : ℤ, m.initialise.px v u =
      if (m.rows : ℤ) ≤ v ∧ v < (m.rows : ℤ) + 1025 then ⟨0, 0, 0⟩ else m.px v u) := by
  have key : ∀ n : Nat, ∃ r : UVMap,
      (List.range n).foldl (fun m _ => m.pushRow 1025 (fun _ => ⟨0, 0, 0⟩)) m = r ∧
      r.rows = m.rows + n ∧
      (∀ v : ℤ, r.cols v =
        if (m.rows : ℤ) ≤ v ∧ v < (m.rows : ℤ) + n then 1025 else m.cols v) ∧
      (∀ v u : ℤ, r.px v u =
        if (m.rows : ℤ) ≤ v ∧ v < (m.rows : ℤ) + n then ⟨0, 0, 0⟩ else m.px v u) := by
    intro n
    induction n with
    | zero =>
      refine ⟨m, rfl, rfl, fun v => ?_, fun v u => ?_⟩ <;>
        rw [if_neg (by simp only [Nat.cast_zero, add_zero]; omega)]
    | succ n ih =>
      obtain ⟨r, hr, h1, h2, h3⟩ := ih
      refine ⟨r.pushRow 1025 (fun _ => ⟨0, 0, 0⟩), ?_, ?_, fun v => ?_, fun v u => ?_⟩
      · rw [List.range_succ, List.foldl_append, hr]; rfl
      · show r.rows + 1 = _
        omega
      · show (if v = (r.rows : ℤ) then 1025 else r.cols v) = _
        rw [h2, h1]
        push_cast
        split_ifs <;> first | rfl | omega
      · show (if v = (r.rows : ℤ) then (⟨0, 0, 0⟩ : Cartesian3) else r.px v u) = _
        rw [h3, h1]
        push_cast
        split_ifs <;> first | rfl | omega
  obtain ⟨r, hr, h1, h2, h3⟩ := key 1025
  unfold initialise
  rw [hr]
  exact ⟨h1, by exact_mod_cast h2, by exact_mod_cast h3⟩

end UVMap

namespace AttributedObject

theorem skipped_iff (x0 y0 x1 y1 x2 y2 : ℚ) :
    (edgeSetup x0 y0 x1 y1 x2 y2).skipped = true ↔ area2 x0 y0 x1 y1 x2 y2 = 0 := by
  obtain ⟨d0, d1, d2⟩ := edgeSetup_distances x0 y0 x1 y1 x2 y2
  simp only [EdgeSetup.skipped, d0, d1, d2, area2, Bool.or_eq_true, beq_iff_eq, or_self]

theorem not_skipped_area (x0 y0 x1 y1 x2 y2 : ℚ)
    (h : (edgeSetup x0 y0 x1 y1 x2 y2).skipped = false) : area2 x0 y0 x1 y1 x2 y2 ≠ 0 := by
  intro hz
  rw [(skipped_iff x0 y0 x1 y1 x2 y2).mpr hz] at h
  exact absurd h (by decide)

/-- The weights written with twice the signed area as their common denominator. -/
theorem weights_eq (x0 y0 x1 y1 x2 y2 : ℚ) (u v : ℤ) :
    (edgeSetup x0 y0 x1 y1 x2 y2).alpha u v =
      area2 u v x1 y1 x2 y2 / area2 x0 y0 x1 y1 x2 y2 ∧
    (edgeSetup x0 y0 x1 y1 x2 y2).beta u v =
      area2 x0 y0 u v x2 y2 / area2 x0 y0 x1 y1 x2 y2 ∧
    (edgeSetup x0 y0 x1 y1 x2 y2).gamma u v =
      area2 x0 y0 x1 y1 u v / area2 x0 y0 x1 y1 x2 y2 := by
  obtain ⟨d0, d1, d2⟩ := edgeSetup_distances x0 y0 x1 y1 x2 y2
  simp only [EdgeSetup.alpha, EdgeSetup.beta, EdgeSetup.gamma, d0, d1, d2, area2]
  simp only [edgeSetup, Cartesian3.sub, Cartesian3.dot]
  refine ⟨?_, ?_, ?_⟩ <;> (congr 1; ring)

/-- At a corner of a triangle that is not skipped the weight of that corner is 1 and
the other two are 0. -/
theorem weights_at_corners (x0 y0 x1 y1 x2 y2 : ℤ)
    (h : (edgeSetup x0 y0 x1 y1 x2 y2).skipped = false) :
    ((edgeSetup x0 y0 x1 y1 x2 y2).alpha x0 y0 = 1 ∧
      (edgeSetup x0 y0 x1 y1 x2 y2).beta x0 y0 = 0 ∧
      (edgeSetup x0 y0 x1 y1 x2 y2).gamma x0 y0 = 0) ∧
    ((edgeSetup x0 y0 x1 y1 x2 y2).alpha x1 y1 = 0 ∧
      (edgeSetup x0 y0 x1 y1 x2 y2).beta x1 y1 = 1 ∧
      (edgeSetup x0 y0 x1 y1 x2 y2).gamma x1 y1 = 0) ∧
    ((edgeSetup x0 y0 x1 y1 x2 y2).alpha x2 y2 = 0 ∧
      (edgeSetup x0 y0 x1 y1 x2 y2).beta x2 y2 = 0 ∧
      (edgeSetup x0 y0 x1 y1 x2 y2).gamma x2 y2 = 1) := by
  have hne := not_skipped_area _ _ _ _ _ _ h
  have w := fun u v => weights_eq x0 y0 x1 y1 x2 y2 u v
  have hne' : (x1 - x0 : ℚ) * (y2 - y0) - (x2 - x0) * (y1 - y0) ≠ 0 := hne
  refine ⟨⟨?_, ?_, ?_⟩, ⟨?_, ?_, ?_⟩, ⟨?_, ?_, ?_⟩⟩
  · rw [(w x0 y0).1]; exact div_self hne
  · rw [(w x0 y0).2.1]; simp only [area2]; rw [div_eq_zero_iff]; left; ring
  · rw [(w x0 y0).2.2]; simp only [area2]; rw [div_eq_zero_iff]; left; ring
  · rw [(w x1 y1).1]; simp only [area2]; rw [div_eq_zero_iff]; left; ring
  · rw [(w x1 y1).2.1]; simp only [area2]; rw [div_eq_iff hne']; ring
  · rw [(w x1 y1).2.2]; simp only [area2]; rw [div_eq_zero_iff]; left; ring
  · rw [(w x2 y2).1]; simp only [area2]; rw [div_eq_zero_iff]; left; ring
  · rw [(w x2 y2).2.1]; simp only [area2]; rw [div_eq_zero_iff]; left; ring
  · rw [(w x2 y2).2.2]; simp only [area2]; rw [div_eq_iff hne']; ring

theorem blend_unit (a0 a1 a2 : Cartesian3) :
    blend a0 a1 a2 1 0 0 = a0 ∧ blend a0 a1 a2 0 1 0 = a1 ∧ blend a0 a1 a2 0 0 1 = a2 := by
  refine ⟨?_, ?_, ?_⟩ <;> simp [blend, Cartesian3.mulScalar, Cartesian3.add]

end AttributedObject

namespace AttributedObject

theorem ScanInv.refl (m : UVMap) (e : EdgeSetup) (x0 y0 x1 y1 x2 y2 : ℤ) :
    ScanInv m e x0 y0 x1 y1 x2 y2 m :=
  ⟨rfl, rfl, Or.inl rfl, Or.inl rfl, Or.inl rfl, fun _ _ _ => rfl⟩

theorem truncVec_or (a k : Cartesian3) (h : a = k ∨ a = truncVec k) :
    truncVec a = truncVec k := by
  rcases h with rfl | rfl
  · rfl
  · exact truncVec_truncVec k

theorem shade_pass (m1 : UVMap) (e : EdgeSetup) (x0 y0 x1 y1 x2 y2 u v : ℤ)
    (hp : e.passes u v = true) (i0 : m1.inside y0 x0) (i1 : m1.inside y1 x1)
    (i2 : m1.inside y2 x2) (iu : m1.inside v u) :
    shadeValue m1 e x0 y0 x1 y1 x2 y2 u v =
      some (some (truncVec (blend (m1.px y0 x0) (m1.px y1 x1) (m1.px y2 x2)
        (e.alpha u v) (e.beta u v) (e.gamma u v)))) ∧
    shade m1 e x0 y0 x1 y1 x2 y2 u v =
      some (m1.assign v u (truncVec (blend (m1.px y0 x0) (m1.px y1 x1) (m1.px y2 x2)
        (e.alpha u v) (e.beta u v) (e.gamma u v)))) := by
  have hv : shadeValue m1 e x0 y0 x1 y1 x2 y2 u v =
      some (some (truncVec (blend (m1.px y0 x0) (m1.px y1 x1) (m1.px y2 x2)
        (e.alpha u v) (e.beta u v) (e.gamma u v)))) := by
    unfold shadeValue
    rw [if_pos hp, UVMap.read_eq _ _ _ i0, UVMap.read_eq _ _ _ i1, UVMap.read_eq _ _ _ i2]
  refine ⟨hv, ?_⟩
  unfold shade
  rw [hv]
  exact UVMap.write_eq m1 v u _ iu

theorem shade_reject (m1 : UVMap) (e : EdgeSetup) (x0 y0 x1 y1 x2 y2 u v : ℤ)
    (hp : ¬ e.passes u v = true) :
    shadeValue m1 e x0 y0 x1 y1 x2 y2 u v = some none ∧
    shade m1 e x0 y0 x1 y1 x2 y2 u v = some m1 := by
  have hv : shadeValue m1 e x0 y0 x1 y1 x2 y2 u v = some none := by
    unfold shadeValue
    rw [if_neg hp]
  refine ⟨hv, ?_⟩
  unfold shade
  rw [hv]

/-- One pass of the inner loop body on a pixel inside the raster and the bounding box,
for a set-up whose weights at the three corners are the unit weights. -/
theorem shade_step (m : UVMap) (e : EdgeSetup) (x0 y0 x1 y1 x2 y2 : ℤ)
    (hin0 : m.inside y0 x0) (hin1 : m.inside y1 x1) (hin2 : m.inside y2 x2)
    (w0 : e.alpha x0 y0 = 1 ∧ e.beta x0 y0 = 0 ∧ e.gamma x0 y0 = 0)
    (w1 : e.alpha x1 y1 = 0 ∧ e.beta x1 y1 = 1 ∧ e.gamma x1 y1 = 0)
    (w2 : e.alpha x2 y2 = 0 ∧ e.beta x2 y2 = 0 ∧ e.gamma x2 y2 = 1)
    (m1 : UVMap) (hinv : ScanInv m e x0 y0 x1 y1 x2 y2 m1) (u v : ℤ)
    (hv0 : 0 ≤ v) (hv1 : v < m.rows) (hu0 : 0 ≤ u) (hu1 : u < m.cols v)
    (hbv : max (min y0 (min y1 y2)) 0 ≤ v ∧ v ≤ min (max y0 (max y1 y2)) ((m.rows : ℤ) - 1))
    (hbu : max (min x0 (min x1 x2)) 0 ≤ u ∧ u ≤ min (max x0 (max x1 x2)) ((m.cols 0 : ℤ) - 1))
    (tu tv : ℤ) :
    ∃ m2, shade m1 e x0 y0 x1 y1 x2 y2 u v = some m2 ∧
      ScanInv m e x0 y0 x1 y1 x2 y2 m2 ∧
      (BlendOf (m.px y0 x0) (m.px y1 x1) (m.px y2 x2) e tu tv (m1.px tv tu) →
        BlendOf (m.px y0 x0) (m.px y1 x1) (m.px y2 x2) e tu tv (m2.px tv tu)) ∧
      (u = tu → v = tv → e.passes tu tv = true →
        BlendOf (m.px y0 x0) (m.px y1 x1) (m.px y2 x2) e tu tv (m2.px tv tu)) := by
  obtain ⟨hr, hc, c0, c1, c2, hfr⟩ := hinv
  by_cases hp : e.passes u v = true
  · -- the pixel is assigned
    have i0 : m1.inside y0 x0 := by unfold UVMap.inside at hin0 ⊢; rw [hr, hc]; exact hin0
    have i1 : m1.inside y1 x1 := by unfold UVMap.inside at hin1 ⊢; rw [hr, hc]; exact hin1
    have i2 : m1.inside y2 x2 := by unfold UVMap.inside at hin2 ⊢; rw [hr, hc]; exact hin2
    have iu : m1.inside v u := by unfold UVMap.inside; rw [hr, hc]; exact ⟨hv0, hv1, hu0, hu1⟩
    have hcov : Covered m e x0 y0 x1 y1 x2 y2 u v := ⟨hbv.1, hbv.2, hbu.1, hbu.2, hu1, hp⟩
    have hsh := (shade_pass m1 e x0 y0 x1 y1 x2 y2 u v hp i0 i1 i2 iu).2
    obtain ⟨val, hvd⟩ : ∃ val, val = truncVec (blend (m1.px y0 x0) (m1.px y1 x1) (m1.px y2 x2)
        (e.alpha u v) (e.beta u v) (e.gamma u v)) := ⟨_, rfl⟩
    rw [← hvd] at hsh
    have hval : BlendOf (m.px y0 x0) (m.px y1 x1) (m.px y2 x2) e u v val :=
      ⟨_, _, _, c0, c1, c2, hvd⟩
    have hcorner : ∀ (y x : ℤ) (k a : Cartesian3), (m1.px y x = k ∨ m1.px y x = truncVec k) →
        (y = v → x = u → val = truncVec a) → (a = m1.px y x) →
        ((if y = v ∧ x = u then val else m1.px y x) = k ∨
          (if y = v ∧ x = u then val else m1.px y x) = truncVec k) := by
      intro y x k a hk hv ha
      by_cases hq : y = v ∧ x = u
      · rw [if_pos hq, hv hq.1 hq.2, ha]
        exact Or.inr (truncVec_or _ _ hk)
      · rw [if_neg hq]; exact hk
    refine ⟨_, hsh, ⟨hr, hc, ?_, ?_, ?_, ?_⟩, ?_, ?_⟩
    · rw [UVMap.assign_px]
      refine hcorner y0 x0 _ (m1.px y0 x0) c0 (fun h1 h2 => ?_) rfl
      rw [hvd, ← h1, ← h2, w0.1, w0.2.1, w0.2.2, (blend_unit _ _ _).1]
    · rw [UVMap.assign_px]
      refine hcorner y1 x1 _ (m1.px y1 x1) c1 (fun h1 h2 => ?_) rfl
      rw [hvd, ← h1, ← h2, w1.1, w1.2.1, w1.2.2, (blend_unit _ _ _).2.1]
    · rw [UVMap.assign_px]
      refine hcorner y2 x2 _ (m1.px y2 x2) c2 (fun h1 h2 => ?_) rfl
      rw [hvd, ← h1, ← h2, w2.1, w2.2.1, w2.2.2, (blend_unit _ _ _).2.2]
    · intro v1 u1 hn
      have hq : ¬ (v1 = v ∧ u1 = u) := by
        rintro ⟨h1, h2⟩; rw [h1, h2] at hn; exact hn hcov
      rw [UVMap.assign_px, if_neg hq]
      exact hfr v1 u1 hn
    · intro hq
      rw [UVMap.assign_px]
      by_cases ht : tv = v ∧ tu = u
      · rw [if_pos ht, ht.1, ht.2]; exact hval
      · rw [if_neg ht]; exact hq
    · intro hu hv _
      rw [UVMap.assign_px, if_pos ⟨hv.symm, hu.symm⟩, ← hu, ← hv]
      exact hval
  · -- the half-plane test rejects the pixel
    refine ⟨m1, (shade_reject m1 e x0 y0 x1 y1 x2 y2 u v hp).2, ⟨hr, hc, c0, c1, c2, hfr⟩,
      fun h => h, ?_⟩
    intro hu hv ht
    rw [← hu, ← hv] at ht
    exact absurd ht hp

end AttributedObject

namespace AttributedObject

/-- One pass of the inner loop of `drawTriangle`, guards included. -/
theorem rowStep_spec (m : UVMap) (e : EdgeSetup) (x0 y0 x1 y1 x2 y2 : ℤ)
    (hin0 : m.inside y0 x0) (hin1 : m.inside y1 x1) (hin2 : m.inside y2 x2)
    (w0 : e.alpha x0 y0 = 1 ∧ e.beta x0 y0 = 0 ∧ e.gamma x0 y0 = 0)
    (w1 : e.alpha x1 y1 = 0 ∧ e.beta x1 y1 = 1 ∧ e.gamma x1 y1 = 0)
    (w2 : e.alpha x2 y2 = 0 ∧ e.beta x2 y2 = 0 ∧ e.gamma x2 y2 = 1)
    (v : ℤ) (hv0 : 0 ≤ v) (hv1 : v < m.rows)
    (hbv : max (min y0 (min y1 y2)) 0 ≤ v ∧ v ≤ min (max y0 (max y1 y2)) ((m.rows : ℤ) - 1))
    (tu tv : ℤ) (m1 : UVMap) (u : ℤ)
    (hbu : max (min x0 (min x1 x2)) 0 ≤ u ∧ u ≤ min (max x0 (max x1 x2)) ((m.cols 0 : ℤ) - 1))
    (hinv : ScanInv m e x0 y0 x1 y1 x2 y2 m1) :
    ∃ m2, (if u < 0 then some m1 else if (m1.cols v : ℤ) ≤ u then some m1
        else shade m1 e x0 y0 x1 y1 x2 y2 u v) = some m2 ∧
      ScanInv m e x0 y0 x1 y1 x2 y2 m2 ∧
      (BlendOf (m.px y0 x0) (m.px y1 x1) (m.px y2 x2) e tu tv (m1.px tv tu) →
        BlendOf (m.px y0 x0) (m.px y1 x1) (m.px y2 x2) e tu tv (m2.px tv tu)) ∧
      (u = tu → v = tv → Covered m e x0 y0 x1 y1 x2 y2 tu tv →
        BlendOf (m.px y0 x0) (m.px y1 x1) (m.px y2 x2) e tu tv (m2.px tv tu)) := by
  have hu0 : 0 ≤ u := le_trans (le_max_right _ _) hbu.1
  rw [if_neg (not_lt.mpr hu0)]
  by_cases hg : (m1.cols v : ℤ) ≤ u
  · rw [if_pos hg]
    refine ⟨m1, rfl, hinv, fun h => h, ?_⟩
    intro hu hv hcov
    exfalso
    have := hcov.2.2.2.2.1
    rw [← hu, ← hv, ← hinv.2.1] at this
    omega
  · rw [if_neg hg]
    have hu1 : u < m.cols v := by rw [← hinv.2.1]; omega
    obtain ⟨m2, h1, h2, h3, h4⟩ := shade_step m e x0 y0 x1 y1 x2 y2 hin0 hin1 hin2 w0 w1 w2
      m1 hinv u v hv0 hv1 hu0 hu1 hbv hbu tu tv
    exact ⟨m2, h1, h2, h3, fun hu hv hcov => h4 hu hv hcov.2.2.2.2.2⟩

/-- The inner loop of `drawTriangle` on a row of the bounding box. -/
theorem scanRow_spec (m : UVMap) (e : EdgeSetup) (x0 y0 x1 y1 x2 y2 : ℤ)
    (hin0 : m.inside y0 x0) (hin1 : m.inside y1 x1) (hin2 : m.inside y2 x2)
    (w0 : e.alpha x0 y0 = 1 ∧ e.beta x0 y0 = 0 ∧ e.gamma x0 y0 = 0)
    (w1 : e.alpha x1 y1 = 0 ∧ e.beta x1 y1 = 1 ∧ e.gamma x1 y1 = 0)
    (w2 : e.alpha x2 y2 = 0 ∧ e.beta x2 y2 = 0 ∧ e.gamma x2 y2 = 1)
    (tu tv : ℤ) (m1 : UVMap) (v : ℤ)
    (hbv : max (min y0 (min y1 y2)) 0 ≤ v ∧ v ≤ min (max y0 (max y1 y2)) ((m.rows : ℤ) - 1))
    (hinv : ScanInv m e x0 y0 x1 y1 x2 y2 m1) :
    ∃ m2, (if v < 0 then some m1 else if (m1.rows : ℤ) ≤ v then some m1
        else scanRow e x0 y0 x1 y1 x2 y2 (max (min x0 (min x1 x2)) 0)
          (min (max x0 (max x1 x2)) ((m.cols 0 : ℤ) - 1)) m1 v) = some m2 ∧
      ScanInv m e x0 y0 x1 y1 x2 y2 m2 ∧
      (BlendOf (m.px y0 x0) (m.px y1 x1) (m.px y2 x2) e tu tv (m1.px tv tu) →
        BlendOf (m.px y0 x0) (m.px y1 x1) (m.px y2 x2) e tu tv (m2.px tv tu)) ∧
      (v = tv → Covered m e x0 y0 x1 y1 x2 y2 tu tv →
        BlendOf (m.px y0 x0) (m.px y1 x1) (m.px y2 x2) e tu tv (m2.px tv tu)) := by
  have hv0 : 0 ≤ v := le_trans (le_max_right _ _) hbv.1
  have hv1 : v < m.rows := by
    have := le_trans hbv.2 (min_le_right _ _)
    omega
  rw [if_neg (not_lt.mpr hv0), if_neg (by rw [hinv.1]; omega)]
  unfold scanRow
  have hmem : ∀ b ∈ intRange (max (min x0 (min x1 x2)) 0)
      (min (max x0 (max x1 x2)) ((m.cols 0 : ℤ) - 1)),
      max (min x0 (min x1 x2)) 0 ≤ b ∧ b ≤ min (max x0 (max x1 x2)) ((m.cols 0 : ℤ) - 1) :=
    fun b hb => (mem_intRange _ _ b).mp hb
  -- the invariant, with the preservation of the target pixel
  obtain ⟨m2, hf, hP, hQ⟩ := foldOpt_inv _
    (fun m' => ScanInv m e x0 y0 x1 y1 x2 y2 m' ∧
      (BlendOf (m.px y0 x0) (m.px y1 x1) (m.px y2 x2) e tu tv (m1.px tv tu) →
        BlendOf (m.px y0 x0) (m.px y1 x1) (m.px y2 x2) e tu tv (m'.px tv tu)))
    (fun b => max (min x0 (min x1 x2)) 0 ≤ b ∧
      b ≤ min (max x0 (max x1 x2)) ((m.cols 0 : ℤ) - 1))
    (fun a b hb ha => by
      obtain ⟨a1, h1, h2, h3, _⟩ := rowStep_spec m e x0 y0 x1 y1 x2 y2 hin0 hin1 hin2 w0 w1 w2
        v hv0 hv1 hbv tu tv a b hb ha.1
      exact ⟨a1, h1, h2, fun h => h3 (ha.2 h)⟩)
    _ hmem m1 ⟨hinv, fun h => h⟩
  refine ⟨m2, hf, hP, hQ, ?_⟩
  intro hv hcov
  obtain ⟨m3, hf3, _, hQ3⟩ := foldOpt_establish _
    (fun m' => ScanInv m e x0 y0 x1 y1 x2 y2 m')
    (fun m' => BlendOf (m.px y0 x0) (m.px y1 x1) (m.px y2 x2) e tu tv (m'.px tv tu))
    (fun b => max (min x0 (min x1 x2)) 0 ≤ b ∧
      b ≤ min (max x0 (max x1 x2)) ((m.cols 0 : ℤ) - 1)) tu
    (fun a b hb ha => by
      obtain ⟨a1, h1, h2, h3, h4⟩ := rowStep_spec m e x0 y0 x1 y1 x2 y2 hin0 hin1 hin2 w0 w1 w2
        v hv0 hv1 hbv tu tv a b hb ha
      exact ⟨a1, h1, h2, h3, fun hbx => h4 hbx hv hcov⟩)
    _ hmem ((mem_intRange _ _ tu).mpr ⟨hcov.2.2.1, hcov.2.2.2.1⟩) m1 hinv
  rw [hf] at hf3
  rw [Option.some.inj hf3]
  exact hQ3

/-- The scan of `drawTriangle`: on a raster that holds the three corner pixels, for a
triangle that is not skipped, the routine returns; the sizes are unchanged; every
pixel the scan does not assign is unchanged; and every pixel it assigns holds the
truncated blend of the corner values, each corner value being the one its corner
pixel held on entry or that value truncated. -/
theorem drawTriangle_spec (m : UVMap) (x0 y0 x1 y1 x2 y2 : ℤ)
    (hin0 : m.inside y0 x0) (hin1 : m.inside y1 x1) (hin2 : m.inside y2 x2)
    (hns : (edgeSetup x0 y0 x1 y1 x2 y2).skipped = false) :
    ∃ m2, drawTriangle m x0 y0 x1 y1 x2 y2 = some m2 ∧
      ScanInv m (edgeSetup x0 y0 x1 y1 x2 y2) x0 y0 x1 y1 x2 y2 m2 ∧
      ∀ tu tv, Covered m (edgeSetup x0 y0 x1 y1 x2 y2) x0 y0 x1 y1 x2 y2 tu tv →
        BlendOf (m.px y0 x0) (m.px y1 x1) (m.px y2 x2) (edgeSetup x0 y0 x1 y1 x2 y2) tu tv
          (m2.px tv tu) := by
  obtain ⟨w0, w1, w2⟩ := weights_at_corners x0 y0 x1 y1 x2 y2 hns
  have hrows : m.rows ≠ 0 := by
    intro h
    have := hin0.2.1
    rw [h] at this
    have := hin0.1
    omega
  have hmem : ∀ b ∈ intRange (max (min y0 (min y1 y2)) 0)
      (min (max y0 (max y1 y2)) ((m.rows : ℤ) - 1)),
      max (min y0 (min y1 y2)) 0 ≤ b ∧ b ≤ min (max y0 (max y1 y2)) ((m.rows : ℤ) - 1) :=
    fun b hb => (mem_intRange _ _ b).mp hb
  generalize hge : edgeSetup (x0 : ℚ) y0 x1 y1 x2 y2 = e at *
  have hdraw : ∀ m2, foldOpt (fun m1 v =>
        if v < 0 then some m1 else if (m1.rows : ℤ) ≤ v then some m1
        else scanRow e x0 y0 x1 y1 x2 y2 (max (min x0 (min x1 x2)) 0)
          (min (max x0 (max x1 x2)) ((m.cols 0 : ℤ) - 1)) m1 v) m
        (intRange (max (min y0 (min y1 y2)) 0) (min (max y0 (max y1 y2)) ((m.rows : ℤ) - 1)))
        = some m2 → drawTriangle m x0 y0 x1 y1 x2 y2 = some m2 := by
    intro m2 h
    unfold drawTriangle
    rw [if_neg hrows]
    simp only [hge, hns]
    exact h
  obtain ⟨m2, hf, hP⟩ := foldOpt_inv _ (fun m' => ScanInv m e x0 y0 x1 y1 x2 y2 m')
    (fun b => max (min y0 (min y1 y2)) 0 ≤ b ∧ b ≤ min (max y0 (max y1 y2)) ((m.rows : ℤ) - 1))
    (fun a b hb ha => by
      obtain ⟨a1, h1, h2, _, _⟩ := scanRow_spec m e x0 y0 x1 y1 x2 y2 hin0 hin1 hin2 w0 w1 w2
        0 0 a b hb ha
      exact ⟨a1, h1, h2⟩)
    _ hmem m (ScanInv.refl m e x0 y0 x1 y1 x2 y2)
  refine ⟨m2, hdraw m2 hf, hP, fun tu tv hcov => ?_⟩
  obtain ⟨m3, hf3, _, hQ3⟩ := foldOpt_establish _
    (fun m' => ScanInv m e x0 y0 x1 y1 x2 y2 m')
    (fun m' => BlendOf (m.px y0 x0) (m.px y1 x1) (m.px y2 x2) e tu tv (m'.px tv tu))
    (fun b => max (min y0 (min y1 y2)) 0 ≤ b ∧ b ≤ min (max y0 (max y1 y2)) ((m.rows : ℤ) - 1))
    tv
    (fun a b hb ha => by
      obtain ⟨a1, h1, h2, h3, h4⟩ := scanRow_spec m e x0 y0 x1 y1 x2 y2 hin0 hin1 hin2 w0 w1 w2
        tu tv a b hb ha
      exact ⟨a1, h1, h2, h3, fun hbx => h4 hbx hcov⟩)
    _ hmem ((mem_intRange _ _ tv).mpr ⟨hcov.1, hcov.2.1⟩) m (ScanInv.refl m e x0 y0 x1 y1 x2 y2)
  rw [hf] at hf3
  rw [Option.some.inj hf3]
  exact hQ3

/-- A triangle that is skipped leaves the raster as it is. -/
theorem drawTriangle_skipped (m : UVMap) (x0 y0 x1 y1 x2 y2 : ℤ) (hrows : m.rows ≠ 0)
    (hs : (edgeSetup x0 y0 x1 y1 x2 y2).skipped = true) :
    drawTriangle m x0 y0 x1 y1 x2 y2 = some m := by
  unfold drawTriangle
  rw [if_neg hrows]
  simp only [hs, if_true]

end AttributedObject

namespace UVMap

theorem Roomy.inside (m : UVMap) (h : m.Roomy) (v u : ℤ) (hv0 : 0 ≤ v) (hv1 : v ≤ 1024)
    (hu0 : 0 ≤ u) (hu1 : u ≤ 1024) : m.inside v u := by
  obtain ⟨hr, hc⟩ := h
  have hvr : v < m.rows := by omega
  refine ⟨hv0, hvr, hu0, ?_⟩
  rw [hc v hv0 hvr]
  omega

theorem Roomy.of_dims (m m1 : UVMap) (h : m.Roomy) (hr : m1.rows = m.rows)
    (hc : m1.cols = m.cols) : m1.Roomy := by
  unfold Roomy Rect at *
  rw [hr, hc]
  exact h

theorem initialise_empty :
    UVMap.empty.initialise.rows = 1025 ∧ UVMap.empty.initialise.Rect 1025 ∧
    ∀ v u : ℤ, UVMap.empty.initialise.px v u = ⟨0, 0, 0⟩ := by
  obtain ⟨h1, h2, h3⟩ := initialise_spec UVMap.empty
  refine ⟨?_, ?_, ?_⟩
  · rw [h1]; rfl
  · intro v hv0 hv1
    rw [h2]
    rw [h1] at hv1
    have : (UVMap.empty.rows : ℤ) = 0 := rfl
    rw [if_pos (by
      constructor
      · rw [this]; exact hv0
      · rw [this]; push_cast at hv1; simpa using hv1)]
  · intro v u
    rw [h3]
    split_ifs <;> rfl

theorem initialise_roomy_empty : UVMap.empty.initialise.Roomy := by
  obtain ⟨h1, h2, _⟩ := initialise_empty
  exact ⟨by rw [h1], h2⟩

/-- The initialisation of a raster that was baked before: the rows it had are kept,
entries and all, and 1025 rows are added after them. -/
theorem initialise_roomy (m : UVMap) (h : m.Roomy) :
    m.initialise.Roomy ∧ m.initialise.rows = m.rows + 1025 ∧
    ∀ v u : ℤ, v < m.rows → m.initialise.px v u = m.px v u := by
  obtain ⟨h1, h2, h3⟩ := initialise_spec m
  obtain ⟨hr, hc⟩ := h
  refine ⟨⟨by rw [h1]; omega, ?_⟩, h1, ?_⟩
  · intro v hv0 hv1
    rw [h2]
    split_ifs with hq
    · rfl
    · rw [h1] at hv1
      push_cast at hv1
      have : v < m.rows := by
        by_contra hn
        exact hq ⟨by omega, hv1⟩
      exact hc v hv0 this
  · intro v u hv
    rw [h3, if_neg (by omega)]

end UVMap

namespace AttributedObject

variable {R : Type}

/-- Corners of a triangle that is not skipped are three different pixels. -/
theorem corners_distinct (x0 y0 x1 y1 x2 y2 : ℤ)
    (hns : (edgeSetup x0 y0 x1 y1 x2 y2).skipped = false) :
    ¬ (y0 = y1 ∧ x0 = x1) ∧ ¬ (y0 = y2 ∧ x0 = x2) ∧ ¬ (y1 = y2 ∧ x1 = x2) := by
  have hne := not_skipped_area _ _ _ _ _ _ hns
  unfold area2 at hne
  refine ⟨?_, ?_, ?_⟩ <;> rintro ⟨h1, h2⟩ <;> apply hne <;> subst h1 <;> subst h2 <;> ring

/-- Three corner values assigned to three in-range pixels. -/
theorem write_three (m : UVMap) (x0 y0 x1 y1 x2 y2 : ℤ) (k0 k1 k2 : Cartesian3)
    (hin0 : m.inside y0 x0) (hin1 : m.inside y1 x1) (hin2 : m.inside y2 x2) :
    m.write y0 x0 k0 = some (m.assign y0 x0 k0) ∧
    (m.assign y0 x0 k0).write y1 x1 k1 = some ((m.assign y0 x0 k0).assign y1 x1 k1) ∧
    ((m.assign y0 x0 k0).assign y1 x1 k1).write y2 x2 k2 =
      some (((m.assign y0 x0 k0).assign y1 x1 k1).assign y2 x2 k2) :=
  ⟨UVMap.write_eq m _ _ _ hin0, UVMap.write_eq _ _ _ _ hin1, UVMap.write_eq _ _ _ _ hin2⟩

/-- The bake of one triangle whose corner pixels are in range: the three corner values
are assigned and `drawTriangle` is called on the result. -/
theorem bakeTriangle_eq (value : Nat → Option Cartesian3) (o : AttributedObject R) (m : UVMap)
    (i : Nat) (x0 y0 x1 y1 x2 y2 : ℤ) (k0 k1 k2 : Cartesian3)
    (hp0 : cornerPixel o (i * 3) = some (x0, y0))
    (hp1 : cornerPixel o (i * 3 + 1) = some (x1, y1))
    (hp2 : cornerPixel o (i * 3 + 2) = some (x2, y2))
    (hk0 : value (i * 3) = some k0) (hk1 : value (i * 3 + 1) = some k1)
    (hk2 : value (i * 3 + 2) = some k2)
    (hin0 : m.inside y0 x0) (hin1 : m.inside y1 x1) (hin2 : m.inside y2 x2) :
    bakeTriangle value o m i =
      drawTriangle (((m.assign y0 x0 k0).assign y1 x1 k1).assign y2 x2 k2)
        x0 y0 x1 y1 x2 y2 := by
  obtain ⟨w0, w1, w2⟩ := write_three m x0 y0 x1 y1 x2 y2 k0 k1 k2 hin0 hin1 hin2
  unfold bakeTriangle
  rw [hp0, hp1, hp2, hk0, hk1, hk2]
  simp only [w0, w1, w2]

end AttributedObject

namespace AttributedObject

variable {R : Type}

theorem passes_iff (e : EdgeSetup) (u v : ℤ) :
    e.passes u v = true ↔ 0 ≤ e.alpha u v ∧ 0 ≤ e.beta u v ∧ 0 ≤ e.gamma u v := by
  simp only [EdgeSetup.passes, Bool.not_eq_true', Bool.or_eq_false_iff,
    decide_eq_false_iff_not, not_lt]
  tauto

/-- The weights of a triangle that is not skipped sum to 1 and give the pixel back as
the combination of the corners. -/
theorem weights_barycentric (x0 y0 x1 y1 x2 y2 : ℚ) (u v : ℤ)
    (hns : (edgeSetup x0 y0 x1 y1 x2 y2).skipped = false) :
    (edgeSetup x0 y0 x1 y1 x2 y2).alpha u v + (edgeSetup x0 y0 x1 y1 x2 y2).beta u v +
      (edgeSetup x0 y0 x1 y1 x2 y2).gamma u v = 1 ∧
    (u : ℚ) = (edgeSetup x0 y0 x1 y1 x2 y2).alpha u v * x0 +
      (edgeSetup x0 y0 x1 y1 x2 y2).beta u v * x1 +
      (edgeSetup x0 y0 x1 y1 x2 y2).gamma u v * x2 ∧
    (v : ℚ) = (edgeSetup x0 y0 x1 y1 x2 y2).alpha u v * y0 +
      (edgeSetup x0 y0 x1 y1 x2 y2).beta u v * y1 +
      (edgeSetup x0 y0 x1 y1 x2 y2).gamma u v * y2 := by
  have hne := not_skipped_area _ _ _ _ _ _ hns
  obtain ⟨wa, wb, wc⟩ := weights_eq x0 y0 x1 y1 x2 y2 u v
  rw [wa, wb, wc]
  unfold area2 at hne ⊢
  refine ⟨?_, ?_, ?_⟩
  · field_simp; ring
  · field_simp; ring
  · field_simp; ring

/-- A point that is a convex combination of the corners has the weights of the
combination as its weights. -/
theorem weights_unique (x0 y0 x1 y1 x2 y2 : ℚ) (u v : ℤ) (a b c : ℚ)
    (hns : (edgeSetup x0 y0 x1 y1 x2 y2).skipped = false) (hsum : a + b + c = 1)
    (hu : (u : ℚ) = a * x0 + b * x1 + c * x2) (hv : (v : ℚ) = a * y0 + b * y1 + c * y2) :
    (edgeSetup x0 y0 x1 y1 x2 y2).alpha u v = a ∧ (edgeSetup x0 y0 x1 y1 x2 y2).beta u v = b ∧
    (edgeSetup x0 y0 x1 y1 x2 y2).gamma u v = c := by
  have hne := not_skipped_area _ _ _ _ _ _ hns
  obtain ⟨wa, wb, wc⟩ := weights_eq x0 y0 x1 y1 x2 y2 u v
  rw [wa, wb, wc]
  have ha : a = 1 - b - c := by linarith
  unfold area2 at hne ⊢
  rw [hu, hv, ha]
  refine ⟨?_, ?_, ?_⟩
  · rw [div_eq_iff hne]; ring
  · rw [div_eq_iff hne]; ring
  · rw [div_eq_iff hne]; ring

/-- The half-plane test passes exactly on the closed triangle. -/
theorem passes_iff_closed (x0 y0 x1 y1 x2 y2 : ℚ) (u v : ℤ)
    (hns : (edgeSetup x0 y0 x1 y1 x2 y2).skipped = false) :
    (edgeSetup x0 y0 x1 y1 x2 y2).passes u v = true ↔
      InClosedTriangle x0 y0 x1 y1 x2 y2 u v := by
  rw [passes_iff]
  constructor
  · rintro ⟨ha, hb, hc⟩
    obtain ⟨hs, hu, hv⟩ := weights_barycentric x0 y0 x1 y1 x2 y2 u v hns
    exact ⟨_, _, _, ha, hb, hc, hs, hu, hv⟩
  · rintro ⟨a, b, c, ha, hb, hc, hs, hu, hv⟩
    obtain ⟨wa, wb, wc⟩ := weights_unique x0 y0 x1 y1 x2 y2 u v a b c hns hs hu hv
    rw [wa, wb, wc]
    exact ⟨ha, hb, hc⟩

/-- A convex combination of three rationals lies between integer bounds of them. -/
theorem convex_between (a b c p q r : ℚ) (lo hi : ℚ) (ha : 0 ≤ a) (hb : 0 ≤ b) (hc : 0 ≤ c)
    (hs : a + b + c = 1) (hp : lo ≤ p ∧ p ≤ hi) (hq : lo ≤ q ∧ q ≤ hi) (hr : lo ≤ r ∧ r ≤ hi) :
    lo ≤ a * p + b * q + c * r ∧ a * p + b * q + c * r ≤ hi := by
  have e1 : (a + b + c) * lo = lo := by rw [hs, one_mul]
  have e2 : (a + b + c) * hi = hi := by rw [hs, one_mul]
  have l1 := mul_nonneg ha (sub_nonneg.mpr hp.1)
  have l2 := mul_nonneg hb (sub_nonneg.mpr hq.1)
  have l3 := mul_nonneg hc (sub_nonneg.mpr hr.1)
  have r1 := mul_nonneg ha (sub_nonneg.mpr hp.2)
  have r2 := mul_nonneg hb (sub_nonneg.mpr hq.2)
  have r3 := mul_nonneg hc (sub_nonneg.mpr hr.2)
  constructor
  · have : a * p + b * q + c * r - (a + b + c) * lo =
        a * (p - lo) + b * (q - lo) + c * (r - lo) := by ring
    linarith
  · have : (a + b + c) * hi - (a * p + b * q + c * r) =
        a * (hi - p) + b * (hi - q) + c * (hi - r) := by ring
    linarith

/-- A pixel that passes the half-plane test lies in the bounding box of the corners. -/
theorem passes_in_box (x0 y0 x1 y1 x2 y2 u v : ℤ)
    (hns : (edgeSetup x0 y0 x1 y1 x2 y2).skipped = false)
    (hp : (edgeSetup x0 y0 x1 y1 x2 y2).passes u v = true) :
    (min x0 (min x1 x2) ≤ u ∧ u ≤ max x0 (max x1 x2)) ∧
    (min y0 (min y1 y2) ≤ v ∧ v ≤ max y0 (max y1 y2)) := by
  obtain ⟨ha, hb, hc⟩ := (passes_iff _ u v).mp hp
  obtain ⟨hs, hu, hv⟩ := weights_barycentric x0 y0 x1 y1 x2 y2 u v hns
  have bx := convex_between _ _ _ (x0 : ℚ) x1 x2 ((min x0 (min x1 x2) : ℤ) : ℚ)
    ((max x0 (max x1 x2) : ℤ) : ℚ) ha hb hc hs
    ⟨by exact_mod_cast min_le_left _ _, by exact_mod_cast le_max_left _ _⟩
    ⟨by exact_mod_cast (min_le_right _ _).trans (min_le_left _ _),
      by exact_mod_cast (le_max_left _ _).trans (le_max_right _ _)⟩
    ⟨by exact_mod_cast (min_le_right _ _).trans (min_le_right _ _),
      by exact_mod_cast (le_max_right _ _).trans (le_max_right _ _)⟩
  have by' := convex_between _ _ _ (y0 : ℚ) y1 y2 ((min y0 (min y1 y2) : ℤ) : ℚ)
    ((max y0 (max y1 y2) : ℤ) : ℚ) ha hb hc hs
    ⟨by exact_mod_cast min_le_left _ _, by exact_mod_cast le_max_left _ _⟩
    ⟨by exact_mod_cast (min_le_right _ _).trans (min_le_left _ _),
      by exact_mod_cast (le_max_left _ _).trans (le_max_right _ _)⟩
    ⟨by exact_mod_cast (min_le_right _ _).trans (min_le_right _ _),
      by exact_mod_cast (le_max_right _ _).trans (le_max_right _ _)⟩
  rw [← hu] at bx
  rw [← hv] at by'
  exact ⟨⟨by exact_mod_cast bx.1, by exact_mod_cast bx.2⟩,
    ⟨by exact_mod_cast by'.1, by exact_mod_cast by'.2⟩⟩

/-- On a raster that holds `[0, 1024] x [0, 1024]`, for corners in that square, the
pixels the scan assigns are exactly those that pass the half-plane test. -/
theorem covered_iff_passes (m : UVMap) (hm : m.Roomy) (x0 y0 x1 y1 x2 y2 u v : ℤ)
    (hns : (edgeSetup x0 y0 x1 y1 x2 y2).skipped = false)
    (h0 : 0 ≤ x0 ∧ x0 ≤ 1024 ∧ 0 ≤ y0 ∧ y0 ≤ 1024)
    (h1 : 0 ≤ x1 ∧ x1 ≤ 1024 ∧ 0 ≤ y1 ∧ y1 ≤ 1024)
    (h2 : 0 ≤ x2 ∧ x2 ≤ 1024 ∧ 0 ≤ y2 ∧ y2 ≤ 1024) :
    Covered m (edgeSetup x0 y0 x1 y1 x2 y2) x0 y0 x1 y1 x2 y2 u v ↔
      (edgeSetup x0 y0 x1 y1 x2 y2).passes u v = true := by
  constructor
  · intro h; exact h.2.2.2.2.2
  · intro hp
    obtain ⟨⟨bu1, bu2⟩, ⟨bv1, bv2⟩⟩ := passes_in_box x0 y0 x1 y1 x2 y2 u v hns hp
    obtain ⟨hr, hc⟩ := hm
    have hc0 : m.cols 0 = 1025 := hc 0 (le_refl _) (by omega)
    have hv0 : 0 ≤ v := by
      have : 0 ≤ min y0 (min y1 y2) := le_min h0.2.2.1 (le_min h1.2.2.1 h2.2.2.1)
      omega
    have hv1 : v ≤ 1024 := by
      have : max y0 (max y1 y2) ≤ 1024 := max_le h0.2.2.2 (max_le h1.2.2.2 h2.2.2.2)
      omega
    have hu0 : 0 ≤ u := by
      have : 0 ≤ min x0 (min x1 x2) := le_min h0.1 (le_min h1.1 h2.1)
      omega
    have hu1 : u ≤ 1024 := by
      have : max x0 (max x1 x2) ≤ 1024 := max_le h0.2.1 (max_le h1.2.1 h2.2.1)
      omega
    have hcv : m.cols v = 1025 := hc v hv0 (by omega)
    refine ⟨max_le bv1 hv0, le_min bv2 (by omega), max_le bu1 hu0, le_min bu2 ?_, ?_, hp⟩
    · rw [hc0]; push_cast; omega
    · rw [hcv]; push_cast; omega

end AttributedObject

namespace AttributedObject

variable {R : Type}

theorem assign3_px (m : UVMap) (x0 y0 x1 y1 x2 y2 : ℤ) (k0 k1 k2 : Cartesian3) (v u : ℤ) :
    (((m.assign y0 x0 k0).assign y1 x1 k1).assign y2 x2 k2).px v u =
      if v = y2 ∧ u = x2 then k2 else if v = y1 ∧ u = x1 then k1
      else if v = y0 ∧ u = x0 then k0 else m.px v u := rfl

/-- The bake of one triangle on a raster that holds `[0, 1024] x [0, 1024]`, for
corner pixels in that square. `m3` is the raster after the three corner values were
assigned. -/
theorem bakeTriangle_spec (value : Nat → Option Cartesian3) (o : AttributedObject R)
    (m : UVMap) (hm : m.Roomy) (i : Nat) (x0 y0 x1 y1 x2 y2 : ℤ) (k0 k1 k2 : Cartesian3)
    (hp0 : cornerPixel o (i * 3) = some (x0, y0))
    (hp1 : cornerPixel o (i * 3 + 1) = some (x1, y1))
    (hp2 : cornerPixel o (i * 3 + 2) = some (x2, y2))
    (hk0 : value (i * 3) = some k0) (hk1 : value (i * 3 + 1) = some k1)
    (hk2 : value (i * 3 + 2) = some k2)
    (h0 : 0 ≤ x0 ∧ x0 ≤ 1024 ∧ 0 ≤ y0 ∧ y0 ≤ 1024)
    (h1 : 0 ≤ x1 ∧ x1 ≤ 1024 ∧ 0 ≤ y1 ∧ y1 ≤ 1024)
    (h2 : 0 ≤ x2 ∧ x2 ≤ 1024 ∧ 0 ≤ y2 ∧ y2 ≤ 1024) :
    ∃ m1, bakeTriangle value o m i = some m1 ∧ m1.rows = m.rows ∧ m1.cols = m.cols ∧
      (∀ v u, ¬ (0 ≤ v ∧ v ≤ 1024 ∧ 0 ≤ u ∧ u ≤ 1024) → m1.px v u = m.px v u) ∧
      ((edgeSetup x0 y0 x1 y1 x2 y2).skipped = true →
        m1 = ((m.assign y0 x0 k0).assign y1 x1 k1).assign y2 x2 k2) ∧
      ((edgeSetup x0 y0 x1 y1 x2 y2).skipped = false →
        (∀ v u, ¬ (edgeSetup x0 y0 x1 y1 x2 y2).passes u v = true →
          m1.px v u = (((m.assign y0 x0 k0).assign y1 x1 k1).assign y2 x2 k2).px v u) ∧
        (∀ v u, (edgeSetup x0 y0 x1 y1 x2 y2).passes u v = true →
          BlendOf k0 k1 k2 (edgeSetup x0 y0 x1 y1 x2 y2) u v (m1.px v u))) := by
  have hin0 := UVMap.Roomy.inside m hm y0 x0 h0.2.2.1 h0.2.2.2 h0.1 h0.2.1
  have hin1 := UVMap.Roomy.inside m hm y1 x1 h1.2.2.1 h1.2.2.2 h1.1 h1.2.1
  have hin2 := UVMap.Roomy.inside m hm y2 x2 h2.2.2.1 h2.2.2.2 h2.1 h2.2.1
  have heq := bakeTriangle_eq value o m i x0 y0 x1 y1 x2 y2 k0 k1 k2 hp0 hp1 hp2 hk0 hk1 hk2
    hin0 hin1 hin2
  obtain ⟨m3, hm3⟩ : ∃ m3, m3 = ((m.assign y0 x0 k0).assign y1 x1 k1).assign y2 x2 k2 :=
    ⟨_, rfl⟩
  rw [← hm3] at heq ⊢
  have hr3 : m3.rows = m.rows := by rw [hm3]; rfl
  have hc3 : m3.cols = m.cols := by rw [hm3]; rfl
  have hm3r : m3.Roomy := UVMap.Roomy.of_dims m m3 hm hr3 hc3
  have hpx3 : ∀ v u, m3.px v u = if v = y2 ∧ u = x2 then k2 else if v = y1 ∧ u = x1 then k1
      else if v = y0 ∧ u = x0 then k0 else m.px v u := by
    intro v u; rw [hm3]; rfl
  have hout3 : ∀ v u, ¬ (0 ≤ v ∧ v ≤ 1024 ∧ 0 ≤ u ∧ u ≤ 1024) → m3.px v u = m.px v u := by
    intro v u hn
    rw [hpx3, if_neg, if_neg, if_neg]
    · rintro ⟨rfl, rfl⟩; exact hn ⟨h0.2.2.1, h0.2.2.2, h0.1, h0.2.1⟩
    · rintro ⟨rfl, rfl⟩; exact hn ⟨h1.2.2.1, h1.2.2.2, h1.1, h1.2.1⟩
    · rintro ⟨rfl, rfl⟩; exact hn ⟨h2.2.2.1, h2.2.2.2, h2.1, h2.2.1⟩
  by_cases hs : (edgeSetup x0 y0 x1 y1 x2 y2).skipped = true
  · have hrows : m3.rows ≠ 0 := by have := hm3r.1; omega
    refine ⟨m3, by rw [heq]; exact drawTriangle_skipped m3 _ _ _ _ _ _ hrows hs, hr3, hc3,
      hout3, fun _ => rfl, fun h => ?_⟩
    rw [hs] at h
    exact absurd h (by decide)
  · have hns : (edgeSetup x0 y0 x1 y1 x2 y2).skipped = false := by
      simpa using hs
    have i0 : m3.inside y0 x0 := UVMap.Roomy.inside m3 hm3r y0 x0 h0.2.2.1 h0.2.2.2 h0.1 h0.2.1
    have i1 : m3.inside y1 x1 := UVMap.Roomy.inside m3 hm3r y1 x1 h1.2.2.1 h1.2.2.2 h1.1 h1.2.1
    have i2 : m3.inside y2 x2 := UVMap.Roomy.inside m3 hm3r y2 x2 h2.2.2.1 h2.2.2.2 h2.1 h2.2.1
    obtain ⟨d01, d02, d12⟩ := corners_distinct x0 y0 x1 y1 x2 y2 hns
    have e0 : m3.px y0 x0 = k0 := by
      rw [hpx3, if_neg d02, if_neg d01, if_pos ⟨rfl, rfl⟩]
    have e1 : m3.px y1 x1 = k1 := by
      rw [hpx3, if_neg d12, if_pos ⟨rfl, rfl⟩]
    have e2 : m3.px y2 x2 = k2 := by
      rw [hpx3, if_pos ⟨rfl, rfl⟩]
    obtain ⟨m1, hd, hinv, hcov⟩ := drawTriangle_spec m3 x0 y0 x1 y1 x2 y2 i0 i1 i2 hns
    rw [e0, e1, e2] at hcov
    obtain ⟨hr, hc, _, _, _, hfr⟩ := hinv
    have hiff := fun u v => covered_iff_passes m3 hm3r x0 y0 x1 y1 x2 y2 u v hns h0 h1 h2
    refine ⟨m1, by rw [heq]; exact hd, by rw [hr, hr3], by rw [hc, hc3], ?_,
      fun h => absurd h hs, fun _ => ⟨?_, ?_⟩⟩
    · intro v u hn
      have hnp : ¬ (edgeSetup x0 y0 x1 y1 x2 y2).passes u v = true := by
        intro hp
        obtain ⟨⟨bu1, bu2⟩, ⟨bv1, bv2⟩⟩ := passes_in_box x0 y0 x1 y1 x2 y2 u v hns hp
        apply hn
        have a1 : 0 ≤ min y0 (min y1 y2) := le_min h0.2.2.1 (le_min h1.2.2.1 h2.2.2.1)
        have a2 : max y0 (max y1 y2) ≤ 1024 := max_le h0.2.2.2 (max_le h1.2.2.2 h2.2.2.2)
        have a3 : 0 ≤ min x0 (min x1 x2) := le_min h0.1 (le_min h1.1 h2.1)
        have a4 : max x0 (max x1 x2) ≤ 1024 := max_le h0.2.1 (max_le h1.2.1 h2.2.1)
        omega
      rw [hfr v u (fun hcv => hnp ((hiff u v).mp hcv))]
      exact hout3 v u hn
    · intro v u hnp
      exact hfr v u (fun hcv => hnp ((hiff u v).mp hcv))
    · intro v u hp
      exact hcov u v ((hiff u v).mpr hp)

/-- The corner data of a triangle of an object that is ready to bake. -/
theorem BakeReady.triangle (value : Nat → Option Cartesian3) (o : AttributedObject R)
    (h : BakeReady value o) (i : Nat) (hi : i < o.faceVertices.length / 3) :
    ∃ (x0 y0 x1 y1 x2 y2 : ℤ) (k0 k1 k2 : Cartesian3),
      cornerPixel o (i * 3) = some (x0, y0) ∧ cornerPixel o (i * 3 + 1) = some (x1, y1) ∧
      cornerPixel o (i * 3 + 2) = some (x2, y2) ∧
      value (i * 3) = some k0 ∧ value (i * 3 + 1) = some k1 ∧ value (i * 3 + 2) = some k2 ∧
      (0 ≤ x0 ∧ x0 ≤ 1024 ∧ 0 ≤ y0 ∧ y0 ≤ 1024) ∧ (0 ≤ x1 ∧ x1 ≤ 1024 ∧ 0 ≤ y1 ∧ y1 ≤ 1024) ∧
      (0 ≤ x2 ∧ x2 ≤ 1024 ∧ 0 ≤ y2 ∧ y2 ≤ 1024) := by
  obtain ⟨p0, k0, a0, b0, c0⟩ := h (i * 3) (by omega)
  obtain ⟨p1, k1, a1, b1, c1⟩ := h (i * 3 + 1) (by omega)
  obtain ⟨p2, k2, a2, b2, c2⟩ := h (i * 3 + 2) (by omega)
  exact ⟨p0.1, p0.2, p1.1, p1.2, p2.1, p2.2, k0, k1, k2, a0, a1, a2, b0, b1, b2, c0, c1, c2⟩

/-- The loop over the triangles on an object that is ready to bake: every pass
returns, the sizes stay, and no pixel outside `[0, 1024] x [0, 1024]` changes. -/
theorem bakeLoop_spec (value : Nat → Option Cartesian3) (o : AttributedObject R)
    (h : BakeReady value o) (m : UVMap) (hm : m.Roomy) (n : Nat)
    (hn : n ≤ o.faceVertices.length / 3) :
    ∃ m1, foldOpt (bakeTriangle value o) m (List.range n) = some m1 ∧ m1.Roomy ∧
      m1.rows = m.rows ∧ m1.cols = m.cols ∧
      (∀ v u, ¬ (0 ≤ v ∧ v ≤ 1024 ∧ 0 ≤ u ∧ u ≤ 1024) → m1.px v u = m.px v u) := by
  obtain ⟨m1, hf, hP⟩ := foldOpt_inv (bakeTriangle value o)
    (fun m1 => m1.rows = m.rows ∧ m1.cols = m.cols ∧
      (∀ v u, ¬ (0 ≤ v ∧ v ≤ 1024 ∧ 0 ≤ u ∧ u ≤ 1024) → m1.px v u = m.px v u))
    (fun i => i < o.faceVertices.length / 3)
    (fun a i hi ha => by
      obtain ⟨x0, y0, x1, y1, x2, y2, k0, k1, k2, hp0, hp1, hp2, hk0, hk1, hk2, h0, h1, h2⟩ :=
        BakeReady.triangle value o h i hi
      obtain ⟨a1, e1, r1, c1, f1, _⟩ := bakeTriangle_spec value o a
        (UVMap.Roomy.of_dims m a hm ha.1 ha.2.1) i x0 y0 x1 y1 x2 y2 k0 k1 k2
        hp0 hp1 hp2 hk0 hk1 hk2 h0 h1 h2
      exact ⟨a1, e1, by rw [r1, ha.1], by rw [c1, ha.2.1],
        fun v u hn => by rw [f1 v u hn, ha.2.2 v u hn]⟩)
    (List.range n) (fun i hi => by rw [List.mem_range] at hi; omega) m
    ⟨rfl, rfl, fun _ _ _ => rfl⟩
  exact ⟨m1, hf, UVMap.Roomy.of_dims m m1 hm hP.1 hP.2.1, hP.1, hP.2.1, hP.2.2⟩

/-- The last triangle of a bake: the bake returns the raster that the last pass makes
of the raster the passes before it leave. -/
theorem bake_last (value : Nat → Option Cartesian3) (o : AttributedObject R)
    (h : BakeReady value o) (m : UVMap) (hm : m.initialise.Roomy) (n : Nat)
    (hn : o.faceVertices.length / 3 = n + 1) :
    ∃ mp m1, foldOpt (bakeTriangle value o) m.initialise (List.range n) = some mp ∧
      mp.Roomy ∧ mp.rows = m.initialise.rows ∧ bakeTriangle value o mp n = some m1 ∧
      bake value o m = some m1 := by
  obtain ⟨mp, hf, hr, hrows, _, _⟩ := bakeLoop_spec value o h m.initialise hm n (by omega)
  obtain ⟨m1, hf1, _, _, _, _⟩ := bakeLoop_spec value o h m.initialise hm (n + 1) (by omega)
  refine ⟨mp, m1, hf, hr, hrows, ?_, ?_⟩
  · rw [List.range_succ, foldOpt_append, hf] at hf1
    simp only [foldOpt] at hf1
    cases hb : bakeTriangle value o mp n with
    | none => rw [hb] at hf1; exact absurd hf1 (by simp)
    | some a1 => rw [hb] at hf1; simpa using hf1
  · unfold bake
    rw [hn]
    exact hf1

end AttributedObject

namespace AttributedObject

variable {R : Type}

theorem truncInt_unit (q : ℚ) (n : ℤ) (h0 : 0 ≤ q) (h1 : q ≤ 1) (hn : 0 ≤ n) :
    0 ≤ truncInt (q * n) ∧ truncInt (q * n) ≤ n := by
  have hq : (0 : ℚ) ≤ (n : ℚ) := by exact_mod_cast hn
  apply truncInt_between
  · push_cast; exact mul_nonneg h0 hq
  · calc q * n ≤ 1 * n := mul_le_mul_of_nonneg_right h1 hq
      _ = n := one_mul _

/-- The corner pixel of a texture coordinate with `x` and `y` in `[0, 1]` lies in
`[0, 1024] x [0, 1024]`. -/
theorem cornerPixel_conventional (o : AttributedObject R) (h : o.Conventional) (c : Nat)
    (hc : c < o.faceVertices.length) :
    ∃ p, cornerPixel o c = some p ∧ 0 ≤ p.1 ∧ p.1 ≤ 1024 ∧ 0 ≤ p.2 ∧ p.2 ≤ 1024 := by
  obtain ⟨h1, _, _, h4, _, h6⟩ := h
  have hc1 : c < o.faceTexCoords.length := by omega
  have hi := h4 (o.faceTexCoords[c]) (List.getElem_mem hc1)
  have ht := h6 (o.textureCoords[o.faceTexCoords[c]]) (List.getElem_mem hi)
  refine ⟨(truncInt ((o.textureCoords[o.faceTexCoords[c]]).x * 1024),
    truncInt ((1 - (o.textureCoords[o.faceTexCoords[c]]).y) * 1024)), ?_, ?_⟩
  · simp [cornerPixel, List.getElem?_eq_getElem hc1, List.getElem?_eq_getElem hi]
  · have a := truncInt_unit _ 1024 ht.1 ht.2.1 (by norm_num)
    have b := truncInt_unit (1 - (o.textureCoords[o.faceTexCoords[c]]).y) 1024
      (by linarith [ht.2.2.2]) (by linarith [ht.2.2.1]) (by norm_num)
    simp only [Int.cast_ofNat] at a b
    exact ⟨a.1, a.2, b.1, b.2⟩

theorem colourValue_conventional (o : AttributedObject R) (h : o.Conventional) (c : Nat)
    (hc : c < o.faceVertices.length) : ∃ k, colourValue o c = some k := by
  obtain ⟨_, h2, _, _, h5, _⟩ := h
  have hc1 : c < o.faceColours.length := by omega
  have hi := h5 (o.faceColours[c]) (List.getElem_mem hc1)
  simp [colourValue, List.getElem?_eq_getElem hc1, List.getElem?_eq_getElem hi]

theorem normalValue_conventional (o : AttributedObject R) (h : o.Conventional)
    (hn : ∀ i ∈ o.faceNormals, i < o.normals.length) (c : Nat)
    (hc : c < o.faceVertices.length) : ∃ k, normalValue o c = some k := by
  obtain ⟨_, _, h3, _, _, _⟩ := h
  have hc1 : c < o.faceNormals.length := by omega
  have hi := hn (o.faceNormals[c]) (List.getElem_mem hc1)
  simp [normalValue, List.getElem?_eq_getElem hc1, List.getElem?_eq_getElem hi]

theorem BakeReady.of_conventional (value : Nat → Option Cartesian3) (o : AttributedObject R)
    (h : o.Conventional) (hv : ∀ c, c < o.faceVertices.length → ∃ k, value c = some k) :
    BakeReady value o := by
  intro c hc
  have hc1 : c < o.faceVertices.length := by
    have := Nat.div_mul_le_self o.faceVertices.length 3
    omega
  obtain ⟨p, hp, hb⟩ := cornerPixel_conventional o h c hc1
  obtain ⟨k, hk⟩ := hv c hc1
  exact ⟨p, k, hp, hk, hb⟩

theorem BakeReady.colour (o : AttributedObject R) (h : o.Conventional) :
    BakeReady (colourValue o) o :=
  BakeReady.of_conventional _ o h (colourValue_conventional o h)

theorem BakeReady.normal (o : AttributedObject R) (h : o.Conventional)
    (hn : ∀ i ∈ o.faceNormals, i < o.normals.length) : BakeReady (normalValue o) o :=
  BakeReady.of_conventional _ o h (normalValue_conventional o h hn)

/-- The value `outputTexture` assigns to a corner pixel is whole. -/
theorem colourValue_whole (o : AttributedObject R) (c : Nat) (k : Cartesian3)
    (h : colourValue o c = some k) : truncVec k = k := by
  unfold colourValue at h
  cases h1 : o.faceColours[c]? with
  | none => rw [h1] at h; exact absurd h (by simp)
  | some idx =>
    rw [h1] at h
    simp only [] at h
    cases h2 : o.colours[idx]? with
    | none => rw [h2] at h; exact absurd h (by simp)
    | some col =>
      rw [h2] at h
      simp only [Option.some.injEq] at h
      rw [← h]
      simp [truncVec, truncInt_intCast]

/-- With whole corner values the blend is that of the corner values themselves. -/
theorem BlendOf.whole (k0 k1 k2 : Cartesian3) (e : EdgeSetup) (u v : ℤ) (c : Cartesian3)
    (h0 : truncVec k0 = k0) (h1 : truncVec k1 = k1) (h2 : truncVec k2 = k2)
    (h : BlendOf k0 k1 k2 e u v c) :
    c = truncVec (blend k0 k1 k2 (e.alpha u v) (e.beta u v) (e.gamma u v)) := by
  obtain ⟨a0, a1, a2, e0, e1, e2, hc⟩ := h
  have f0 : a0 = k0 := by
    rcases e0 with r | r
    · exact r
    · rw [r, h0]
  have f1 : a1 = k1 := by
    rcases e1 with r | r
    · exact r
    · rw [r, h1]
  have f2 : a2 = k2 := by
    rcases e2 with r | r
    · exact r
    · rw [r, h2]
  rw [hc, f0, f1, f2]

/-- At the pixel of a corner the blend is the truncated value of that corner. -/
theorem BlendOf.corner (k0 k1 k2 : Cartesian3) (x0 y0 x1 y1 x2 y2 : ℤ) (c0 c1 c2 : Cartesian3)
    (hns : (edgeSetup x0 y0 x1 y1 x2 y2).skipped = false)
    (b0 : BlendOf k0 k1 k2 (edgeSetup x0 y0 x1 y1 x2 y2) x0 y0 c0)
    (b1 : BlendOf k0 k1 k2 (edgeSetup x0 y0 x1 y1 x2 y2) x1 y1 c1)
    (b2 : BlendOf k0 k1 k2 (edgeSetup x0 y0 x1 y1 x2 y2) x2 y2 c2) :
    c0 = truncVec k0 ∧ c1 = truncVec k1 ∧ c2 = truncVec k2 := by
  obtain ⟨⟨p1, p2, p3⟩, ⟨q1, q2, q3⟩, ⟨r1, r2, r3⟩⟩ := weights_at_corners x0 y0 x1 y1 x2 y2 hns
  refine ⟨?_, ?_, ?_⟩
  · obtain ⟨a0, a1, a2, e0, _, _, hc⟩ := b0
    rw [hc, p1, p2, p3, (blend_unit a0 a1 a2).1]
    exact truncVec_or a0 k0 e0
  · obtain ⟨a0, a1, a2, _, e1, _, hc⟩ := b1
    rw [hc, q1, q2, q3, (blend_unit a0 a1 a2).2.1]
    exact truncVec_or a1 k1 e1
  · obtain ⟨a0, a1, a2, _, _, e2, hc⟩ := b2
    rw [hc, r1, r2, r3, (blend_unit a0 a1 a2).2.2]
    exact truncVec_or a2 k2 e2

theorem passes_at_corners (x0 y0 x1 y1 x2 y2 : ℤ)
    (hns : (edgeSetup x0 y0 x1 y1 x2 y2).skipped = false) :
    (edgeSetup x0 y0 x1 y1 x2 y2).passes x0 y0 = true ∧
    (edgeSetup x0 y0 x1 y1 x2 y2).passes x1 y1 = true ∧
    (edgeSetup x0 y0 x1 y1 x2 y2).passes x2 y2 = true := by
  obtain ⟨⟨p1, p2, p3⟩, ⟨q1, q2, q3⟩, ⟨r1, r2, r3⟩⟩ := weights_at_corners x0 y0 x1 y1 x2 y2 hns
  refine ⟨?_, ?_, ?_⟩ <;> rw [passes_iff]
  · rw [p1, p2, p3]; norm_num
  · rw [q1, q2, q3]; norm_num
  · rw [r1, r2, r3]; norm_num

end AttributedObject

namespace AttributedObject

variable {R : Type}

/-- The bake of an object that is ready to bake, seen from its last triangle: `mp` is
the raster the triangles before it leave. -/
theorem bake_last_spec (value : Nat → Option Cartesian3) (o : AttributedObject R)
    (h : BakeReady value o) (m : UVMap) (hm : m.initialise.Roomy) (n : Nat)
    (hn : o.faceVertices.length / 3 = n + 1) (x0 y0 x1 y1 x2 y2 : ℤ) (k0 k1 k2 : Cartesian3)
    (hp0 : cornerPixel o (n * 3) = some (x0, y0))
    (hp1 : cornerPixel o (n * 3 + 1) = some (x1, y1))
    (hp2 : cornerPixel o (n * 3 + 2) = some (x2, y2))
    (hk0 : value (n * 3) = some k0) (hk1 : value (n * 3 + 1) = some k1)
    (hk2 : value (n * 3 + 2) = some k2) :
    ∃ mp m1, foldOpt (bakeTriangle value o) m.initialise (List.range n) = some mp ∧
      mp.rows = m.initialise.rows ∧ mp.cols = m.initialise.cols ∧
      (∀ v u, ¬ (0 ≤ v ∧ v ≤ 1024 ∧ 0 ≤ u ∧ u ≤ 1024) → mp.px v u = m.initialise.px v u) ∧
      bake value o m = some m1 ∧ m1.rows = m.initialise.rows ∧
      m1.cols = m.initialise.cols ∧
      ((edgeSetup x0 y0 x1 y1 x2 y2).skipped = true →
        m1 = ((mp.assign y0 x0 k0).assign y1 x1 k1).assign y2 x2 k2) ∧
      ((edgeSetup x0 y0 x1 y1 x2 y2).skipped = false →
        (∀ v u, ¬ (edgeSetup x0 y0 x1 y1 x2 y2).passes u v = true →
          m1.px v u = (((mp.assign y0 x0 k0).assign y1 x1 k1).assign y2 x2 k2).px v u) ∧
        (∀ v u, (edgeSetup x0 y0 x1 y1 x2 y2).passes u v = true →
          BlendOf k0 k1 k2 (edgeSetup x0 y0 x1 y1 x2 y2) u v (m1.px v u))) := by
  obtain ⟨mp, hf, hr, hrows, hcols, hfr⟩ :=
    bakeLoop_spec value o h m.initialise hm n (by omega)
  obtain ⟨a0, a1, a2, a3, a4, a5, j0, j1, j2, q0, q1, q2, r0, r1, r2, b0, b1, b2⟩ :=
    BakeReady.triangle value o h n (by omega)
  rw [hp0] at q0; rw [hp1] at q1; rw [hp2] at q2
  rw [hk0] at r0; rw [hk1] at r1; rw [hk2] at r2
  simp only [Option.some.injEq, Prod.mk.injEq] at q0 q1 q2 r0 r1 r2
  obtain ⟨rfl, rfl⟩ := q0
  obtain ⟨rfl, rfl⟩ := q1
  obtain ⟨rfl, rfl⟩ := q2
  subst r0 r1 r2
  obtain ⟨m1, e1, rw1, cl1, _, s1, s2⟩ := bakeTriangle_spec value o mp hr n x0 y0 x1 y1 x2 y2
    k0 k1 k2 hp0 hp1 hp2 hk0 hk1 hk2 b0 b1 b2
  refine ⟨mp, m1, hf, hrows, hcols, hfr, ?_, by rw [rw1, hrows], by rw [cl1, hcols], s1, s2⟩
  unfold bake
  rw [hn, List.range_succ, foldOpt_append, hf]
  simp only [foldOpt, e1]

/-- The bake of an object with no triangle in its face arrays is the initialised
raster. -/
theorem bake_no_triangle (value : Nat → Option Cartesian3) (o : AttributedObject R)
    (m : UVMap) (h : o.faceVertices.length < 3) : bake value o m = some m.initialise := by
  unfold bake
  rw [Nat.div_eq_of_lt h]
  rfl

/-- A first corner whose pixel is outside the raster makes the pass of its triangle an
out-of-range access. -/
theorem bakeTriangle_outside (value : Nat → Option Cartesian3) (o : AttributedObject R)
    (m : UVMap) (i : Nat) (p : ℤ × ℤ) (hp : cornerPixel o (i * 3) = some p)
    (hout : ¬ m.inside p.2 p.1) : bakeTriangle value o m i = none := by
  unfold bakeTriangle
  rw [hp]
  cases cornerPixel o (i * 3 + 1) with
  | none => rfl
  | some p1 =>
    cases cornerPixel o (i * 3 + 2) with
    | none => rfl
    | some p2 =>
      simp only []
      cases value (i * 3) with
      | none => rfl
      | some k0 =>
        cases value (i * 3 + 1) with
        | none => rfl
        | some k1 =>
          cases value (i * 3 + 2) with
          | none => rfl
          | some k2 =>
            simp only [UVMap.write, if_neg hout]

theorem bake_first_outside (value : Nat → Option Cartesian3) (o : AttributedObject R)
    (m : UVMap) (p : ℤ × ℤ) (hlen : 3 ≤ o.faceVertices.length)
    (hp : cornerPixel o 0 = some p) (hout : ¬ m.initialise.inside p.2 p.1) :
    bake value o m = none := by
  unfold bake
  obtain ⟨n, hn⟩ : ∃ n, o.faceVertices.length / 3 = n + 1 :=
    ⟨o.faceVertices.length / 3 - 1, by omega⟩
  rw [hn, List.range_succ_eq_map]
  simp only [foldOpt]
  rw [bakeTriangle_outside value o m.initialise 0 p (by simpa using hp) hout]

/-- The truncated blend of three whole numbers with weights of a pixel that passes the
half-plane test lies between the least and the greatest of them. -/
theorem trunc_blend_between (z0 z1 z2 : ℤ) (a b c : ℚ) (ha : 0 ≤ a) (hb : 0 ≤ b) (hc : 0 ≤ c)
    (hs : a + b + c = 1) :
    min z0 (min z1 z2) ≤ truncInt (z0 * a + z1 * b + z2 * c) ∧
    truncInt (z0 * a + z1 * b + z2 * c) ≤ max z0 (max z1 z2) := by
  have hlo0 : ((min z0 (min z1 z2) : ℤ) : ℚ) ≤ z0 := by exact_mod_cast min_le_left _ _
  have hlo1 : ((min z0 (min z1 z2) : ℤ) : ℚ) ≤ z1 := by
    exact_mod_cast le_trans (min_le_right _ _) (min_le_left _ _)
  have hlo2 : ((min z0 (min z1 z2) : ℤ) : ℚ) ≤ z2 := by
    exact_mod_cast le_trans (min_le_right _ _) (min_le_right _ _)
  have hhi0 : (z0 : ℚ) ≤ ((max z0 (max z1 z2) : ℤ) : ℚ) := by exact_mod_cast le_max_left _ _
  have hhi1 : (z1 : ℚ) ≤ ((max z0 (max z1 z2) : ℤ) : ℚ) := by
    exact_mod_cast le_trans (le_max_left _ _) (le_max_right _ _)
  have hhi2 : (z2 : ℚ) ≤ ((max z0 (max z1 z2) : ℤ) : ℚ) := by
    exact_mod_cast le_trans (le_max_right _ _) (le_max_right _ _)
  have hcb := convex_between a b c z0 z1 z2 _ _ ha hb hc hs ⟨hlo0, hhi0⟩ ⟨hlo1, hhi1⟩
    ⟨hlo2, hhi2⟩
  have e : (z0 : ℚ) * a + z1 * b + z2 * c = a * z0 + b * z1 + c * z2 := by ring
  rw [e]
  exact truncInt_between _ _ _ hcb.1 hcb.2

end AttributedObject

namespace AttributedObject

theorem not_skipped_of_area (x0 y0 x1 y1 x2 y2 : ℚ) (h : area2 x0 y0 x1 y1 x2 y2 ≠ 0) :
    (edgeSetup x0 y0 x1 y1 x2 y2).skipped = false := by
  cases hs : (edgeSetup x0 y0 x1 y1 x2 y2).skipped with
  | false => rfl
  | true => exact absurd ((skipped_iff x0 y0 x1 y1 x2 y2).mp hs) h

theorem collinear_iff (x0 y0 x1 y1 x2 y2 : ℚ) :
    Collinear x0 y0 x1 y1 x2 y2 ↔ area2 x0 y0 x1 y1 x2 y2 = 0 := by
  unfold Collinear area2
  constructor
  · rintro ⟨a, b, c, hab, h0, h1, h2⟩
    have e1 : a * (x1 - x0) + b * (y1 - y0) = 0 := by linarith
    have e2 : a * (x2 - x0) + b * (y2 - y0) = 0 := by linarith
    have ka : a * ((x1 - x0) * (y2 - y0) - (x2 - x0) * (y1 - y0)) = 0 := by
      have : a * ((x1 - x0) * (y2 - y0) - (x2 - x0) * (y1 - y0)) =
          (a * (x1 - x0) + b * (y1 - y0)) * (y2 - y0) -
          (a * (x2 - x0) + b * (y2 - y0)) * (y1 - y0) := by ring
      rw [this, e1, e2]; ring
    have kb : b * ((x1 - x0) * (y2 - y0) - (x2 - x0) * (y1 - y0)) = 0 := by
      have : b * ((x1 - x0) * (y2 - y0) - (x2 - x0) * (y1 - y0)) =
          (a * (x2 - x0) + b * (y2 - y0)) * (x1 - x0) -
          (a * (x1 - x0) + b * (y1 - y0)) * (x2 - x0) := by ring
      rw [this, e1, e2]; ring
    rcases hab with ha | hb
    · exact (mul_eq_zero.mp ka).resolve_left ha
    · exact (mul_eq_zero.mp kb).resolve_left hb
  · intro h
    by_cases h01 : x1 - x0 = 0 ∧ y1 - y0 = 0
    · by_cases h02 : x2 - x0 = 0 ∧ y2 - y0 = 0
      · refine ⟨1, 0, x0, Or.inl one_ne_zero, by ring, ?_, ?_⟩
        · linarith [h01.1]
        · linarith [h02.1]
      · refine ⟨-(y2 - y0), x2 - x0, -(y2 - y0) * x0 + (x2 - x0) * y0, ?_, rfl, ?_, by ring⟩
        · by_contra hc
          push_neg at hc
          exact h02 ⟨hc.2, by linarith [hc.1]⟩
        · have a1 : x1 = x0 := by linarith [h01.1]
          have a2 : y1 = y0 := by linarith [h01.2]
          rw [a1, a2]
    · refine ⟨-(y1 - y0), x1 - x0, -(y1 - y0) * x0 + (x1 - x0) * y0, ?_, rfl, by ring, ?_⟩
      · by_contra hc
        push_neg at hc
        exact h01 ⟨hc.2, by linarith [hc.1]⟩
      · linarith

end AttributedObject

namespace AttributedObject

/-- C13. Coverage of the scan conversion: for a triangle with integer pixel corners
that is not degenerate (twice its signed area is not 0, of either sign), on a raster
that holds the three corners, and for a pixel `(u, v)` of the clamped bounding box that
is in the raster, the body of the scan assigns the pixel iff `alpha`, `beta`, `gamma`
are all `>= 0`, and that holds iff `(u, v)` is in the closed triangle of the corners;
`drawTriangle` returns, and afterwards the pixel holds a truncated blend of the corner
values when it was assigned and its old value when it was not. -/
theorem C13_scan_writes_closed_triangle (m : UVMap) (x0 y0 x1 y1 x2 y2 : ℤ)
    (hin0 : m.inside y0 x0) (hin1 : m.inside y1 x1) (hin2 : m.inside y2 x2)
    (hnd : area2 x0 y0 x1 y1 x2 y2 ≠ 0) (u v : ℤ)
    (hbv : max (min y0 (min y1 y2)) 0 ≤ v ∧ v ≤ min (max y0 (max y1 y2)) ((m.rows : ℤ) - 1))
    (hbu : max (min x0 (min x1 x2)) 0 ≤ u ∧ u ≤ min (max x0 (max x1 x2)) ((m.cols 0 : ℤ) - 1))
    (hin : m.inside v u) :
    ((∃ c, shadeValue m (edgeSetup x0 y0 x1 y1 x2 y2) x0 y0 x1 y1 x2 y2 u v = some (some c)) ↔
      (0 ≤ (edgeSetup x0 y0 x1 y1 x2 y2).alpha u v ∧
        0 ≤ (edgeSetup x0 y0 x1 y1 x2 y2).beta u v ∧
        0 ≤ (edgeSetup x0 y0 x1 y1 x2 y2).gamma u v)) ∧
    ((0 ≤ (edgeSetup x0 y0 x1 y1 x2 y2).alpha u v ∧
        0 ≤ (edgeSetup x0 y0 x1 y1 x2 y2).beta u v ∧
        0 ≤ (edgeSetup x0 y0 x1 y1 x2 y2).gamma u v) ↔
      InClosedTriangle x0 y0 x1 y1 x2 y2 u v) ∧
    ∃ m2, drawTriangle m x0 y0 x1 y1 x2 y2 = some m2 ∧
      ((0 ≤ (edgeSetup x0 y0 x1 y1 x2 y2).alpha u v ∧
          0 ≤ (edgeSetup x0 y0 x1 y1 x2 y2).beta u v ∧
          0 ≤ (edgeSetup x0 y0 x1 y1 x2 y2).gamma u v) →
        BlendOf (m.px y0 x0) (m.px y1 x1) (m.px y2 x2) (edgeSetup x0 y0 x1 y1 x2 y2) u v
          (m2.px v u)) ∧
      (¬ (0 ≤ (edgeSetup x0 y0 x1 y1 x2 y2).alpha u v ∧
          0 ≤ (edgeSetup x0 y0 x1 y1 x2 y2).beta u v ∧
          0 ≤ (edgeSetup x0 y0 x1 y1 x2 y2).gamma u v) → m2.px v u = m.px v u) := by
  have hns := not_skipped_of_area x0 y0 x1 y1 x2 y2 hnd
  have hpi := passes_iff (edgeSetup x0 y0 x1 y1 x2 y2) u v
  refine ⟨?_, ?_, ?_⟩
  · rw [← hpi]
    constructor
    · rintro ⟨c, hc⟩
      by_contra hp
      rw [(shade_reject m _ x0 y0 x1 y1 x2 y2 u v hp).1] at hc
      exact absurd hc (by simp)
    · intro hp
      exact ⟨_, (shade_pass m _ x0 y0 x1 y1 x2 y2 u v hp hin0 hin1 hin2 hin).1⟩
  · rw [← hpi]
    exact passes_iff_closed x0 y0 x1 y1 x2 y2 u v hns
  · obtain ⟨m2, hd, hinv, hcov⟩ := drawTriangle_spec m x0 y0 x1 y1 x2 y2 hin0 hin1 hin2 hns
    refine ⟨m2, hd, ?_, ?_⟩
    · intro hw
      exact hcov u v ⟨hbv.1, hbv.2, hbu.1, hbu.2, hin.2.2.2, hpi.mpr hw⟩
    · intro hw
      exact hinv.2.2.2.2.2 v u (fun hc => hw (hpi.mp hc.2.2.2.2.2))

/-- C13, instantiated at the clockwise triangle (0,0), (0,4), (4,0) on the initialised
raster and at the pixel (1,1). -/
theorem C13_witness :
    ((∃ c, shadeValue UVMap.empty.initialise (edgeSetup (0 : ℤ) (0 : ℤ) (0 : ℤ) (4 : ℤ)
        (4 : ℤ) (0 : ℤ)) 0 0 0 4 4 0 1 1 = some (some c)) ↔
      (0 ≤ (edgeSetup (0 : ℤ) (0 : ℤ) (0 : ℤ) (4 : ℤ) (4 : ℤ) (0 : ℤ)).alpha 1 1 ∧
        0 ≤ (edgeSetup (0 : ℤ) (0 : ℤ) (0 : ℤ) (4 : ℤ) (4 : ℤ) (0 : ℤ)).beta 1 1 ∧
        0 ≤ (edgeSetup (0 : ℤ) (0 : ℤ) (0 : ℤ) (4 : ℤ) (4 : ℤ) (0 : ℤ)).gamma 1 1)) ∧
    InClosedTriangle (0 : ℤ) (0 : ℤ) (0 : ℤ) (4 : ℤ) (4 : ℤ) (0 : ℤ) (1 : ℤ) (1 : ℤ) := by
  have hr := UVMap.initialise_roomy_empty
  have hc0 : UVMap.empty.initialise.cols 0 = 1025 := hr.2 0 (by norm_num) (by
    have := hr.1; omega)
  have hrows : UVMap.empty.initialise.rows = 1025 := UVMap.initialise_empty.1
  have h := C13_scan_writes_closed_triangle UVMap.empty.initialise 0 0 0 4 4 0
    (UVMap.Roomy.inside _ hr 0 0 (by norm_num) (by norm_num) (by norm_num) (by norm_num))
    (UVMap.Roomy.inside _ hr 4 0 (by norm_num) (by norm_num) (by norm_num) (by norm_num))
    (UVMap.Roomy.inside _ hr 0 4 (by norm_num) (by norm_num) (by norm_num) (by norm_num))
    (by norm_num [area2]) 1 1 (by rw [hrows]; decide) (by rw [hc0]; decide)
    (UVMap.Roomy.inside _ hr 1 1 (by norm_num) (by norm_num) (by norm_num) (by norm_num))
  refine ⟨h.1, h.2.1.mp ?_⟩
  have w := weights_eq (0 : ℤ) (0 : ℤ) (0 : ℤ) (4 : ℤ) (4 : ℤ) (0 : ℤ) 1 1
  rw [w.1, w.2.1, w.2.2]
  norm_num [area2]

/-- C21. The three denominators of `drawTriangle` are one number, twice the signed
area of the triangle, for all corner coordinates; the early return is taken iff that
number is 0, which is iff the three corners lie on one line; a pair of coincident
corners is such a case, and so are the distinct corners (0,0), (1,1), (2,2). When the
early return is taken `drawTriangle` leaves the raster as it was; when it is not, on a
raster holding `[0, 1024] x [0, 1024]` and for corners in that square, the scan assigns
the pixel of the first corner, which then holds its truncated value. -/
theorem C21_distances_are_twice_the_area (x0 y0 x1 y1 x2 y2 : ℚ) :
    (edgeSetup x0 y0 x1 y1 x2 y2).distance0 = area2 x0 y0 x1 y1 x2 y2 ∧
    (edgeSetup x0 y0 x1 y1 x2 y2).distance1 = area2 x0 y0 x1 y1 x2 y2 ∧
    (edgeSetup x0 y0 x1 y1 x2 y2).distance2 = area2 x0 y0 x1 y1 x2 y2 ∧
    ((edgeSetup x0 y0 x1 y1 x2 y2).skipped = true ↔ Collinear x0 y0 x1 y1 x2 y2) ∧
    (((x0 = x1 ∧ y0 = y1) ∨ (x0 = x2 ∧ y0 = y2) ∨ (x1 = x2 ∧ y1 = y2)) →
      Collinear x0 y0 x1 y1 x2 y2) ∧
    Collinear 0 0 1 1 2 2 ∧
    (∀ (m : UVMap) (i0 j0 i1 j1 i2 j2 : ℤ), m.rows ≠ 0 →
      (edgeSetup i0 j0 i1 j1 i2 j2).skipped = true →
      drawTriangle m i0 j0 i1 j1 i2 j2 = some m) ∧
    (∀ (m : UVMap) (i0 j0 i1 j1 i2 j2 : ℤ), m.Roomy →
      (0 ≤ i0 ∧ i0 ≤ 1024 ∧ 0 ≤ j0 ∧ j0 ≤ 1024) → (0 ≤ i1 ∧ i1 ≤ 1024 ∧ 0 ≤ j1 ∧ j1 ≤ 1024) →
      (0 ≤ i2 ∧ i2 ≤ 1024 ∧ 0 ≤ j2 ∧ j2 ≤ 1024) →
      (edgeSetup i0 j0 i1 j1 i2 j2).skipped = false →
      ∃ m2, drawTriangle m i0 j0 i1 j1 i2 j2 = some m2 ∧
        Covered m (edgeSetup i0 j0 i1 j1 i2 j2) i0 j0 i1 j1 i2 j2 i0 j0 ∧
        m2.px j0 i0 = truncVec (m.px j0 i0)) := by
  have hd := edgeSetup_distances x0 y0 x1 y1 x2 y2
  refine ⟨?_, ?_, ?_, ?_, ?_, ?_, ?_, ?_⟩
  · rw [hd.1]; rfl
  · rw [hd.2.1]; rfl
  · rw [hd.2.2]; rfl
  · rw [skipped_iff, collinear_iff]
  · intro h
    rw [collinear_iff]
    unfold area2
    rcases h with ⟨a, b⟩ | ⟨a, b⟩ | ⟨a, b⟩
    · rw [a, b]; ring
    · rw [a, b]; ring
    · rw [a, b]; ring
  · rw [collinear_iff]; norm_num [area2]
  · intro m i0 j0 i1 j1 i2 j2 hrows hs
    exact drawTriangle_skipped m i0 j0 i1 j1 i2 j2 hrows hs
  · intro m i0 j0 i1 j1 i2 j2 hm h0 h1 h2 hns
    have a0 := UVMap.Roomy.inside m hm j0 i0 h0.2.2.1 h0.2.2.2 h0.1 h0.2.1
    have a1 := UVMap.Roomy.inside m hm j1 i1 h1.2.2.1 h1.2.2.2 h1.1 h1.2.1
    have a2 := UVMap.Roomy.inside m hm j2 i2 h2.2.2.1 h2.2.2.2 h2.1 h2.2.1
    obtain ⟨m2, hd2, _, hcov⟩ := drawTriangle_spec m i0 j0 i1 j1 i2 j2 a0 a1 a2 hns
    have hp := passes_at_corners i0 j0 i1 j1 i2 j2 hns
    have hc := (covered_iff_passes m hm i0 j0 i1 j1 i2 j2 i0 j0 hns h0 h1 h2).mpr hp.1
    have hc1 := (covered_iff_passes m hm i0 j0 i1 j1 i2 j2 i1 j1 hns h0 h1 h2).mpr hp.2.1
    have hc2 := (covered_iff_passes m hm i0 j0 i1 j1 i2 j2 i2 j2 hns h0 h1 h2).mpr hp.2.2
    exact ⟨m2, hd2, hc, (BlendOf.corner _ _ _ i0 j0 i1 j1 i2 j2 _ _ _ hns (hcov _ _ hc)
      (hcov _ _ hc1) (hcov _ _ hc2)).1⟩

/-- C21, instantiated: the corners (3,3), (3,3), (7,1) have a coincident pair, so
they are collinear, and `drawTriangle` leaves the initialised raster as it was. -/
theorem C21_witness :
    Collinear 3 3 3 3 7 1 ∧
    drawTriangle UVMap.empty.initialise 3 3 3 3 7 1 = some UVMap.empty.initialise := by
  have h := C21_distances_are_twice_the_area 3 3 3 3 7 1
  refine ⟨h.2.2.2.2.1 (Or.inl ⟨rfl, rfl⟩), ?_⟩
  have hs : (edgeSetup ((3 : ℤ) : ℚ) ((3 : ℤ) : ℚ) ((3 : ℤ) : ℚ) ((3 : ℤ) : ℚ) ((7 : ℤ) : ℚ)
      ((1 : ℤ) : ℚ)).skipped = true := by
    rw [skipped_iff]; norm_num [area2]
  exact h.2.2.2.2.2.2.1 UVMap.empty.initialise 3 3 3 3 7 1
    (by rw [UVMap.initialise_empty.1]; decide) hs

end AttributedObject

namespace AttributedObject

variable {R : Type}

theorem blend_channels (k0 k1 k2 : Cartesian3) (a b c : ℚ) :
    blend k0 k1 k2 a b c = ⟨k0.x * a + k1.x * b + k2.x * c, k0.y * a + k1.y * b + k2.y * c,
      k0.z * a + k1.z * b + k2.z * c⟩ := rfl

/-- The colour bake seen from its last triangle: a pixel that passes the half-plane
test of the last triangle holds the truncated blend of its three corner values. -/
theorem texture_last (o : AttributedObject R) (h : BakeReady (colourValue o) o) (n : Nat)
    (hn : o.faceVertices.length / 3 = n + 1) (x0 y0 x1 y1 x2 y2 : ℤ) (k0 k1 k2 : Cartesian3)
    (hp0 : cornerPixel o (n * 3) = some (x0, y0))
    (hp1 : cornerPixel o (n * 3 + 1) = some (x1, y1))
    (hp2 : cornerPixel o (n * 3 + 2) = some (x2, y2))
    (hk0 : colourValue o (n * 3) = some k0) (hk1 : colourValue o (n * 3 + 1) = some k1)
    (hk2 : colourValue o (n * 3 + 2) = some k2)
    (hns : (edgeSetup x0 y0 x1 y1 x2 y2).skipped = false) (u v : ℤ)
    (hpass : (edgeSetup x0 y0 x1 y1 x2 y2).passes u v = true) :
    ∃ m1, outputTexture o UVMap.empty = some m1 ∧ m1.rows = 1025 ∧
      m1.px v u = truncVec (blend k0 k1 k2 ((edgeSetup x0 y0 x1 y1 x2 y2).alpha u v)
        ((edgeSetup x0 y0 x1 y1 x2 y2).beta u v) ((edgeSetup x0 y0 x1 y1 x2 y2).gamma u v)) := by
  obtain ⟨mp, m1, _, _, _, _, hb, hr, _, _, hs⟩ := bake_last_spec (colourValue o) o h
    UVMap.empty UVMap.initialise_roomy_empty n hn x0 y0 x1 y1 x2 y2 k0 k1 k2
    hp0 hp1 hp2 hk0 hk1 hk2
  refine ⟨m1, hb, by rw [hr, UVMap.initialise_empty.1], ?_⟩
  exact BlendOf.whole k0 k1 k2 _ u v _ (colourValue_whole o _ k0 hk0)
    (colourValue_whole o _ k1 hk1) (colourValue_whole o _ k2 hk2) ((hs hns).2 v u hpass)

/-- The truncated blend of three whole values with the weights of a pixel that passes
the half-plane test lies between the least and the greatest of them. -/
theorem channel_between (p q r a b c : ℚ) (hp : ((truncInt p : ℤ) : ℚ) = p)
    (hq : ((truncInt q : ℤ) : ℚ) = q) (hr : ((truncInt r : ℤ) : ℚ) = r)
    (ha : 0 ≤ a) (hb : 0 ≤ b) (hc : 0 ≤ c) (hs : a + b + c = 1) :
    min p (min q r) ≤ ((truncInt (p * a + q * b + r * c) : ℤ) : ℚ) ∧
    ((truncInt (p * a + q * b + r * c) : ℤ) : ℚ) ≤ max p (max q r) := by
  have h := trunc_blend_between (truncInt p) (truncInt q) (truncInt r) a b c ha hb hc hs
  rw [hp, hq, hr] at h
  constructor
  · have := (Int.cast_le (R := ℚ)).mpr h.1
    rw [Int.cast_min, Int.cast_min, hp, hq, hr] at this
    exact this
  · have := (Int.cast_le (R := ℚ)).mpr h.2
    rw [Int.cast_max, Int.cast_max, hp, hq, hr] at this
    exact this

theorem truncVec_channels (k : Cartesian3) (h : truncVec k = k) :
    ((truncInt k.x : ℤ) : ℚ) = k.x ∧ ((truncInt k.y : ℤ) : ℚ) = k.y ∧
    ((truncInt k.z : ℤ) : ℚ) = k.z := by
  have hx := congrArg Cartesian3.x h
  have hy := congrArg Cartesian3.y h
  have hz := congrArg Cartesian3.z h
  exact ⟨hx, hy, hz⟩

/-- The value `outputTexture` assigns to a corner pixel has channels in `[0, 255]`
when the colours have components in `[0, 1]`. -/
theorem colourValue_range (o : AttributedObject R)
    (hcol : ∀ c ∈ o.colours, 0 ≤ c.x ∧ c.x ≤ 1 ∧ 0 ≤ c.y ∧ c.y ≤ 1 ∧ 0 ≤ c.z ∧ c.z ≤ 1)
    (j : Nat) (k : Cartesian3) (h : colourValue o j = some k) :
    (0 ≤ k.x ∧ k.x ≤ 255) ∧ (0 ≤ k.y ∧ k.y ≤ 255) ∧ (0 ≤ k.z ∧ k.z ≤ 255) := by
  unfold colourValue at h
  cases h1 : o.faceColours[j]? with
  | none => rw [h1] at h; exact absurd h (by simp)
  | some idx =>
    rw [h1] at h
    simp only [] at h
    cases h2 : o.colours[idx]? with
    | none => rw [h2] at h; exact absurd h (by simp)
    | some col =>
      rw [h2] at h
      simp only [Option.some.injEq] at h
      have hm := hcol col (List.getElem?_mem h2)
      have ax := truncInt_unit col.x 255 hm.1 hm.2.1 (by norm_num)
      have ay := truncInt_unit col.y 255 hm.2.2.1 hm.2.2.2.1 (by norm_num)
      have az := truncInt_unit col.z 255 hm.2.2.2.2.1 hm.2.2.2.2.2 (by norm_num)
      simp only [Int.cast_ofNat] at ax ay az
      rw [← h]
      show (((0 : ℚ) ≤ ((truncInt (col.x * 255) : ℤ) : ℚ)) ∧ ((truncInt (col.x * 255) : ℤ) : ℚ) ≤ 255) ∧
        (((0 : ℚ) ≤ ((truncInt (col.y * 255) : ℤ) : ℚ)) ∧ ((truncInt (col.y * 255) : ℤ) : ℚ) ≤ 255) ∧
        (((0 : ℚ) ≤ ((truncInt (col.z * 255) : ℤ) : ℚ)) ∧ ((truncInt (col.z * 255) : ℤ) : ℚ) ≤ 255)
      refine ⟨⟨?_, ?_⟩, ⟨?_, ?_⟩, ⟨?_, ?_⟩⟩
      · exact_mod_cast ax.1
      · exact_mod_cast ax.2
      · exact_mod_cast ay.1
      · exact_mod_cast ay.2
      · exact_mod_cast az.1
      · exact_mod_cast az.2

theorem weights_of_pass (x0 y0 x1 y1 x2 y2 : ℚ) (u v : ℤ)
    (hns : (edgeSetup x0 y0 x1 y1 x2 y2).skipped = false)
    (hpass : (edgeSetup x0 y0 x1 y1 x2 y2).passes u v = true) :
    0 ≤ (edgeSetup x0 y0 x1 y1 x2 y2).alpha u v ∧ 0 ≤ (edgeSetup x0 y0 x1 y1 x2 y2).beta u v ∧
    0 ≤ (edgeSetup x0 y0 x1 y1 x2 y2).gamma u v ∧
    (edgeSetup x0 y0 x1 y1 x2 y2).alpha u v + (edgeSetup x0 y0 x1 y1 x2 y2).beta u v +
      (edgeSetup x0 y0 x1 y1 x2 y2).gamma u v = 1 := by
  have h := (passes_iff _ u v).mp hpass
  exact ⟨h.1, h.2.1, h.2.2, (weights_barycentric x0 y0 x1 y1 x2 y2 u v hns).1⟩

end AttributedObject

namespace AttributedObject

variable {R : Type}

/-- C22. Raster accesses stay in bounds for conventional input: for a mesh whose face
arrays have one length, whose `faceTexCoords` and `faceColours` entries are valid
indices and whose texture coordinates have `x` and `y` in `[0, 1]`, every corner pixel
lies in `[0, 1024] x [0, 1024]`, the raster of a fresh object has 1025 rows of 1025
entries after its initialisation, and `outputTexture` makes no out-of-range access: it
returns a raster of the same size. -/
theorem C22_conventional_input_stays_in_bounds (o : AttributedObject R)
    (h : o.Conventional) :
    (∀ c, c < o.faceVertices.length →
      ∃ p, cornerPixel o c = some p ∧ 0 ≤ p.1 ∧ p.1 ≤ 1024 ∧ 0 ≤ p.2 ∧ p.2 ≤ 1024) ∧
    UVMap.empty.initialise.rows = 1025 ∧ UVMap.empty.initialise.Rect 1025 ∧
    ∃ m1, outputTexture o UVMap.empty = some m1 ∧ m1.rows = 1025 ∧ m1.Rect 1025 := by
  refine ⟨cornerPixel_conventional o h, UVMap.initialise_empty.1, UVMap.initialise_empty.2.1, ?_⟩
  obtain ⟨m1, hf, hr, hrows, _, _⟩ := bakeLoop_spec (colourValue o) o (BakeReady.colour o h)
    UVMap.empty.initialise UVMap.initialise_roomy_empty (o.faceVertices.length / 3) le_rfl
  refine ⟨m1, hf, by rw [hrows, UVMap.initialise_empty.1], hr.2⟩

theorem rgbTriangle_conventional : rgbTriangle.Conventional := by
  refine ⟨rfl, rfl, rfl, by decide, by decide, ?_⟩
  simp [rgbTriangle, bakeMesh, sampleTex]
  norm_num

/-- C22, instantiated at the mesh `rgbTriangle`. -/
theorem C22_witness :
    rgbTriangle.Conventional ∧
    ∃ m1, outputTexture rgbTriangle UVMap.empty = some m1 ∧ m1.rows = 1025 ∧ m1.Rect 1025 :=
  ⟨rgbTriangle_conventional,
    (C22_conventional_input_stays_in_bounds rgbTriangle rgbTriangle_conventional).2.2.2⟩

theorem sample_not_skipped :
    (edgeSetup (0 : ℤ) (0 : ℤ) (1024 : ℤ) (0 : ℤ) (0 : ℤ) (1024 : ℤ)).skipped = false :=
  not_skipped_of_area _ _ _ _ _ _ (by norm_num [area2])

theorem sample_weights :
    (edgeSetup (0 : ℤ) (0 : ℤ) (1024 : ℤ) (0 : ℤ) (0 : ℤ) (1024 : ℤ)).alpha 256 256 = 1 / 2 ∧
    (edgeSetup (0 : ℤ) (0 : ℤ) (1024 : ℤ) (0 : ℤ) (0 : ℤ) (1024 : ℤ)).beta 256 256 = 1 / 4 ∧
    (edgeSetup (0 : ℤ) (0 : ℤ) (1024 : ℤ) (0 : ℤ) (0 : ℤ) (1024 : ℤ)).gamma 256 256 = 1 / 4 := by
  have w := weights_eq (0 : ℤ) (0 : ℤ) (1024 : ℤ) (0 : ℤ) (0 : ℤ) (1024 : ℤ) 256 256
  rw [w.1, w.2.1, w.2.2]
  norm_num [area2]

theorem sample_passes :
    (edgeSetup (0 : ℤ) (0 : ℤ) (1024 : ℤ) (0 : ℤ) (0 : ℤ) (1024 : ℤ)).passes 256 256 = true := by
  rw [passes_iff, sample_weights.1, sample_weights.2.1, sample_weights.2.2]
  norm_num

end AttributedObject

namespace AttributedObject

variable {R : Type}

theorem twoTriangles_conventional : twoTriangles.Conventional := by
  refine ⟨rfl, rfl, rfl, by decide, by decide, ?_⟩
  simp [twoTriangles, bakeMesh, sampleTex]
  norm_num

/-- C16. Overlap order: for a conventional mesh with two triangles of which the
second is not degenerate, every pixel that passes the half-plane test of the second
triangle holds after `outputTexture` the truncated blend of the three corner values of
the second triangle, with the weights of the pixel in the second triangle: nothing of
the first triangle enters the value, whether or not the first triangle covers the
pixel. Likewise after `outputNormal`, where each corner value enters as it is or
truncated. -/
theorem C16_later_triangle_wins (o : AttributedObject R) (h : o.Conventional)
    (hn : o.faceVertices.length / 3 = 2) (x0 y0 x1 y1 x2 y2 : ℤ) (k0 k1 k2 : Cartesian3)
    (hp0 : cornerPixel o 3 = some (x0, y0)) (hp1 : cornerPixel o 4 = some (x1, y1))
    (hp2 : cornerPixel o 5 = some (x2, y2))
    (hk0 : colourValue o 3 = some k0) (hk1 : colourValue o 4 = some k1)
    (hk2 : colourValue o 5 = some k2)
    (hnd : area2 x0 y0 x1 y1 x2 y2 ≠ 0) (u v : ℤ)
    (hpass : (edgeSetup x0 y0 x1 y1 x2 y2).passes u v = true) :
    (∃ m1, outputTexture o UVMap.empty = some m1 ∧
      m1.px v u = truncVec (blend k0 k1 k2 ((edgeSetup x0 y0 x1 y1 x2 y2).alpha u v)
        ((edgeSetup x0 y0 x1 y1 x2 y2).beta u v)
        ((edgeSetup x0 y0 x1 y1 x2 y2).gamma u v))) ∧
    (∀ j0 j1 j2 : Cartesian3, (∀ i ∈ o.faceNormals, i < o.normals.length) →
      normalValue o 3 = some j0 → normalValue o 4 = some j1 → normalValue o 5 = some j2 →
      ∃ m2, outputNormal o UVMap.empty = some m2 ∧
        BlendOf j0 j1 j2 (edgeSetup x0 y0 x1 y1 x2 y2) u v (m2.px v u)) := by
  have hns := not_skipped_of_area _ _ _ _ _ _ hnd
  constructor
  · obtain ⟨m1, hb, _, hpx⟩ := texture_last o (BakeReady.colour o h) 1 hn x0 y0 x1 y1 x2 y2
      k0 k1 k2 hp0 hp1 hp2 hk0 hk1 hk2 hns u v hpass
    exact ⟨m1, hb, hpx⟩
  · intro j0 j1 j2 hnorm hj0 hj1 hj2
    obtain ⟨mp, m2, _, _, _, _, hb, _, _, _, hs⟩ := bake_last_spec (normalValue o) o
      (BakeReady.normal o h hnorm) UVMap.empty UVMap.initialise_roomy_empty 1 hn
      x0 y0 x1 y1 x2 y2 j0 j1 j2 hp0 hp1 hp2 hj0 hj1 hj2
    exact ⟨m2, hb, (hs hns).2 v u hpass⟩

/-- C16, instantiated at the mesh `twoTriangles`, a red triangle followed by a green
one with the same corners: the pixel (256,256), which both cover, is green. -/
theorem C16_witness :
    ∃ m1, outputTexture twoTriangles UVMap.empty = some m1 ∧ m1.px 256 256 = ⟨0, 255, 0⟩ := by
  obtain ⟨m1, hb, hpx⟩ := (C16_later_triangle_wins twoTriangles twoTriangles_conventional rfl
    0 0 1024 0 0 1024 ⟨0, 255, 0⟩ ⟨0, 255, 0⟩ ⟨0, 255, 0⟩
    (by simp [cornerPixel, twoTriangles, bakeMesh, sampleTex, truncInt])
    (by simp [cornerPixel, twoTriangles, bakeMesh, sampleTex, truncInt])
    (by simp [cornerPixel, twoTriangles, bakeMesh, sampleTex, truncInt])
    (by simp [colourValue, twoTriangles, bakeMesh, truncInt])
    (by simp [colourValue, twoTriangles, bakeMesh, truncInt])
    (by simp [colourValue, twoTriangles, bakeMesh, truncInt])
    (by norm_num [area2]) 256 256 sample_passes).1
  refine ⟨m1, hb, ?_⟩
  rw [hpx, sample_weights.1, sample_weights.2.1, sample_weights.2.2, blend_channels]
  simp only [truncVec, truncInt]
  norm_num [Int.floor_eq_iff]

end AttributedObject

namespace AttributedObject

variable {R : Type}

/-- A single triangle whose corners have pixels in `[0, 1024] x [0, 1024]` and values
to assign is ready to bake. -/
theorem BakeReady.single (value : Nat → Option Cartesian3) (o : AttributedObject R)
    (hlen : o.faceVertices.length / 3 = 1) (x0 y0 x1 y1 x2 y2 : ℤ) (k0 k1 k2 : Cartesian3)
    (hp0 : cornerPixel o 0 = some (x0, y0)) (hp1 : cornerPixel o 1 = some (x1, y1))
    (hp2 : cornerPixel o 2 = some (x2, y2))
    (hk0 : value 0 = some k0) (hk1 : value 1 = some k1) (hk2 : value 2 = some k2)
    (h0 : 0 ≤ x0 ∧ x0 ≤ 1024 ∧ 0 ≤ y0 ∧ y0 ≤ 1024)
    (h1 : 0 ≤ x1 ∧ x1 ≤ 1024 ∧ 0 ≤ y1 ∧ y1 ≤ 1024)
    (h2 : 0 ≤ x2 ∧ x2 ≤ 1024 ∧ 0 ≤ y2 ∧ y2 ≤ 1024) : BakeReady value o := by
  intro c hc
  rw [hlen] at hc
  have : c = 0 ∨ c = 1 ∨ c = 2 := by omega
  rcases this with rfl | rfl | rfl
  · exact ⟨_, _, hp0, hk0, h0⟩
  · exact ⟨_, _, hp1, hk1, h1⟩
  · exact ⟨_, _, hp2, hk2, h2⟩

/-- The bake of a single triangle that is not degenerate: each corner pixel holds the
truncated value of its corner. -/
theorem bake_single_corners (value : Nat → Option Cartesian3) (o : AttributedObject R)
    (hlen : o.faceVertices.length / 3 = 1) (x0 y0 x1 y1 x2 y2 : ℤ) (k0 k1 k2 : Cartesian3)
    (hp0 : cornerPixel o 0 = some (x0, y0)) (hp1 : cornerPixel o 1 = some (x1, y1))
    (hp2 : cornerPixel o 2 = some (x2, y2))
    (hk0 : value 0 = some k0) (hk1 : value 1 = some k1) (hk2 : value 2 = some k2)
    (h0 : 0 ≤ x0 ∧ x0 ≤ 1024 ∧ 0 ≤ y0 ∧ y0 ≤ 1024)
    (h1 : 0 ≤ x1 ∧ x1 ≤ 1024 ∧ 0 ≤ y1 ∧ y1 ≤ 1024)
    (h2 : 0 ≤ x2 ∧ x2 ≤ 1024 ∧ 0 ≤ y2 ∧ y2 ≤ 1024)
    (hns : (edgeSetup x0 y0 x1 y1 x2 y2).skipped = false) :
    ∃ m1, bake value o UVMap.empty = some m1 ∧ m1.px y0 x0 = truncVec k0 ∧
      m1.px y1 x1 = truncVec k1 ∧ m1.px y2 x2 = truncVec k2 := by
  have hr := BakeReady.single value o hlen x0 y0 x1 y1 x2 y2 k0 k1 k2 hp0 hp1 hp2 hk0 hk1 hk2
    h0 h1 h2
  obtain ⟨mp, m1, _, _, _, _, hb, _, _, _, hs⟩ := bake_last_spec value o hr
    UVMap.empty UVMap.initialise_roomy_empty 0 hlen x0 y0 x1 y1 x2 y2 k0 k1 k2
    hp0 hp1 hp2 hk0 hk1 hk2
  have hp := passes_at_corners x0 y0 x1 y1 x2 y2 hns
  have hc := BlendOf.corner k0 k1 k2 x0 y0 x1 y1 x2 y2 _ _ _ hns
    ((hs hns).2 y0 x0 hp.1) ((hs hns).2 y1 x1 hp.2.1) ((hs hns).2 y2 x2 hp.2.2)
  exact ⟨m1, hb, hc⟩

/-- The bake of a single triangle that `drawTriangle` skips: the raster is the
initialised one with the three corner values assigned in turn. -/
theorem bake_single_skipped (value : Nat → Option Cartesian3) (o : AttributedObject R)
    (hlen : o.faceVertices.length / 3 = 1) (x0 y0 x1 y1 x2 y2 : ℤ) (k0 k1 k2 : Cartesian3)
    (hp0 : cornerPixel o 0 = some (x0, y0)) (hp1 : cornerPixel o 1 = some (x1, y1))
    (hp2 : cornerPixel o 2 = some (x2, y2))
    (hk0 : value 0 = some k0) (hk1 : value 1 = some k1) (hk2 : value 2 = some k2)
    (h0 : 0 ≤ x0 ∧ x0 ≤ 1024 ∧ 0 ≤ y0 ∧ y0 ≤ 1024)
    (h1 : 0 ≤ x1 ∧ x1 ≤ 1024 ∧ 0 ≤ y1 ∧ y1 ≤ 1024)
    (h2 : 0 ≤ x2 ∧ x2 ≤ 1024 ∧ 0 ≤ y2 ∧ y2 ≤ 1024)
    (hs : (edgeSetup x0 y0 x1 y1 x2 y2).skipped = true) :
    bake value o UVMap.empty =
      some (((UVMap.empty.initialise.assign y0 x0 k0).assign y1 x1 k1).assign y2 x2 k2) := by
  have hr := BakeReady.single value o hlen x0 y0 x1 y1 x2 y2 k0 k1 k2 hp0 hp1 hp2 hk0 hk1 hk2
    h0 h1 h2
  obtain ⟨mp, m1, hf, _, _, _, hb, _, _, hsk, _⟩ := bake_last_spec value o hr
    UVMap.empty UVMap.initialise_roomy_empty 0 hlen x0 y0 x1 y1 x2 y2 k0 k1 k2
    hp0 hp1 hp2 hk0 hk1 hk2
  have hmp : mp = UVMap.empty.initialise := by
    simp only [List.range_zero, foldOpt, Option.some.injEq] at hf
    exact hf.symm
  rw [hb, hsk hs, hmp]

end AttributedObject

namespace AttributedObject

variable {R : Type}

theorem flat_skipped :
    (edgeSetup (0 : ℤ) (0 : ℤ) (512 : ℤ) (0 : ℤ) (1024 : ℤ) (0 : ℤ)).skipped = true := by
  rw [skipped_iff]; norm_num [area2]

/-- C11, refuted as stated: the meshes `tiltedTriangle` and `tiltedFlat` are single
triangles with three distinct corner pixels, the same first corner pixel (0,0) and the
same corner normals; after `outputNormal` the pixel (0,0) holds the red channel 128 in
the first and 128.75 in the second, so what a corner pixel holds is not one remapped
value of the corner attribute. The corners of the second are collinear: `drawTriangle`
returns before it computes any weight. -/
theorem C11_counterexample :
    ∃ a b, outputNormal tiltedTriangle UVMap.empty = some a ∧
      outputNormal tiltedFlat UVMap.empty = some b ∧
      cornerPixel tiltedTriangle 0 = some (0, 0) ∧
      cornerPixel tiltedFlat 0 = some (0, 0) ∧ cornerPixel tiltedFlat 1 = some (512, 0) ∧
      cornerPixel tiltedFlat 2 = some (1024, 0) ∧
      normalValue tiltedTriangle 0 = normalValue tiltedFlat 0 ∧
      (edgeSetup (0 : ℤ) (0 : ℤ) (512 : ℤ) (0 : ℤ) (1024 : ℤ) (0 : ℤ)).skipped = true ∧
      (a.px 0 0).x = 128 ∧ (b.px 0 0).x = 515 / 4 := by
  have q0 : cornerPixel tiltedFlat 0 = some (0, 0) := by
    simp [cornerPixel, tiltedFlat, bakeMesh, sampleTex, truncInt]
  have q1 : cornerPixel tiltedFlat 1 = some (512, 0) := by
    simp [cornerPixel, tiltedFlat, bakeMesh, sampleTex, truncInt]; norm_num
  have q2 : cornerPixel tiltedFlat 2 = some (1024, 0) := by
    simp [cornerPixel, tiltedFlat, bakeMesh, sampleTex, truncInt]
  have p0 : cornerPixel tiltedTriangle 0 = some (0, 0) := by
    simp [cornerPixel, tiltedTriangle, bakeMesh, sampleTex, truncInt]
  have hv : ∀ j, j < 3 → normalValue tiltedFlat j = some ⟨515 / 4, 128, 128⟩ := by
    intro j hj
    have : j = 0 ∨ j = 1 ∨ j = 2 := by omega
    rcases this with rfl | rfl | rfl <;> simp [normalValue, tiltedFlat, bakeMesh] <;> norm_num
  have hw : ∀ j, j < 3 → normalValue tiltedTriangle j = some ⟨515 / 4, 128, 128⟩ := by
    intro j hj
    have : j = 0 ∨ j = 1 ∨ j = 2 := by omega
    rcases this with rfl | rfl | rfl <;> simp [normalValue, tiltedTriangle, bakeMesh] <;>
      norm_num
  obtain ⟨a, ha, ha0, _, _⟩ := bake_single_corners (normalValue tiltedTriangle) tiltedTriangle
    rfl 0 0 1024 0 0 1024 _ _ _ p0
    (by simp [cornerPixel, tiltedTriangle, bakeMesh, sampleTex, truncInt])
    (by simp [cornerPixel, tiltedTriangle, bakeMesh, sampleTex, truncInt])
    (hw 0 (by norm_num)) (hw 1 (by norm_num)) (hw 2 (by norm_num))
    (by norm_num) (by norm_num) (by norm_num) sample_not_skipped
  have hb := bake_single_skipped (normalValue tiltedFlat) tiltedFlat rfl 0 0 512 0 1024 0
    _ _ _ q0 q1 q2 (hv 0 (by norm_num)) (hv 1 (by norm_num)) (hv 2 (by norm_num))
    (by norm_num) (by norm_num) (by norm_num) flat_skipped
  refine ⟨a, _, ha, hb, p0, q0, q1, q2, by rw [hv 0 (by norm_num), hw 0 (by norm_num)],
    flat_skipped, ?_, ?_⟩
  · rw [ha0]
    simp only [truncVec, truncInt]
    norm_num [Int.floor_eq_iff]
  · rw [assign3_px]
    norm_num

/-- C11, amended. Corner exactness: when a single triangle whose three corner pixels
lie in `[0, 1024] x [0, 1024]` and are not collinear is baked on a fresh object, the
weights at the pixel of a corner are 1 for that corner and 0 for the other two, and
after the bake each corner pixel holds the value written for its corner, truncated
toward zero: `trunc(255 * c)` per channel after `outputTexture`, and
`trunc(128 + 128 * n)` after `outputNormal`. -/
theorem C11_corner_pixels_hold_truncated_values (o : AttributedObject R)
    (hlen : o.faceVertices.length / 3 = 1) (x0 y0 x1 y1 x2 y2 : ℤ)
    (hp0 : cornerPixel o 0 = some (x0, y0)) (hp1 : cornerPixel o 1 = some (x1, y1))
    (hp2 : cornerPixel o 2 = some (x2, y2))
    (h0 : 0 ≤ x0 ∧ x0 ≤ 1024 ∧ 0 ≤ y0 ∧ y0 ≤ 1024)
    (h1 : 0 ≤ x1 ∧ x1 ≤ 1024 ∧ 0 ≤ y1 ∧ y1 ≤ 1024)
    (h2 : 0 ≤ x2 ∧ x2 ≤ 1024 ∧ 0 ≤ y2 ∧ y2 ≤ 1024)
    (hnd : area2 x0 y0 x1 y1 x2 y2 ≠ 0) :
    (((edgeSetup x0 y0 x1 y1 x2 y2).alpha x0 y0 = 1 ∧
        (edgeSetup x0 y0 x1 y1 x2 y2).beta x0 y0 = 0 ∧
        (edgeSetup x0 y0 x1 y1 x2 y2).gamma x0 y0 = 0) ∧
      ((edgeSetup x0 y0 x1 y1 x2 y2).alpha x1 y1 = 0 ∧
        (edgeSetup x0 y0 x1 y1 x2 y2).beta x1 y1 = 1 ∧
        (edgeSetup x0 y0 x1 y1 x2 y2).gamma x1 y1 = 0) ∧
      ((edgeSetup x0 y0 x1 y1 x2 y2).alpha x2 y2 = 0 ∧
        (edgeSetup x0 y0 x1 y1 x2 y2).beta x2 y2 = 0 ∧
        (edgeSetup x0 y0 x1 y1 x2 y2).gamma x2 y2 = 1)) ∧
    (∀ k0 k1 k2, colourValue o 0 = some k0 → colourValue o 1 = some k1 →
      colourValue o 2 = some k2 →
      ∃ m1, outputTexture o UVMap.empty = some m1 ∧ m1.px y0 x0 = k0 ∧ m1.px y1 x1 = k1 ∧
        m1.px y2 x2 = k2) ∧
    (∀ k0 k1 k2, normalValue o 0 = some k0 → normalValue o 1 = some k1 →
      normalValue o 2 = some k2 →
      ∃ m1, outputNormal o UVMap.empty = some m1 ∧ m1.px y0 x0 = truncVec k0 ∧
        m1.px y1 x1 = truncVec k1 ∧ m1.px y2 x2 = truncVec k2) := by
  have hns := not_skipped_of_area _ _ _ _ _ _ hnd
  refine ⟨weights_at_corners x0 y0 x1 y1 x2 y2 hns, ?_, ?_⟩
  · intro k0 k1 k2 hk0 hk1 hk2
    obtain ⟨m1, hb, e0, e1, e2⟩ := bake_single_corners (colourValue o) o hlen x0 y0 x1 y1 x2 y2
      k0 k1 k2 hp0 hp1 hp2 hk0 hk1 hk2 h0 h1 h2 hns
    rw [colourValue_whole o _ k0 hk0] at e0
    rw [colourValue_whole o _ k1 hk1] at e1
    rw [colourValue_whole o _ k2 hk2] at e2
    exact ⟨m1, hb, e0, e1, e2⟩
  · intro k0 k1 k2 hk0 hk1 hk2
    exact bake_single_corners (normalValue o) o hlen x0 y0 x1 y1 x2 y2
      k0 k1 k2 hp0 hp1 hp2 hk0 hk1 hk2 h0 h1 h2 hns

/-- C11, amended, instantiated at the mesh `rgbTriangle`: after `outputTexture` the
three corner pixels are red, green and blue. -/
theorem C11_witness :
    ∃ m1, outputTexture rgbTriangle UVMap.empty = some m1 ∧ m1.px 0 0 = ⟨255, 0, 0⟩ ∧
      m1.px 0 1024 = ⟨0, 255, 0⟩ ∧ m1.px 1024 0 = ⟨0, 0, 255⟩ :=
  (C11_corner_pixels_hold_truncated_values rgbTriangle rfl 0 0 1024 0 0 1024
    (by simp [cornerPixel, rgbTriangle, bakeMesh, sampleTex, truncInt])
    (by simp [cornerPixel, rgbTriangle, bakeMesh, sampleTex, truncInt])
    (by simp [cornerPixel, rgbTriangle, bakeMesh, sampleTex, truncInt])
    (by norm_num) (by norm_num) (by norm_num) (by norm_num [area2])).2.1
    ⟨255, 0, 0⟩ ⟨0, 255, 0⟩ ⟨0, 0, 255⟩
    (by simp [colourValue, rgbTriangle, bakeMesh, truncInt])
    (by simp [colourValue, rgbTriangle, bakeMesh, truncInt])
    (by simp [colourValue, rgbTriangle, bakeMesh, truncInt])

/-- C12, refuted as stated: the three corners of the mesh `pointTriangle` have the
one pixel (0,0); that pixel is (0,0,0) in the initialised raster and (255,0,0) after
`outputTexture`. -/
theorem C12_counterexample :
    cornerPixel pointTriangle 0 = some (0, 0) ∧ cornerPixel pointTriangle 1 = some (0, 0) ∧
    cornerPixel pointTriangle 2 = some (0, 0) ∧
    UVMap.empty.initialise.px 0 0 = ⟨0, 0, 0⟩ ∧
    ∃ m1, outputTexture pointTriangle UVMap.empty = some m1 ∧ m1.px 0 0 = ⟨255, 0, 0⟩ := by
  have p : ∀ j, j < 3 → cornerPixel pointTriangle j = some (0, 0) := by
    intro j hj
    have : j = 0 ∨ j = 1 ∨ j = 2 := by omega
    rcases this with rfl | rfl | rfl <;>
      simp [cornerPixel, pointTriangle, bakeMesh, sampleTex, truncInt]
  have k : ∀ j, j < 3 → colourValue pointTriangle j = some ⟨255, 0, 0⟩ := by
    intro j hj
    have : j = 0 ∨ j = 1 ∨ j = 2 := by omega
    rcases this with rfl | rfl | rfl <;> simp [colourValue, pointTriangle, bakeMesh, truncInt]
  have hs : (edgeSetup (0 : ℤ) (0 : ℤ) (0 : ℤ) (0 : ℤ) (0 : ℤ) (0 : ℤ)).skipped = true := by
    rw [skipped_iff]; norm_num [area2]
  have hb := bake_single_skipped (colourValue pointTriangle) pointTriangle rfl 0 0 0 0 0 0
    _ _ _ (p 0 (by norm_num)) (p 1 (by norm_num)) (p 2 (by norm_num))
    (k 0 (by norm_num)) (k 1 (by norm_num)) (k 2 (by norm_num))
    (by norm_num) (by norm_num) (by norm_num) hs
  refine ⟨p 0 (by norm_num), p 1 (by norm_num), p 2 (by norm_num),
    UVMap.initialise_empty.2.2 0 0, _, hb, ?_⟩
  rw [assign3_px]
  norm_num

/-- C12, amended. Degenerate skip: in the pass of the bake for a triangle whose three
corners have one pixel `(x, y)` of `[0, 1024] x [0, 1024]`, `drawTriangle` writes no
pixel, but the three corner values are assigned to that pixel in turn before it is
called: the pass makes no out-of-range access, the pixel `(x, y)` ends up holding the
value of the third corner, and every other pixel of the raster is as it was. -/
theorem C12_identical_corners_write_one_pixel (value : Nat → Option Cartesian3)
    (o : AttributedObject R) (m : UVMap) (hm : m.Roomy) (i : Nat) (x y : ℤ)
    (k0 k1 k2 : Cartesian3)
    (hp0 : cornerPixel o (i * 3) = some (x, y)) (hp1 : cornerPixel o (i * 3 + 1) = some (x, y))
    (hp2 : cornerPixel o (i * 3 + 2) = some (x, y))
    (hk0 : value (i * 3) = some k0) (hk1 : value (i * 3 + 1) = some k1)
    (hk2 : value (i * 3 + 2) = some k2)
    (hb : 0 ≤ x ∧ x ≤ 1024 ∧ 0 ≤ y ∧ y ≤ 1024) :
    (∀ m0 : UVMap, m0.rows ≠ 0 → drawTriangle m0 x y x y x y = some m0) ∧
    ∃ m1, bakeTriangle value o m i = some m1 ∧ m1.rows = m.rows ∧ m1.cols = m.cols ∧
      m1.px y x = k2 ∧ ∀ v u, ¬ (v = y ∧ u = x) → m1.px v u = m.px v u := by
  have hs : (edgeSetup x y x y x y).skipped = true := by
    rw [skipped_iff]; unfold area2; ring
  refine ⟨fun m0 h0 => drawTriangle_skipped m0 x y x y x y h0 hs, ?_⟩
  obtain ⟨m1, e1, hr, hc, _, hsk, _⟩ := bakeTriangle_spec value o m hm i x y x y x y k0 k1 k2
    hp0 hp1 hp2 hk0 hk1 hk2 hb hb hb
  refine ⟨m1, e1, hr, hc, ?_, ?_⟩
  · rw [hsk hs, assign3_px, if_pos ⟨rfl, rfl⟩]
  · intro v u hne
    rw [hsk hs, assign3_px, if_neg hne, if_neg hne, if_neg hne]

/-- C12, amended, instantiated at the mesh `pointTriangle`, the colour values and the
initialised raster. -/
theorem C12_witness :
    ∃ m1, bakeTriangle (colourValue pointTriangle) pointTriangle UVMap.empty.initialise 0 =
        some m1 ∧ m1.px 0 0 = ⟨255, 0, 0⟩ ∧ m1.px 5 7 = ⟨0, 0, 0⟩ := by
  obtain ⟨m1, e1, _, _, hpx, hfr⟩ := (C12_identical_corners_write_one_pixel
    (colourValue pointTriangle) pointTriangle UVMap.empty.initialise
    UVMap.initialise_roomy_empty 0 0 0 ⟨255, 0, 0⟩ ⟨255, 0, 0⟩ ⟨255, 0, 0⟩
    (by simp [cornerPixel, pointTriangle, bakeMesh, sampleTex, truncInt])
    (by simp [cornerPixel, pointTriangle, bakeMesh, sampleTex, truncInt])
    (by simp [cornerPixel, pointTriangle, bakeMesh, sampleTex, truncInt])
    (by simp [colourValue, pointTriangle, bakeMesh, truncInt])
    (by simp [colourValue, pointTriangle, bakeMesh, truncInt])
    (by simp [colourValue, pointTriangle, bakeMesh, truncInt])
    (by norm_num)).2
  refine ⟨m1, e1, hpx, ?_⟩
  rw [hfr 5 7 (by norm_num)]
  exact UVMap.initialise_empty.2.2 5 7

end AttributedObject

namespace AttributedObject

variable {R : Type}

theorem initialise_inside_square (v u : ℤ) (h : UVMap.empty.initialise.inside v u) :
    0 ≤ u ∧ u ≤ 1024 ∧ 0 ≤ v ∧ v ≤ 1024 := by
  obtain ⟨h1, h2, h3, h4⟩ := h
  have hr := UVMap.initialise_empty.1
  have hc := UVMap.initialise_empty.2.1 v h1 h2
  rw [hr] at h2
  rw [hc] at h4
  have a : v < 1025 := by exact_mod_cast h2
  have b : u < 1025 := by exact_mod_cast h4
  omega

/-- C17, refuted as stated: after `outputTexture` on the mesh `rgbTriangle` the pixel
with `u = 1024`, `v = 0`, which is (0,0,0) in the initialised raster, holds
(0,255,0), so a pixel with a coordinate outside `[0, 1023]` is written; and on the
mesh `outsideTriangle`, whose first corner has the pixel `u = 2048`, `outputTexture`
makes an out-of-range access instead of rasterising the part inside the raster. -/
theorem C17_counterexample :
    (∃ m1, outputTexture rgbTriangle UVMap.empty = some m1 ∧
      UVMap.empty.initialise.px 0 1024 = ⟨0, 0, 0⟩ ∧ m1.px 0 1024 = ⟨0, 255, 0⟩) ∧
    cornerPixel outsideTriangle 0 = some (2048, 0) ∧
    outputTexture outsideTriangle UVMap.empty = none := by
  have hp : cornerPixel outsideTriangle 0 = some (2048, 0) := by
    simp [cornerPixel, outsideTriangle, bakeMesh, truncInt]
    norm_num
  refine ⟨?_, hp, ?_⟩
  · obtain ⟨m1, hb, _, e1, _⟩ := bake_single_corners (colourValue rgbTriangle) rgbTriangle
      rfl 0 0 1024 0 0 1024 ⟨255, 0, 0⟩ ⟨0, 255, 0⟩ ⟨0, 0, 255⟩
      (by simp [cornerPixel, rgbTriangle, bakeMesh, sampleTex, truncInt])
      (by simp [cornerPixel, rgbTriangle, bakeMesh, sampleTex, truncInt])
      (by simp [cornerPixel, rgbTriangle, bakeMesh, sampleTex, truncInt])
      (by simp [colourValue, rgbTriangle, bakeMesh, truncInt])
      (by simp [colourValue, rgbTriangle, bakeMesh, truncInt])
      (by simp [colourValue, rgbTriangle, bakeMesh, truncInt])
      (by norm_num) (by norm_num) (by norm_num) sample_not_skipped
    refine ⟨m1, hb, UVMap.initialise_empty.2.2 0 1024, ?_⟩
    rw [e1]
    simp only [truncVec, truncInt]
    norm_num
  · exact bake_first_outside (colourValue outsideTriangle) outsideTriangle UVMap.empty
      (2048, 0) (by decide) hp (fun hin => by
        have := initialise_inside_square 0 2048 hin
        omega)

/-- C17, amended. Bounding-box clamp: the raster has 1025 rows of 1025 entries; for
a conventional mesh `outputTexture` returns, and every pixel the call writes has both
coordinates in `[0, 1024]` (a pixel outside holds what the initialised raster held).
A corner pixel outside the raster is an out-of-range access: when the first corner of
the first triangle has one, neither `outputTexture` nor `outputNormal` returns a
raster. -/
theorem C17_writes_stay_in_the_raster (o : AttributedObject R) :
    (o.Conventional → ∃ m1, outputTexture o UVMap.empty = some m1 ∧ m1.rows = 1025 ∧
      m1.Rect 1025 ∧
      ∀ v u, ¬ (0 ≤ v ∧ v ≤ 1024 ∧ 0 ≤ u ∧ u ≤ 1024) →
        m1.px v u = UVMap.empty.initialise.px v u) ∧
    (∀ p : ℤ × ℤ, 3 ≤ o.faceVertices.length → cornerPixel o 0 = some p →
      ¬ (0 ≤ p.1 ∧ p.1 ≤ 1024 ∧ 0 ≤ p.2 ∧ p.2 ≤ 1024) →
      outputTexture o UVMap.empty = none ∧ outputNormal o UVMap.empty = none) := by
  constructor
  · intro h
    obtain ⟨m1, hf, hr, hrows, _, hfr⟩ := bakeLoop_spec (colourValue o) o (BakeReady.colour o h)
      UVMap.empty.initialise UVMap.initialise_roomy_empty (o.faceVertices.length / 3) le_rfl
    exact ⟨m1, hf, by rw [hrows, UVMap.initialise_empty.1], hr.2, hfr⟩
  · intro p hlen hp hout
    have hni : ¬ UVMap.empty.initialise.inside p.2 p.1 :=
      fun hin => hout (initialise_inside_square p.2 p.1 hin)
    exact ⟨bake_first_outside (colourValue o) o UVMap.empty p hlen hp hni,
      bake_first_outside (normalValue o) o UVMap.empty p hlen hp hni⟩

/-- C17, amended, instantiated at the mesh `rgbTriangle`: the pixel with `v = 1025`,
`u = 3` is (0,0,0) after `outputTexture`. -/
theorem C17_witness :
    ∃ m1, outputTexture rgbTriangle UVMap.empty = some m1 ∧ m1.px 1025 3 = ⟨0, 0, 0⟩ := by
  obtain ⟨m1, hb, _, _, hfr⟩ :=
    (C17_writes_stay_in_the_raster rgbTriangle).1 rgbTriangle_conventional
  refine ⟨m1, hb, ?_⟩
  rw [hfr 1025 3 (by norm_num)]
  exact UVMap.initialise_empty.2.2 1025 3

end AttributedObject

namespace IStream

theorem getlineLoop_long (rest : List Char) :
    ∀ (body : List Char), (∀ c ∈ body, c ≠ '\n') → ∀ k, k ≤ body.length →
      getlineLoop k (body ++ rest) = body.drop k ++ rest := by
  intro body
  induction body with
  | nil =>
    intro _ k hk
    have : k = 0 := by simpa using hk
    subst this
    rfl
  | cons c body ih =>
    intro hb k hk
    cases k with
    | zero => rfl
    | succ k =>
      have hc : c ≠ '\n' := hb c (by simp)
      simp only [List.cons_append, getlineLoop, hc, if_false, List.drop_succ_cons]
      exact ih (fun x hx => hb x (by simp [hx])) k (by simpa using hk)

/-- A line of 1024 or more characters makes `getline(buffer, 1024)` set `failbit`:
it extracts 1023 characters and the next one is not the newline. -/
theorem getline_long (body rest : List Char) (hb : ∀ c ∈ body, c ≠ '\n')
    (hlen : 1024 ≤ body.length) :
    ((ofList (body ++ rest)).getline 1024).failbit = true ∧
    ((ofList (body ++ rest)).getline 1024).eofbit = false := by
  have h := getlineLoop_long rest body hb 1023 (by omega)
  cases hd : body.drop 1023 with
  | nil =>
    have := congrArg List.length hd
    simp at this
    omega
  | cons c tl =>
    have hc : c ≠ '\n' := hb c (List.mem_of_mem_drop (by rw [hd]; simp))
    rw [hd] at h
    simp [getline, ofList, good, h, hc]

end IStream

namespace AttributedObject

variable {R : Type}

/-- A comment line of 1024 or more characters leaves the stream with `failbit` set
and `eofbit` clear, and the read loop never ends. -/
theorem readLoop_long_comment (uninit : FaceIDs) (o : AttributedObject R)
    (body rest : List Char) (hb : ∀ c ∈ body, c ≠ '\n') (hlen : 1024 ≤ body.length)
    (fuel : Nat) :
    readLoop uninit fuel (IStream.ofList ('#' :: (body ++ rest))) o = none := by
  cases fuel with
  | zero => rfl
  | succ fuel =>
    have h := IStream.getline_long body rest hb hlen
    simp only [IStream.ofList] at h
    have hp : readPass uninit (IStream.ofList ('#' :: (body ++ rest))) o =
        (true, (IStream.ofList (body ++ rest)).getline 1024, o) := by
      simp [readPass, readSwitch, IStream.get, IStream.good, IStream.ofList,
        MAXIMUM_LINE_LENGTH]
    rw [readLoop, hp]
    simp only [if_true]
    exact readLoop_failed uninit _ o (by simpa [IStream.ofList] using h.1)
      (by simpa [IStream.ofList] using h.2) fuel

end AttributedObject

namespace AttributedObject

variable {R : Type}

/-- C18. The raster is the member `uvMap`, which a bake call extends and never
clears: after `outputTexture` on a fresh object with the mesh `rgbTriangle` it has
1025 rows, and `outputNormal` on the same object then works on a raster of 2050 rows
whose first 1025 still hold the colours; with the face arrays emptied in between,
`outputNormal` leaves the pixel (0,0) at (255,0,0), where the same call on a fresh
object gives (0,0,0). -/
theorem C18_raster_persists_across_bake_calls :
    ∃ m1 m2 m3 m4, outputTexture rgbTriangle UVMap.empty = some m1 ∧ m1.rows = 1025 ∧
      m1.px 0 0 = ⟨255, 0, 0⟩ ∧
      m1.initialise.rows = 2050 ∧ m1.initialise.px 0 0 = ⟨255, 0, 0⟩ ∧
      outputNormal rgbTriangle m1 = some m2 ∧ m2.rows = 2050 ∧
      outputNormal (new (0 : ℚ)) m1 = some m3 ∧ m3.rows = 2050 ∧ m3.px 0 0 = ⟨255, 0, 0⟩ ∧
      outputNormal (new (0 : ℚ)) UVMap.empty = some m4 ∧ m4.rows = 1025 ∧
      m4.px 0 0 = ⟨0, 0, 0⟩ := by
  obtain ⟨m1, hf, hr, hrows, _, _⟩ := bakeLoop_spec (colourValue rgbTriangle) rgbTriangle
    (BakeReady.colour _ rgbTriangle_conventional)
    UVMap.empty.initialise UVMap.initialise_roomy_empty (rgbTriangle.faceVertices.length / 3) le_rfl
  have h1 : outputTexture rgbTriangle UVMap.empty = some m1 := hf
  obtain ⟨a, ha, e0, _, _⟩ := bake_single_corners (colourValue rgbTriangle) rgbTriangle
    rfl 0 0 1024 0 0 1024 ⟨255, 0, 0⟩ ⟨0, 255, 0⟩ ⟨0, 0, 255⟩
    (by simp [cornerPixel, rgbTriangle, bakeMesh, sampleTex, truncInt])
    (by simp [cornerPixel, rgbTriangle, bakeMesh, sampleTex, truncInt])
    (by simp [cornerPixel, rgbTriangle, bakeMesh, sampleTex, truncInt])
    (by simp [colourValue, rgbTriangle, bakeMesh, truncInt])
    (by simp [colourValue, rgbTriangle, bakeMesh, truncInt])
    (by simp [colourValue, rgbTriangle, bakeMesh, truncInt])
    (by norm_num) (by norm_num) (by norm_num) sample_not_skipped
  have hma : a = m1 := by
    have : some a = some m1 := by rw [← ha]; exact h1
    exact Option.some.inj this
  subst hma
  have hrow1 : a.rows = 1025 := by rw [hrows, UVMap.initialise_empty.1]
  have hpx : a.px 0 0 = ⟨255, 0, 0⟩ := by
    rw [e0]
    simp only [truncVec, truncInt]
    norm_num
  obtain ⟨hri, hrowsi, hpxi⟩ := UVMap.initialise_roomy a hr
  have hpi : a.initialise.px 0 0 = ⟨255, 0, 0⟩ := by
    rw [hpxi 0 0 (by rw [hrow1]; norm_num), hpx]
  have hnormal : ∀ i ∈ rgbTriangle.faceNormals, i < rgbTriangle.normals.length := by decide
  obtain ⟨m2, hf2, _, hrows2, _, _⟩ := bakeLoop_spec (normalValue rgbTriangle) rgbTriangle
    (BakeReady.normal _ rgbTriangle_conventional hnormal)
    a.initialise hri (rgbTriangle.faceVertices.length / 3) le_rfl
  refine ⟨a, m2, a.initialise, UVMap.empty.initialise, h1, hrow1, hpx, by rw [hrowsi, hrow1],
    hpi, hf2, by rw [hrows2, hrowsi, hrow1],
    bake_no_triangle _ _ _ (by decide), by rw [hrowsi, hrow1], hpi,
    bake_no_triangle _ _ _ (by decide), UVMap.initialise_empty.1,
    UVMap.initialise_empty.2.2 0 0⟩

/-- C19, refuted as stated: the stream of a `vc` line, a `vt` line and an `f` line
has no position line; loaded into a fresh object it gives an object without positions
whose bake is not all zero: after `outputTexture` the pixel (0,0) holds (255,0,0). -/
theorem C19_counterexample :
    ReadObjectStream (R := ℚ) (fun v => v.normSq) ⟨0, 0, 0, 0⟩ 40
        (IStream.ofList "vc 1 0 0\nvt 0 1 0\nf 1/1/1/1 1/1/1/1 1/1/1/1\n".toList) (new 0) =
      some (true, ⟨[], true, true⟩,
        bakeMesh [⟨0, 1, 0⟩] [⟨1, 0, 0⟩] [] [0, 0, 0] [0, 0, 0] [0, 0, 0]) ∧
    (bakeMesh [⟨0, 1, 0⟩] [⟨1, 0, 0⟩] [] [0, 0, 0] [0, 0, 0] [0, 0, 0]).vertices = [] ∧
    ∃ m1, outputTexture (bakeMesh [⟨0, 1, 0⟩] [⟨1, 0, 0⟩] [] [0, 0, 0] [0, 0, 0] [0, 0, 0])
        UVMap.empty = some m1 ∧ m1.px 0 0 = ⟨255, 0, 0⟩ := by
  refine ⟨by decide!, rfl, ?_⟩
  have p : ∀ j, j < 3 → cornerPixel
      (bakeMesh [⟨0, 1, 0⟩] [⟨1, 0, 0⟩] [] [0, 0, 0] [0, 0, 0] [0, 0, 0]) j = some (0, 0) := by
    intro j hj
    have : j = 0 ∨ j = 1 ∨ j = 2 := by omega
    rcases this with rfl | rfl | rfl <;> simp [cornerPixel, bakeMesh, truncInt]
  have k : ∀ j, j < 3 → colourValue
      (bakeMesh [⟨0, 1, 0⟩] [⟨1, 0, 0⟩] [] [0, 0, 0] [0, 0, 0] [0, 0, 0]) j =
      some ⟨255, 0, 0⟩ := by
    intro j hj
    have : j = 0 ∨ j = 1 ∨ j = 2 := by omega
    rcases this with rfl | rfl | rfl <;> simp [colourValue, bakeMesh, truncInt]
  have hs : (edgeSetup (0 : ℤ) (0 : ℤ) (0 : ℤ) (0 : ℤ) (0 : ℤ) (0 : ℤ)).skipped = true := by
    rw [skipped_iff]; norm_num [area2]
  have hb := bake_single_skipped (colourValue _)
    (bakeMesh [⟨0, 1, 0⟩] [⟨1, 0, 0⟩] [] [0, 0, 0] [0, 0, 0] [0, 0, 0]) rfl 0 0 0 0 0 0
    _ _ _ (p 0 (by norm_num)) (p 1 (by norm_num)) (p 2 (by norm_num))
    (k 0 (by norm_num)) (k 1 (by norm_num)) (k 2 (by norm_num))
    (by norm_num) (by norm_num) (by norm_num) hs
  refine ⟨_, hb, ?_⟩
  rw [assign3_px]
  norm_num

/-- C19, amended. Empty mesh: for every object whose face arrays hold no triangle
(`faceVertices` has fewer than three entries), `outputTexture` and `outputNormal` on a
fresh raster return the all-zero raster of 1025 rows; the bake does not read the
positions, the centre of gravity or the object size, so they have no influence on the
raster. -/
theorem C19_no_triangle_bakes_zero (o : AttributedObject R)
    (h : o.faceVertices.length < 3) :
    (∃ m1, outputTexture o UVMap.empty = some m1 ∧ outputNormal o UVMap.empty = some m1 ∧
      m1.rows = 1025 ∧ ∀ v u, m1.px v u = ⟨0, 0, 0⟩) ∧
    (∀ (q : AttributedObject R) (m : UVMap) (vs : List Cartesian3) (c : Cartesian3) (size : R),
      outputTexture { q with vertices := vs, centreOfGravity := c, objectSize := size } m =
        outputTexture q m ∧
      outputNormal { q with vertices := vs, centreOfGravity := c, objectSize := size } m =
        outputNormal q m) :=
  ⟨⟨UVMap.empty.initialise, bake_no_triangle _ o _ h, bake_no_triangle _ o _ h,
    UVMap.initialise_empty.1, UVMap.initialise_empty.2.2⟩, fun _ _ _ _ _ => ⟨rfl, rfl⟩⟩

/-- C19, amended, instantiated at the object loaded from the stream of a `vc` line
and a `vt` line, which has no face. -/
theorem C19_witness :
    ReadObjectStream (R := ℚ) (fun v => v.normSq) ⟨0, 0, 0, 0⟩ 40
        (IStream.ofList "vc 1 0 0\nvt 0 1 0\n".toList) (new 0) =
      some (true, ⟨[], true, true⟩, bakeMesh [⟨0, 1, 0⟩] [⟨1, 0, 0⟩] [] [] [] []) ∧
    ∃ m1, outputTexture (bakeMesh [⟨0, 1, 0⟩] [⟨1, 0, 0⟩] [] [] [] []) UVMap.empty = some m1 ∧
      ∀ v u, m1.px v u = ⟨0, 0, 0⟩ := by
  refine ⟨by decide!, ?_⟩
  obtain ⟨m1, h1, _, _, hz⟩ := (C19_no_triangle_bakes_zero
    (bakeMesh [⟨0, 1, 0⟩] [⟨1, 0, 0⟩] [] [] [] []) (by decide)).1
  exact ⟨m1, h1, hz⟩

/-- C20. `ReadObjectStream` does not terminate on every finite input: on the stream
`v a b c` the malformed float sets `failbit`, and on a comment line of 1024 or more
characters `getline` sets `failbit`; after that every `get()` fails without setting
`eofbit`, so the read loop has not ended after any number of passes. -/
theorem C20_read_loop_never_ends_after_failbit :
    (∀ fuel, ReadObjectStream (R := ℚ) (fun v => v.normSq) ⟨0, 0, 0, 0⟩ fuel
        (IStream.ofList "v a b c\n".toList) (new 0) = none) ∧
    (∀ (uninit : FaceIDs) (o : AttributedObject ℚ) (body rest : List Char) (fuel : Nat),
      (∀ c ∈ body, c ≠ '\n') → 1024 ≤ body.length →
      ReadObjectStream (fun v => v.normSq) uninit fuel
        (IStream.ofList ('#' :: (body ++ rest))) o = none) ∧
    (∀ fuel, ReadObjectStream (R := ℚ) (fun v => v.normSq) ⟨0, 0, 0, 0⟩ fuel
        (IStream.ofList ('#' :: (List.replicate 1024 'x' ++ ['\n']))) (new 0) = none) := by
  have hlong : ∀ (uninit : FaceIDs) (o : AttributedObject ℚ) (body rest : List Char)
      (fuel : Nat), (∀ c ∈ body, c ≠ '\n') → 1024 ≤ body.length →
      ReadObjectStream (fun v => v.normSq) uninit fuel
        (IStream.ofList ('#' :: (body ++ rest))) o = none := by
    intro uninit o body rest fuel hb hlen
    unfold ReadObjectStream
    rw [readLoop_long_comment uninit o body rest hb hlen fuel]
  refine ⟨?_, hlong, ?_⟩
  · intro fuel
    cases fuel with
    | zero => rfl
    | succ fuel =>
      have hp : readPass (R := ℚ) ⟨0, 0, 0, 0⟩ (IStream.ofList "v a b c\n".toList) (new 0) =
          (true, ⟨"a b c\n".toList, true, false⟩,
            { new (0 : ℚ) with vertices := [⟨0, 0, 0⟩] }) := by
        decide
      unfold ReadObjectStream
      rw [readLoop, hp]
      simp only [if_true]
      rw [readLoop_failed _ _ _ rfl rfl]
  · intro fuel
    exact hlong _ _ _ _ fuel (fun c hc => by
      rw [List.eq_of_mem_replicate hc]; decide) (by simp)

end AttributedObject

namespace AttributedObject

variable {R : Type}

/-- The pass of the bake for a triangle of an object that is ready to bake returns,
keeps the sizes, and changes no pixel that the triangle does not touch. -/
theorem bakeTriangle_ready (value : Nat → Option Cartesian3) (o : AttributedObject R)
    (h : BakeReady value o) (m : UVMap) (hm : m.Roomy) (i : Nat)
    (hi : i < o.faceVertices.length / 3) :
    ∃ m1, bakeTriangle value o m i = some m1 ∧ m1.rows = m.rows ∧ m1.cols = m.cols ∧
      ∀ v u, ¬ Touches o i u v → m1.px v u = m.px v u := by
  obtain ⟨x0, y0, x1, y1, x2, y2, k0, k1, k2, hp0, hp1, hp2, hk0, hk1, hk2, h0, h1, h2⟩ :=
    BakeReady.triangle value o h i hi
  obtain ⟨m1, e1, hr, hc, _, hsk, hns⟩ := bakeTriangle_spec value o m hm i x0 y0 x1 y1 x2 y2
    k0 k1 k2 hp0 hp1 hp2 hk0 hk1 hk2 h0 h1 h2
  refine ⟨m1, e1, hr, hc, ?_⟩
  intro v u hnt
  have c0 : ¬ (v = y0 ∧ u = x0) := fun hh =>
    hnt ⟨x0, y0, x1, y1, x2, y2, hp0, hp1, hp2, Or.inl ⟨hh.2, hh.1⟩⟩
  have c1 : ¬ (v = y1 ∧ u = x1) := fun hh =>
    hnt ⟨x0, y0, x1, y1, x2, y2, hp0, hp1, hp2, Or.inr (Or.inl ⟨hh.2, hh.1⟩)⟩
  have c2 : ¬ (v = y2 ∧ u = x2) := fun hh =>
    hnt ⟨x0, y0, x1, y1, x2, y2, hp0, hp1, hp2, Or.inr (Or.inr (Or.inl ⟨hh.2, hh.1⟩))⟩
  have ha : (((m.assign y0 x0 k0).assign y1 x1 k1).assign y2 x2 k2).px v u = m.px v u := by
    rw [assign3_px, if_neg c2, if_neg c1, if_neg c0]
  by_cases hs : (edgeSetup x0 y0 x1 y1 x2 y2).skipped = true
  · rw [hsk hs]; exact ha
  · have hs1 : (edgeSetup x0 y0 x1 y1 x2 y2).skipped = false := by simpa using hs
    have hnp : ¬ (edgeSetup x0 y0 x1 y1 x2 y2).passes u v = true := fun hp =>
      hnt ⟨x0, y0, x1, y1, x2, y2, hp0, hp1, hp2, Or.inr (Or.inr (Or.inr ⟨hs1, hp⟩))⟩
    rw [(hns hs1).1 v u hnp]; exact ha

/-- Passes of the bake for triangles that do not touch the pixel `(u, v)` leave it as
it was. -/
theorem bakeTail_untouched (value : Nat → Option Cartesian3) (o : AttributedObject R)
    (h : BakeReady value o) (m : UVMap) (hm : m.Roomy) (u v : ℤ) (l : List Nat)
    (hl : ∀ j ∈ l, j < o.faceVertices.length / 3 ∧ ¬ Touches o j u v) :
    ∃ m1, foldOpt (bakeTriangle value o) m l = some m1 ∧ m1.px v u = m.px v u := by
  obtain ⟨m1, hf, hP⟩ := foldOpt_inv (bakeTriangle value o)
    (fun a => a.rows = m.rows ∧ a.cols = m.cols ∧ a.px v u = m.px v u)
    (fun j => j < o.faceVertices.length / 3 ∧ ¬ Touches o j u v)
    (fun a j hj ha => by
      obtain ⟨a1, e1, r1, c1, f1⟩ := bakeTriangle_ready value o h a
        (UVMap.Roomy.of_dims m a hm ha.1 ha.2.1) j hj.1
      exact ⟨a1, e1, by rw [r1, ha.1], by rw [c1, ha.2.1], by rw [f1 v u hj.2, ha.2.2]⟩)
    l hl m ⟨rfl, rfl, rfl⟩
  exact ⟨m1, hf, hP.2.2⟩

/-- The bake of an object that is ready to bake, seen from any of its triangles:
`mi` is the raster when the triangles up to `i` have been processed, `m1` the raster
at the end. -/
theorem bake_triangle_spec (value : Nat → Option Cartesian3) (o : AttributedObject R)
    (h : BakeReady value o) (m : UVMap) (hm : m.initialise.Roomy) (i : Nat)
    (hi : i < o.faceVertices.length / 3) (x0 y0 x1 y1 x2 y2 : ℤ) (k0 k1 k2 : Cartesian3)
    (hp0 : cornerPixel o (i * 3) = some (x0, y0))
    (hp1 : cornerPixel o (i * 3 + 1) = some (x1, y1))
    (hp2 : cornerPixel o (i * 3 + 2) = some (x2, y2))
    (hk0 : value (i * 3) = some k0) (hk1 : value (i * 3 + 1) = some k1)
    (hk2 : value (i * 3 + 2) = some k2) :
    ∃ mi m1, foldOpt (bakeTriangle value o) m.initialise (List.range (i + 1)) = some mi ∧
      bake value o m = some m1 ∧ m1.rows = m.initialise.rows ∧
      ((edgeSetup x0 y0 x1 y1 x2 y2).skipped = false →
        ∀ v u, (edgeSetup x0 y0 x1 y1 x2 y2).passes u v = true →
          BlendOf k0 k1 k2 (edgeSetup x0 y0 x1 y1 x2 y2) u v (mi.px v u)) ∧
      (∀ v u, (∀ j, i < j → j < o.faceVertices.length / 3 → ¬ Touches o j u v) →
        m1.px v u = mi.px v u) := by
  obtain ⟨mp, hf, hr, hrows, hcols, _⟩ := bakeLoop_spec value o h m.initialise hm i (by omega)
  obtain ⟨a0, a1, a2, a3, a4, a5, j0, j1, j2, q0, q1, q2, r0, r1, r2, b0, b1, b2⟩ :=
    BakeReady.triangle value o h i hi
  rw [hp0] at q0; rw [hp1] at q1; rw [hp2] at q2
  rw [hk0] at r0; rw [hk1] at r1; rw [hk2] at r2
  simp only [Option.some.injEq, Prod.mk.injEq] at q0 q1 q2 r0 r1 r2
  obtain ⟨rfl, rfl⟩ := q0
  obtain ⟨rfl, rfl⟩ := q1
  obtain ⟨rfl, rfl⟩ := q2
  subst r0 r1 r2
  obtain ⟨mi, e1, rw1, cl1, _, _, s2⟩ := bakeTriangle_spec value o mp hr i x0 y0 x1 y1 x2 y2
    k0 k1 k2 hp0 hp1 hp2 hk0 hk1 hk2 b0 b1 b2
  have hmi : foldOpt (bakeTriangle value o) m.initialise (List.range (i + 1)) = some mi := by
    rw [List.range_succ, foldOpt_append, hf]
    simp only [foldOpt, e1]
  have hmir : mi.Roomy := UVMap.Roomy.of_dims mp mi hr rw1 cl1
  obtain ⟨m1, hf1, _, hrows1, _, _⟩ := bakeLoop_spec value o h m.initialise hm
    (o.faceVertices.length / 3) le_rfl
  have hsplit : o.faceVertices.length / 3 =
      (i + 1) + (o.faceVertices.length / 3 - (i + 1)) := by omega
  have hf2 := hf1
  rw [hsplit, List.range_add, foldOpt_append, hmi] at hf2
  simp only [] at hf2
  refine ⟨mi, m1, hmi, hf1, hrows1, fun hns v u hp => (s2 hns).2 v u hp, ?_⟩
  intro v u hlater
  obtain ⟨m2, hm2, hpx⟩ := bakeTail_untouched value o h mi hmir u v
    ((List.range (o.faceVertices.length / 3 - (i + 1))).map (fun x => i + 1 + x))
    (fun j hj => by
      rw [List.mem_map] at hj
      obtain ⟨x, hx, rfl⟩ := hj
      rw [List.mem_range] at hx
      exact ⟨by omega, hlater _ (by omega) (by omega)⟩)
  rw [hm2] at hf2
  rw [← Option.some.inj hf2]
  exact hpx

end AttributedObject

namespace AttributedObject

variable {R : Type}

/-- The truncated blend of three whole corner values, with weights that are not
negative and sum to 1, lies per channel between the least and the greatest of them. -/
theorem truncBlend_between (k0 k1 k2 : Cartesian3) (t0 : truncVec k0 = k0)
    (t1 : truncVec k1 = k1) (t2 : truncVec k2 = k2) (a b c : ℚ) (ha : 0 ≤ a) (hb : 0 ≤ b)
    (hc : 0 ≤ c) (hs : a + b + c = 1) :
    (min k0.x (min k1.x k2.x) ≤ (truncVec (blend k0 k1 k2 a b c)).x ∧
      (truncVec (blend k0 k1 k2 a b c)).x ≤ max k0.x (max k1.x k2.x)) ∧
    (min k0.y (min k1.y k2.y) ≤ (truncVec (blend k0 k1 k2 a b c)).y ∧
      (truncVec (blend k0 k1 k2 a b c)).y ≤ max k0.y (max k1.y k2.y)) ∧
    (min k0.z (min k1.z k2.z) ≤ (truncVec (blend k0 k1 k2 a b c)).z ∧
      (truncVec (blend k0 k1 k2 a b c)).z ≤ max k0.z (max k1.z k2.z)) := by
  have c0 := truncVec_channels k0 t0
  have c1 := truncVec_channels k1 t1
  have c2 := truncVec_channels k2 t2
  exact ⟨channel_between k0.x k1.x k2.x a b c c0.1 c1.1 c2.1 ha hb hc hs,
    channel_between k0.y k1.y k2.y a b c c0.2.1 c1.2.1 c2.2.1 ha hb hc hs,
    channel_between k0.z k1.z k2.z a b c c0.2.2 c1.2.2 c2.2.2 ha hb hc hs⟩

theorem truncBlend_byte (k0 k1 k2 : Cartesian3) (t0 : truncVec k0 = k0)
    (t1 : truncVec k1 = k1) (t2 : truncVec k2 = k2) (r0 : InByteRange k0)
    (r1 : InByteRange k1) (r2 : InByteRange k2) (a b c : ℚ) (ha : 0 ≤ a) (hb : 0 ≤ b)
    (hc : 0 ≤ c) (hs : a + b + c = 1) : InByteRange (truncVec (blend k0 k1 k2 a b c)) := by
  obtain ⟨bx, by1, bz⟩ := truncBlend_between k0 k1 k2 t0 t1 t2 a b c ha hb hc hs
  exact ⟨⟨le_trans (le_min r0.1.1 (le_min r1.1.1 r2.1.1)) bx.1,
      le_trans bx.2 (max_le r0.1.2 (max_le r1.1.2 r2.1.2))⟩,
    ⟨le_trans (le_min r0.2.1.1 (le_min r1.2.1.1 r2.2.1.1)) by1.1,
      le_trans by1.2 (max_le r0.2.1.2 (max_le r1.2.1.2 r2.2.1.2))⟩,
    ⟨le_trans (le_min r0.2.2.1 (le_min r1.2.2.1 r2.2.2.1)) bz.1,
      le_trans bz.2 (max_le r0.2.2.2 (max_le r1.2.2.2 r2.2.2.2))⟩⟩

/-- The pass of the colour bake for one triangle keeps every pixel in `[0, 255]` when
the colours have components in `[0, 1]`. -/
theorem bakeTriangle_byte (o : AttributedObject R) (h : BakeReady (colourValue o) o)
    (hcol : ∀ c ∈ o.colours, 0 ≤ c.x ∧ c.x ≤ 1 ∧ 0 ≤ c.y ∧ c.y ≤ 1 ∧ 0 ≤ c.z ∧ c.z ≤ 1)
    (m : UVMap) (hm : m.Roomy) (hb : ∀ v u, InByteRange (m.px v u)) (i : Nat)
    (hi : i < o.faceVertices.length / 3) :
    ∃ m1, bakeTriangle (colourValue o) o m i = some m1 ∧ m1.rows = m.rows ∧
      m1.cols = m.cols ∧ ∀ v u, InByteRange (m1.px v u) := by
  obtain ⟨x0, y0, x1, y1, x2, y2, k0, k1, k2, hp0, hp1, hp2, hk0, hk1, hk2, h0, h1, h2⟩ :=
    BakeReady.triangle (colourValue o) o h i hi
  obtain ⟨m1, e1, hr, hc, _, hsk, hns⟩ := bakeTriangle_spec (colourValue o) o m hm i
    x0 y0 x1 y1 x2 y2 k0 k1 k2 hp0 hp1 hp2 hk0 hk1 hk2 h0 h1 h2
  have r0 : InByteRange k0 := colourValue_range o hcol _ k0 hk0
  have r1 : InByteRange k1 := colourValue_range o hcol _ k1 hk1
  have r2 : InByteRange k2 := colourValue_range o hcol _ k2 hk2
  have ha : ∀ v u,
      InByteRange ((((m.assign y0 x0 k0).assign y1 x1 k1).assign y2 x2 k2).px v u) := by
    intro v u
    rw [assign3_px]
    by_cases c2 : v = y2 ∧ u = x2
    · rw [if_pos c2]; exact r2
    · rw [if_neg c2]
      by_cases c1 : v = y1 ∧ u = x1
      · rw [if_pos c1]; exact r1
      · rw [if_neg c1]
        by_cases c0 : v = y0 ∧ u = x0
        · rw [if_pos c0]; exact r0
        · rw [if_neg c0]; exact hb v u
  refine ⟨m1, e1, hr, hc, ?_⟩
  intro v u
  by_cases hs : (edgeSetup x0 y0 x1 y1 x2 y2).skipped = true
  · rw [hsk hs]; exact ha v u
  · have hs1 : (edgeSetup x0 y0 x1 y1 x2 y2).skipped = false := by simpa using hs
    by_cases hp : (edgeSetup x0 y0 x1 y1 x2 y2).passes u v = true
    · obtain ⟨wa, wb, wc, ws⟩ := weights_of_pass x0 y0 x1 y1 x2 y2 u v hs1 hp
      rw [BlendOf.whole k0 k1 k2 _ u v _ (colourValue_whole o _ k0 hk0)
        (colourValue_whole o _ k1 hk1) (colourValue_whole o _ k2 hk2) ((hns hs1).2 v u hp)]
      exact truncBlend_byte k0 k1 k2 (colourValue_whole o _ k0 hk0)
        (colourValue_whole o _ k1 hk1) (colourValue_whole o _ k2 hk2) r0 r1 r2 _ _ _ wa wb wc ws
    · rw [(hns hs1).1 v u hp]; exact ha v u

/-- After `outputTexture` on a fresh object every pixel of the raster has its
channels in `[0, 255]` when the colours have components in `[0, 1]`. -/
theorem texture_byte_range (o : AttributedObject R) (h : BakeReady (colourValue o) o)
    (hcol : ∀ c ∈ o.colours, 0 ≤ c.x ∧ c.x ≤ 1 ∧ 0 ≤ c.y ∧ c.y ≤ 1 ∧ 0 ≤ c.z ∧ c.z ≤ 1) :
    ∃ m1, outputTexture o UVMap.empty = some m1 ∧ ∀ v u, InByteRange (m1.px v u) := by
  obtain ⟨m1, hf, hP⟩ := foldOpt_inv (bakeTriangle (colourValue o) o)
    (fun a => a.Roomy ∧ ∀ v u, InByteRange (a.px v u))
    (fun j => j < o.faceVertices.length / 3)
    (fun a j hj ha => by
      obtain ⟨a1, e1, r1, c1, f1⟩ := bakeTriangle_byte o h hcol a ha.1 ha.2 j hj
      exact ⟨a1, e1, UVMap.Roomy.of_dims a a1 ha.1 r1 c1, f1⟩)
    (List.range (o.faceVertices.length / 3)) (fun j hj => by rwa [List.mem_range] at hj)
    UVMap.empty.initialise
    ⟨UVMap.initialise_roomy_empty, fun v u => by
      rw [UVMap.initialise_empty.2.2 v u]
      simp [InByteRange]⟩
  exact ⟨m1, hf, hP.2⟩

/-- The colour bake seen from any of its triangles that is not degenerate: `mi` is
the raster when the triangles up to `i` have been processed, `m1` the raster at the
end. -/
theorem texture_triangle (o : AttributedObject R) (h : BakeReady (colourValue o) o) (i : Nat)
    (hi : i < o.faceVertices.length / 3) (x0 y0 x1 y1 x2 y2 : ℤ) (k0 k1 k2 : Cartesian3)
    (hp0 : cornerPixel o (i * 3) = some (x0, y0))
    (hp1 : cornerPixel o (i * 3 + 1) = some (x1, y1))
    (hp2 : cornerPixel o (i * 3 + 2) = some (x2, y2))
    (hk0 : colourValue o (i * 3) = some k0) (hk1 : colourValue o (i * 3 + 1) = some k1)
    (hk2 : colourValue o (i * 3 + 2) = some k2)
    (hns : (edgeSetup x0 y0 x1 y1 x2 y2).skipped = false) :
    ∃ mi m1, foldOpt (bakeTriangle (colourValue o) o) UVMap.empty.initialise
        (List.range (i + 1)) = some mi ∧
      outputTexture o UVMap.empty = some m1 ∧
      (∀ v u, (edgeSetup x0 y0 x1 y1 x2 y2).passes u v = true →
        mi.px v u = truncVec (blend k0 k1 k2 ((edgeSetup x0 y0 x1 y1 x2 y2).alpha u v)
          ((edgeSetup x0 y0 x1 y1 x2 y2).beta u v)
          ((edgeSetup x0 y0 x1 y1 x2 y2).gamma u v))) ∧
      (∀ v u, (∀ j, i < j → j < o.faceVertices.length / 3 → ¬ Touches o j u v) →
        m1.px v u = mi.px v u) := by
  obtain ⟨mi, m1, hmi, hb, _, hbl, hfin⟩ := bake_triangle_spec (colourValue o) o h
    UVMap.empty UVMap.initialise_roomy_empty i hi x0 y0 x1 y1 x2 y2 k0 k1 k2
    hp0 hp1 hp2 hk0 hk1 hk2
  exact ⟨mi, m1, hmi, hb, fun v u hp => BlendOf.whole k0 k1 k2 _ u v _
    (colourValue_whole o _ k0 hk0) (colourValue_whole o _ k1 hk1)
    (colourValue_whole o _ k2 hk2) (hbl hns v u hp), hfin⟩

end AttributedObject

namespace AttributedObject

variable {R : Type}

theorem rgbThenPoint_conventional : rgbThenPoint.Conventional := by
  refine ⟨rfl, rfl, rfl, by decide, by decide, ?_⟩
  simp [rgbThenPoint, bakeMesh, sampleTex]
  norm_num

/-- The second triangle of `rgbThenPoint` does not touch the pixel (256,256). -/
theorem rgbThenPoint_later (j : Nat) (h0 : 0 < j)
    (h1 : j < rgbThenPoint.faceVertices.length / 3) : ¬ Touches rgbThenPoint j 256 256 := by
  have hj : j = 1 := by
    have : rgbThenPoint.faceVertices.length / 3 = 2 := rfl
    omega
  subst hj
  have p : ∀ c, c = 3 ∨ c = 4 ∨ c = 5 → cornerPixel rgbThenPoint c = some (512, 0) := by
    intro c hc
    rcases hc with rfl | rfl | rfl <;>
      simp [cornerPixel, rgbThenPoint, bakeMesh, sampleTex, truncInt] <;> norm_num
  rintro ⟨x0, y0, x1, y1, x2, y2, q0, q1, q2, hcase⟩
  rw [p 3 (Or.inl rfl)] at q0
  rw [p 4 (Or.inr (Or.inl rfl))] at q1
  rw [p 5 (Or.inr (Or.inr rfl))] at q2
  simp only [Option.some.injEq, Prod.mk.injEq] at q0 q1 q2
  obtain ⟨rfl, rfl⟩ := q0
  obtain ⟨rfl, rfl⟩ := q1
  obtain ⟨rfl, rfl⟩ := q2
  rcases hcase with hc | hc | hc | hc
  · exact absurd hc.1 (by norm_num)
  · exact absurd hc.1 (by norm_num)
  · exact absurd hc.1 (by norm_num)
  · have hs : (edgeSetup (512 : ℤ) (0 : ℤ) (512 : ℤ) (0 : ℤ) (512 : ℤ) (0 : ℤ)).skipped = true := by
      rw [skipped_iff]; norm_num [area2]
    rw [hs] at hc
    exact absurd hc.1 (by decide)

/-- C23, refuted as stated: the first triangle of the mesh `twoTriangles` is not
degenerate, its three corner values are (255,0,0) and it covers the pixel (256,256);
after `outputTexture` that pixel holds (0,255,0), written by the second triangle: its
red channel 0 is not the truncated blend 255 of the corner values and is below the
least of them. -/
theorem C23_counterexample :
    cornerPixel twoTriangles 0 = some (0, 0) ∧ cornerPixel twoTriangles 1 = some (1024, 0) ∧
    cornerPixel twoTriangles 2 = some (0, 1024) ∧
    colourValue twoTriangles 0 = some ⟨255, 0, 0⟩ ∧
    colourValue twoTriangles 1 = some ⟨255, 0, 0⟩ ∧
    colourValue twoTriangles 2 = some ⟨255, 0, 0⟩ ∧
    (edgeSetup (0 : ℤ) (0 : ℤ) (1024 : ℤ) (0 : ℤ) (0 : ℤ) (1024 : ℤ)).skipped = false ∧
    (edgeSetup (0 : ℤ) (0 : ℤ) (1024 : ℤ) (0 : ℤ) (0 : ℤ) (1024 : ℤ)).passes 256 256 = true ∧
    truncVec (blend ⟨255, 0, 0⟩ ⟨255, 0, 0⟩ ⟨255, 0, 0⟩
      ((edgeSetup (0 : ℤ) (0 : ℤ) (1024 : ℤ) (0 : ℤ) (0 : ℤ) (1024 : ℤ)).alpha 256 256)
      ((edgeSetup (0 : ℤ) (0 : ℤ) (1024 : ℤ) (0 : ℤ) (0 : ℤ) (1024 : ℤ)).beta 256 256)
      ((edgeSetup (0 : ℤ) (0 : ℤ) (1024 : ℤ) (0 : ℤ) (0 : ℤ) (1024 : ℤ)).gamma 256 256)) =
      ⟨255, 0, 0⟩ ∧
    ∃ m1, outputTexture twoTriangles UVMap.empty = some m1 ∧ m1.px 256 256 = ⟨0, 255, 0⟩ ∧
      (m1.px 256 256).x < min (255 : ℚ) (min 255 255) := by
  obtain ⟨m1, hb, _, hpx⟩ := texture_last twoTriangles
    (BakeReady.colour _ twoTriangles_conventional) 1 rfl 0 0 1024 0 0 1024
    ⟨0, 255, 0⟩ ⟨0, 255, 0⟩ ⟨0, 255, 0⟩
    (by simp [cornerPixel, twoTriangles, bakeMesh, sampleTex, truncInt])
    (by simp [cornerPixel, twoTriangles, bakeMesh, sampleTex, truncInt])
    (by simp [cornerPixel, twoTriangles, bakeMesh, sampleTex, truncInt])
    (by simp [colourValue, twoTriangles, bakeMesh, truncInt])
    (by simp [colourValue, twoTriangles, bakeMesh, truncInt])
    (by simp [colourValue, twoTriangles, bakeMesh, truncInt])
    sample_not_skipped 256 256 sample_passes
  have hval : m1.px 256 256 = ⟨0, 255, 0⟩ := by
    rw [hpx, sample_weights.1, sample_weights.2.1, sample_weights.2.2, blend_channels]
    simp only [truncVec, truncInt]
    norm_num [Int.floor_eq_iff]
  refine ⟨by simp [cornerPixel, twoTriangles, bakeMesh, sampleTex, truncInt],
    by simp [cornerPixel, twoTriangles, bakeMesh, sampleTex, truncInt],
    by simp [cornerPixel, twoTriangles, bakeMesh, sampleTex, truncInt],
    by simp [colourValue, twoTriangles, bakeMesh, truncInt],
    by simp [colourValue, twoTriangles, bakeMesh, truncInt],
    by simp [colourValue, twoTriangles, bakeMesh, truncInt],
    sample_not_skipped, sample_passes, ?_, m1, hb, hval, ?_⟩
  · rw [sample_weights.1, sample_weights.2.1, sample_weights.2.2, blend_channels]
    simp only [truncVec, truncInt]
    norm_num [Int.floor_eq_iff]
  · rw [hval]
    norm_num

/-- C23, amended. Colour bake stays in range, over exact arithmetic: for every
triangle `i` of a conventional mesh that is not degenerate, with `k0`, `k1`, `k2` the
values `trunc(255 * c)` written at its corners, and every pixel that passes its
half-plane test: when the triangles up to `i` have been processed (raster `mi`) the
pixel holds the truncated `alpha * k0 + beta * k1 + gamma * k2`, which lies per channel
between the least and the greatest of the three corner values, is that value when the
three are equal, and lies in `[0, 255]` when the colours have components in `[0, 1]`;
the pixel holds the same at the end of `outputTexture` (raster `m1`) unless a later
triangle writes it; and for colours with components in `[0, 1]` every pixel of the
final raster has its channels in `[0, 255]`. -/
theorem C23_colour_bake_stays_in_range (o : AttributedObject R) (h : o.Conventional)
    (i : Nat) (hi : i < o.faceVertices.length / 3) (x0 y0 x1 y1 x2 y2 : ℤ)
    (k0 k1 k2 : Cartesian3)
    (hp0 : cornerPixel o (i * 3) = some (x0, y0))
    (hp1 : cornerPixel o (i * 3 + 1) = some (x1, y1))
    (hp2 : cornerPixel o (i * 3 + 2) = some (x2, y2))
    (hk0 : colourValue o (i * 3) = some k0) (hk1 : colourValue o (i * 3 + 1) = some k1)
    (hk2 : colourValue o (i * 3 + 2) = some k2)
    (hns : (edgeSetup x0 y0 x1 y1 x2 y2).skipped = false) (u v : ℤ)
    (hpass : (edgeSetup x0 y0 x1 y1 x2 y2).passes u v = true) :
    ∃ mi m1, foldOpt (bakeTriangle (colourValue o) o) UVMap.empty.initialise
        (List.range (i + 1)) = some mi ∧
      outputTexture o UVMap.empty = some m1 ∧
      mi.px v u = truncVec (blend k0 k1 k2 ((edgeSetup x0 y0 x1 y1 x2 y2).alpha u v)
        ((edgeSetup x0 y0 x1 y1 x2 y2).beta u v) ((edgeSetup x0 y0 x1 y1 x2 y2).gamma u v)) ∧
      (min k0.x (min k1.x k2.x) ≤ (mi.px v u).x ∧ (mi.px v u).x ≤ max k0.x (max k1.x k2.x)) ∧
      (min k0.y (min k1.y k2.y) ≤ (mi.px v u).y ∧ (mi.px v u).y ≤ max k0.y (max k1.y k2.y)) ∧
      (min k0.z (min k1.z k2.z) ≤ (mi.px v u).z ∧ (mi.px v u).z ≤ max k0.z (max k1.z k2.z)) ∧
      (k0 = k1 → k1 = k2 → mi.px v u = k0) ∧
      ((∀ j, i < j → j < o.faceVertices.length / 3 → ¬ Touches o j u v) →
        m1.px v u = mi.px v u) ∧
      ((∀ c ∈ o.colours, 0 ≤ c.x ∧ c.x ≤ 1 ∧ 0 ≤ c.y ∧ c.y ≤ 1 ∧ 0 ≤ c.z ∧ c.z ≤ 1) →
        InByteRange (mi.px v u) ∧ ∀ b a, InByteRange (m1.px b a)) := by
  obtain ⟨mi, m1, hmi, hb, hpx, hfin⟩ := texture_triangle o (BakeReady.colour o h) i hi
    x0 y0 x1 y1 x2 y2 k0 k1 k2 hp0 hp1 hp2 hk0 hk1 hk2 hns
  obtain ⟨wa, wb, wc, ws⟩ := weights_of_pass x0 y0 x1 y1 x2 y2 u v hns hpass
  have t0 := colourValue_whole o _ k0 hk0
  have t1 := colourValue_whole o _ k1 hk1
  have t2 := colourValue_whole o _ k2 hk2
  obtain ⟨bx, by1, bz⟩ := truncBlend_between k0 k1 k2 t0 t1 t2 _ _ _ wa wb wc ws
  have hv := hpx v u hpass
  refine ⟨mi, m1, hmi, hb, hv, by rw [hv]; exact bx, by rw [hv]; exact by1,
    by rw [hv]; exact bz, ?_, hfin v u, ?_⟩
  · intro e01 e12
    rw [← hv] at bx by1 bz
    rw [← e12, ← e01] at bx by1 bz
    simp only [min_self, max_self] at bx by1 bz
    have hx : (mi.px v u).x = k0.x := le_antisymm bx.2 bx.1
    have hy : (mi.px v u).y = k0.y := le_antisymm by1.2 by1.1
    have hz : (mi.px v u).z = k0.z := le_antisymm bz.2 bz.1
    cases hm : mi.px v u with
    | mk a b c =>
      rw [hm] at hx hy hz
      simp only [] at hx hy hz
      subst hx hy hz
      rfl
  · intro hcol
    refine ⟨?_, ?_⟩
    · rw [hv]
      exact truncBlend_byte k0 k1 k2 t0 t1 t2 (colourValue_range o hcol _ k0 hk0)
        (colourValue_range o hcol _ k1 hk1) (colourValue_range o hcol _ k2 hk2) _ _ _
        wa wb wc ws
    · obtain ⟨m2, hb2, hr2⟩ := texture_byte_range o (BakeReady.colour o h) hcol
      rw [hb] at hb2
      rw [Option.some.inj hb2]
      exact hr2

/-- C23, amended, instantiated at the first triangle of the mesh `rgbThenPoint` and
the pixel (256,256), whose weights are 1/2, 1/4, 1/4 and which the second triangle
does not write: at the end of `outputTexture` the pixel holds (127, 63, 63). -/
theorem C23_witness :
    ∃ m1, outputTexture rgbThenPoint UVMap.empty = some m1 ∧
      m1.px 256 256 = ⟨127, 63, 63⟩ := by
  obtain ⟨mi, m1, _, hb, hpx, _, _, _, _, hfin, _⟩ := C23_colour_bake_stays_in_range
    rgbThenPoint rgbThenPoint_conventional 0 (by decide) 0 0 1024 0 0 1024
    ⟨255, 0, 0⟩ ⟨0, 255, 0⟩ ⟨0, 0, 255⟩
    (by simp [cornerPixel, rgbThenPoint, bakeMesh, sampleTex, truncInt])
    (by simp [cornerPixel, rgbThenPoint, bakeMesh, sampleTex, truncInt])
    (by simp [cornerPixel, rgbThenPoint, bakeMesh, sampleTex, truncInt])
    (by simp [colourValue, rgbThenPoint, bakeMesh, truncInt])
    (by simp [colourValue, rgbThenPoint, bakeMesh, truncInt])
    (by simp [colourValue, rgbThenPoint, bakeMesh, truncInt])
    sample_not_skipped 256 256 sample_passes
  refine ⟨m1, hb, ?_⟩
  rw [hfin rgbThenPoint_later, hpx, sample_weights.1, sample_weights.2.1, sample_weights.2.2,
    blend_channels]
  simp only [truncVec, truncInt]
  norm_num [Int.floor_eq_iff]

end AttributedObject
